import Mathlib

/-!
Verification development for the cursor-mobile-chat extraction pipeline.

This file gives a shallow embedding of the extractor core
(`packages/extractor/src/normalizer.ts`, `adapters/chatdata.ts`,
`adapters/composer.ts` and the shared utilities) and proves or refutes the
stated properties of that code.

Modelling conventions:
* JavaScript values flowing through the adapters are modelled by `JsonVal`,
  which includes `undef` for JavaScript `undefined` (absent properties).
* `safeJsonParse` returns `null` on a parse failure and the callers skip
  falsy values, so a database entry is modelled directly as a parsed
  `JsonVal`; an unparseable value is represented by `JsonVal.null`.
* The sha256-hex-truncate-to-16 hash of `generateStableId` is abstracted as
  a parameter `hash : String → String`; `generateStableId` keeps the
  join-with-bar structure of the source.
* `Date.now()` is passed in explicitly as `now : Int`.
* Numeric record fields (timestamps) are modelled as `Int`; a truthy
  non-numeric value in a numeric slot falls back to the default in the
  model (the source application always stores numbers there).
* SQLite `LIKE 'composerData:%'` is ASCII-case-insensitive, modelled with
  `String.toLower`.
-/

mutual

/-- JavaScript values as seen by the adapters (parsed JSON plus `undefined`). -/
inductive JsonVal where
  | null
  | undef
  | bool (b : Bool)
  | num (n : Int)
  | str (s : String)
  | arr (xs : JsonArr)
  | obj (fs : JsonObj)
deriving DecidableEq

/-- Array of JavaScript values. -/
inductive JsonArr where
  | nil
  | cons (hd : JsonVal) (tl : JsonArr)
deriving DecidableEq

/-- Object fields of a JavaScript value (in insertion order). -/
inductive JsonObj where
  | nil
  | cons (k : String) (v : JsonVal) (tl : JsonObj)
deriving DecidableEq

end

/-- View of a `JsonArr` as a plain list. -/
def JsonArr.toList : JsonArr → List JsonVal
  | .nil => []
  | .cons h t => h :: t.toList

/-- Build a `JsonArr` from a plain list. -/
def JsonArr.ofList : List JsonVal → JsonArr
  | [] => .nil
  | h :: t => .cons h (JsonArr.ofList t)

/-- First field with the given key, as in a JavaScript object lookup. -/
def JsonObj.lookupKey (k : String) : JsonObj → Option JsonVal
  | .nil => none
  | .cons k2 v t => if k2 = k then some v else t.lookupKey k

/-- JavaScript truthiness of a value. -/
def truthy : JsonVal → Bool
  | .null => false
  | .undef => false
  | .bool b => b
  | .num n => n != 0
  | .str s => s ≠ ""
  | .arr _ => true
  | .obj _ => true

/-- Property access `v.k`: `undefined` on a non-object or a missing key. -/
def jget (v : JsonVal) (k : String) : JsonVal :=
  match v with
  | .obj fs => (fs.lookupKey k).getD .undef
  | _ => (JsonVal.undef : JsonVal)

/-- JavaScript `a || b`. -/
def jor (a b : JsonVal) : JsonVal := if truthy a then a else b

/-- JavaScript `String(v)` for scalar values (the adapters only reach the
scalar cases; arrays and objects are approximated). -/
def jsToString : JsonVal → String
  | .str s => s
  | .num n => toString n
  | .bool b => if b then "true" else "false"
  | .null => "null"
  | .undef => "undefined"
  | .arr _ => ""
  | .obj _ => "[object Object]"

/-- Numeric value of `v || dflt` for a numeric slot: a truthy number is taken,
everything else (absent, `null`, `0`, non-numbers) falls back. -/
def jnumF (v : JsonVal) (dflt : Int) : Int :=
  match v with
  | .num n => if n = 0 then dflt else n
  | _ => dflt

/-- JavaScript `a || b` on an already-extracted number (`0` is falsy). -/
def intOr (a b : Int) : Int := if a = 0 then b else a

/-- String form of `String(v || now)` used in id derivation: a truthy value is
stringified, a falsy one is replaced by the current time. -/
def tsString (v : JsonVal) (now : Int) : String :=
  if truthy v then jsToString v else toString now

/-- Message roles (`MessageRoleSchema` in `shared/src/types.ts`). -/
inductive Role where
  | user
  | assistant
  | system
  | tool
deriving DecidableEq

/-- String form of a role, as stored in the source records. -/
def Role.toStr : Role → String
  | .user => "user"
  | .assistant => "assistant"
  | .system => "system"
  | .tool => "tool"

/-- Code block extracted from fenced content (`CodeBlockSchema`). -/
structure CodeBlock where
  language : String
  content : String
  filename : Option String := none
deriving DecidableEq

/-- Free-form metadata map; `JsonVal.undef` models a property explicitly set
to `undefined`. -/
abbrev Meta := List (String × JsonVal)

/-- One conversation turn (`MessageSchema`). -/
structure Message where
  id : String
  threadId : String
  role : Role
  content : String
  timestamp : Int
  codeBlocks : List CodeBlock
  metadata : Option Meta := none
deriving DecidableEq

/-- One conversation (`ThreadSchema`). -/
structure Thread where
  id : String
  title : Option String := none
  workspaceId : Option String := none
  workspaceName : Option String := none
  createdAt : Int
  updatedAt : Int
  messageCount : Nat
  lastMessage : Option String := none
  metadata : Option Meta := none
deriving DecidableEq

/-- Key/value rows of the `ItemTable` store, in row order, with values
already JSON-parsed (`JsonVal.null` for an unparseable value). -/
abbrev DB := List (String × JsonVal)

/-- Stable hash id (`generateStableId` in `shared/src/utils.ts`): inputs are
joined with a bar and hashed; `hash` abstracts sha256-hex truncated to 16
characters. -/
def generateStableId (hash : String → String) (inputs : List String) : String :=
  hash (String.intercalate "|" inputs)

/-- Backtick character (the code-fence marker). -/
def tick : Char := Char.ofNat 96

/-- JavaScript `\w` word character. -/
def isWordChar (c : Char) : Bool := c.isAlphanum || c = '_'

/-- Leading-match test used for substring search. -/
def listStarts : List Char → List Char → Bool
  | [], _ => true
  | _ :: _, [] => false
  | a :: xs, b :: ys => a = b && listStarts xs ys

/-- Substring containment on character lists. -/
def listHasInfix (sub : List Char) : List Char → Bool
  | [] => sub.isEmpty
  | c :: cs => listStarts sub (c :: cs) || listHasInfix sub cs

/-- JavaScript `s.includes(sub)`. -/
def strIncludes (s sub : String) : Bool := listHasInfix sub.data s.data

/-- ASCII lower-casing; models JavaScript `toLowerCase` on the ASCII keys
and role strings the pipeline sees. -/
def strLower (s : String) : String := String.mk (s.data.map Char.toLower)

/-- JavaScript `s.startsWith(t)`. -/
def strStarts (s t : String) : Bool := listStarts t.data s.data

/-- JavaScript `s.trim()` (ASCII whitespace). -/
def jsTrim (s : String) : String :=
  String.mk (((s.data.dropWhile Char.isWhitespace).reverse.dropWhile
    Char.isWhitespace).reverse)

/-- JavaScript `s.substring(0, n)`. -/
def strTake (s : String) (n : Nat) : String := String.mk (s.data.take n)

/-- Split at every occurrence of a separator character (JavaScript
`s.split(sep)`). -/
def splitOnChar (sep : Char) : List Char → List (List Char)
  | [] => [[]]
  | c :: cs =>
    let r := splitOnChar sep cs
    if c = sep then [] :: r
    else
      match r with
      | [] => [[c]]
      | h :: t => (c :: h) :: t

/-- JavaScript `s.split('\n')`. -/
def strSplitNl (s : String) : List String := (splitOnChar '\n' s.data).map String.mk

/-- Opening-fence match of the regex `︴``(\w+)?\n` at the head of the input:
three backticks, a maximal word-character run as the optional language tag,
then a required newline. Returns the tag and the input after the newline. -/
def tryOpen (cs : List Char) : Option (List Char × List Char) :=
  match cs with
  | a :: b :: c :: rest =>
    if a = tick ∧ b = tick ∧ c = tick then
      match rest.dropWhile isWordChar with
      | d :: rest2 => if d = '\n' then some (rest.takeWhile isWordChar, rest2) else none
      | [] => none
    else none
  | _ => none

/-- Lazy body match: split at the first occurrence of three backticks,
returning the text before it and the text after it. -/
def splitAtTicks : List Char → Option (List Char × List Char)
  | a :: b :: c :: rest =>
    if a = tick ∧ b = tick ∧ c = tick then some ([], rest)
    else (splitAtTicks (b :: c :: rest)).map (fun p => (a :: p.1, p.2))
  | _ => none

/-- Scan loop of `extractCodeBlocks`: the global regex
`︴``(\w+)?\n([\s\S]*?)︴`` ` is matched repeatedly, resuming after each match;
the first argument skips characters already consumed by a previous match. -/
def scanBlocks : Nat → List Char → List CodeBlock
  | n + 1, _ :: cs => scanBlocks n cs
  | _, [] => []
  | 0, c :: cs =>
    match tryOpen (c :: cs) with
    | some (tag, afterNl) =>
      match splitAtTicks afterNl with
      | some (body, rest) =>
        { language := if tag.isEmpty then "text" else String.mk tag,
          content := jsTrim (String.mk body) }
          :: scanBlocks (cs.length - rest.length) cs
      | none => scanBlocks 0 cs
    | none => scanBlocks 0 cs

/-- Code-block extraction from markdown-style content
(`extractCodeBlocks` in `shared/src/utils.ts`). -/
def extractCodeBlocks (content : String) : List CodeBlock :=
  scanBlocks 0 content.data

/-- Leading markup characters stripped from a title line (the regex
`[#*>\-\s]+` in both adapters). -/
def isTitleMarkup (c : Char) : Bool :=
  c = '#' || c = '*' || c = '>' || c = '-' || c.isWhitespace

namespace ChatDataAdapter

/-- Well-known key holding the chatdata payload. -/
def chatdataKey : String := "workbench.panel.aichat.view.aichat.chatdata"

/-- Well-known key holding the legacy prompt list. -/
def promptsKey : String := "aiService.prompts"

/-- Role normalization of the chatdata adapter
(`ChatDataAdapter.normalizeRole`). -/
def normalizeRole (role : String) : Role :=
  let n := strLower role
  if strIncludes n "user" || strIncludes n "human" then .user
  else if strIncludes n "assistant" || strIncludes n "ai" || strIncludes n "bot" then .assistant
  else if strIncludes n "system" then .system
  else if strIncludes n "tool" || strIncludes n "function" then .tool
  else .user

/-- Thread title derivation of the chatdata adapter
(`ChatDataAdapter.generateThreadTitle`). -/
def generateThreadTitle (firstMessage : Message) : String :=
  let content := jsTrim firstMessage.content
  let firstLine := (strSplitNl content).headD ""
  let t0 := jsTrim (String.mk (firstLine.data.dropWhile isTitleMarkup))
  let t1 := if t0.length > 60 then strTake t0 57 ++ "..." else t0
  if t1 = "" then "Untitled Conversation" else t1

/-- Extraction of a single message record
(`ChatDataAdapter.extractMessage`). -/
def extractMessage (hash : String → String) (now : Int) (msg : JsonVal)
    (threadId : String) (index : Nat) : Option Message :=
  if ¬ truthy msg then none else
  let contentV := jor (jget msg "content") (jor (jget msg "text") (jget msg "message"))
  if ¬ truthy contentV then none else
  let content := jsToString contentV
  let role := normalizeRole (jsToString (jor (jget msg "role")
    (jor (jget msg "type") (jor (jget msg "sender") (.str "user")))))
  some {
    id := generateStableId hash [threadId, role.toStr, toString index],
    threadId := threadId,
    role := role,
    content := content,
    timestamp := jnumF (jor (jget msg "timestamp") (jget msg "time")) now,
    codeBlocks := extractCodeBlocks content,
    metadata := some [("originalIndex", .num (index : Int)), ("source", msg)] }

/-- Extraction of one chat session
(`ChatDataAdapter.extractChatSession`). -/
def extractChatSession (hash : String → String) (now : Int) (ws : String)
    (session : JsonVal) (index : Nat) : Option (Thread × List Message) :=
  if ¬ truthy session then none else
  let sessionMessages := jor (jget session "messages")
    (jor (jget session "history") (jor (jget session "entries") (.arr .nil)))
  match sessionMessages with
  | .arr ms =>
    match ms.toList with
    | [] => none
    | m0 :: _ =>
      let threadId := generateStableId hash
        [ws, "chatdata", toString index, tsString (jget m0 "timestamp") now]
      let messages := ms.toList.enum.filterMap
        (fun p => extractMessage hash now p.2 threadId p.1)
      match messages with
      | [] => none
      | k0 :: _ =>
        let lastMessage := ((messages.getLast?).map (fun m => strTake m.content 100)).getD ""
        let thread : Thread := {
          id := threadId,
          title := some (generateThreadTitle k0),
          workspaceId := if ws = "_global_" then none else some ws,
          workspaceName :=
            (let w := jget session "workspace"
             if truthy w then some (jsToString w) else none),
          createdAt := intOr k0.timestamp now,
          updatedAt :=
            (match messages.getLast? with
             | some ml => intOr ml.timestamp now
             | none => now),
          messageCount := messages.length,
          lastMessage := some lastMessage,
          metadata := some [("source", .str "chatdata"), ("originalIndex", .num (index : Int))] }
        some (thread, messages)
  | _ => none

/-- Extraction of one legacy prompt/response pair
(`ChatDataAdapter.extractFromPrompt`). -/
def extractFromPrompt (hash : String → String) (now : Int) (ws : String)
    (prompt : JsonVal) (index : Nat) : Option (Thread × List Message) :=
  if ¬ truthy prompt then none else
  if ¬ truthy (jget prompt "prompt") then none else
  let threadId := generateStableId hash
    [ws, "prompts", toString index, tsString (jget prompt "timestamp") now]
  let userContent := jsToString (jget prompt "prompt")
  let userMessage : Message := {
    id := generateStableId hash [threadId, "user", toString 0],
    threadId := threadId,
    role := .user,
    content := userContent,
    timestamp := jnumF (jget prompt "timestamp") now,
    codeBlocks := extractCodeBlocks userContent }
  let messages :=
    if truthy (jget prompt "response") then
      let respContent := jsToString (jget prompt "response")
      [userMessage,
       { id := generateStableId hash [threadId, "assistant", toString 1],
         threadId := threadId,
         role := .assistant,
         content := respContent,
         timestamp := jnumF (jget prompt "timestamp") now + 1000,
         codeBlocks := extractCodeBlocks respContent }]
    else [userMessage]
  let thread : Thread := {
    id := threadId,
    title := some (generateThreadTitle userMessage),
    workspaceId := if ws = "_global_" then none else some ws,
    createdAt := userMessage.timestamp,
    updatedAt :=
      (match messages.getLast? with
       | some ml => intOr ml.timestamp userMessage.timestamp
       | none => userMessage.timestamp),
    messageCount := messages.length,
    lastMessage := some (((messages.getLast?).map (fun m => strTake m.content 100)).getD ""),
    metadata := some [("source", .str "prompts"), ("originalIndex", .num (index : Int))] }
  some (thread, messages)

/-- Extraction from the `aiService.prompts` payload
(`ChatDataAdapter.extractFromPrompts`); each extracted pair contributes
its thread followed by its messages. -/
def extractFromPrompts (hash : String → String) (now : Int) (ws : String)
    (data : JsonVal) : List (Thread × List Message) :=
  match data with
  | .arr ps => ps.toList.enum.filterMap (fun p => extractFromPrompt hash now ws p.2 p.1)
  | _ => []

/-- Extraction from the chatdata payload
(`ChatDataAdapter.extractFromChatData`): a bare array of sessions, an
object with a `conversations`/`chats` array, or a single session object. -/
def extractFromChatData (hash : String → String) (now : Int) (ws : String)
    (data : JsonVal) : List (Thread × List Message) :=
  match data with
  | .arr sessions =>
    sessions.toList.enum.filterMap (fun p => extractChatSession hash now ws p.2 p.1)
  | _ =>
    let chatArray := jor (jget data "conversations") (jget data "chats")
    if truthy chatArray then
      match chatArray with
      | .arr sessions =>
        sessions.toList.enum.filterMap (fun p => extractChatSession hash now ws p.2 p.1)
      | _ => []
    else if truthy (jor (jget data "messages") (jget data "history")) then
      (extractChatSession hash now ws data 0).toList
    else []

/-- Per-item thread/message chunks of the chatdata adapter: the source
accumulates `threads.push(result.thread); messages.push(...result.messages)`
per record, which is exactly this chunk list flattened componentwise. -/
def chunks (hash : String → String) (now : Int) (ws : String) (db : DB) :
    List (Thread × List Message) :=
  ((db.filter (fun it => it.1 = chatdataKey || it.1 = promptsKey)).map (fun it =>
    if ¬ truthy it.2 then []
    else if it.1 = chatdataKey then extractFromChatData hash now ws it.2
    else extractFromPrompts hash now ws it.2)).flatten

/-- Extraction entry point of the chatdata adapter
(`ChatDataAdapter.extract`). -/
def extract (hash : String → String) (now : Int) (ws : String) (db : DB) :
    List Thread × List Message :=
  ((chunks hash now ws db).map Prod.fst, ((chunks hash now ws db).map Prod.snd).flatten)

end ChatDataAdapter

namespace ComposerAdapter

/-- Key match of `getItemsByPattern('composerData:%')`; SQLite `LIKE` is
ASCII-case-insensitive. -/
def matchesComposerKey (k : String) : Bool :=
  strStarts (strLower k) "composerdata:"

/-- Characters following the first occurrence of `marker`, if any. -/
def dropAfterMarker (marker : List Char) : List Char → Option (List Char)
  | [] => none
  | c :: cs =>
    if listStarts marker (c :: cs) then some ((c :: cs).drop marker.length)
    else dropAfterMarker marker cs

/-- Composer id captured by the regex `composerData:(.+)` on the key
(`ComposerAdapter.extractComposerIdFromKey`); an empty capture means no
match, hence `"unknown"`. -/
def extractComposerIdFromKey (key : String) : String :=
  match dropAfterMarker "composerData:".data key.data with
  | some rest =>
    let captured := rest.takeWhile (fun c => c ≠ '\n')
    if captured.isEmpty then "unknown" else String.mk captured
  | none => "unknown"

/-- Role normalization of the composer adapter
(`ComposerAdapter.normalizeRole`); unlike the chatdata variant it matches
`cursor` rather than `bot`. -/
def normalizeRole (role : String) : Role :=
  if role = "" then .user else
  let n := strLower role
  if strIncludes n "user" || strIncludes n "human" then .user
  else if strIncludes n "assistant" || strIncludes n "ai" || strIncludes n "cursor" then .assistant
  else if strIncludes n "system" then .system
  else if strIncludes n "tool" || strIncludes n "function" then .tool
  else .user

/-- Title derived from the first message content (trimmed), with the
fenced-first-line scan of `ComposerAdapter.generateThreadTitle`. -/
def titleFromContent (content : String) : String :=
  let lines := strSplitNl content
  let firstLine := lines.headD ""
  let t0 := jsTrim (String.mk (firstLine.data.dropWhile isTitleMarkup))
  let t1 :=
    if strStarts t0 "```" then
      match ((lines.drop 1).take 4).find? (fun l => l ≠ "" && !strStarts l "```") with
      | some l => jsTrim l
      | none => t0
    else t0
  let t2 := if t1.length > 60 then strTake t1 57 ++ "..." else t1
  if t2 = "" then "New Conversation" else t2

/-- Thread title derivation of the composer adapter
(`ComposerAdapter.generateThreadTitle`). -/
def generateThreadTitle (data : JsonVal) (firstMessage : Message) : String :=
  match jget data "title" with
  | .str s => if s ≠ "" && jsTrim s ≠ "" then jsTrim s else titleFromContent (jsTrim firstMessage.content)
  | _ => titleFromContent (jsTrim firstMessage.content)

/-- Extraction of one composer conversation message
(`ComposerAdapter.extractComposerMessage`); note the id is derived from a
temporary thread id computed without the timestamp component. -/
def extractComposerMessage (hash : String → String) (now : Int) (ws : String)
    (msg : JsonVal) (composerId : String) (index : Nat) : Option Message :=
  if ¬ truthy msg then none else
  let contentV := jor (jget msg "content") (jor (jget msg "text")
    (jor (jget msg "message") (jor (jget msg "prompt") (jget msg "response"))))
  if ¬ truthy contentV then none else
  let content := jsToString contentV
  let role := normalizeRole (jsToString (jor (jget msg "role")
    (jor (jget msg "type") (jor (jget msg "sender") (.str "user")))))
  let tempThreadId := generateStableId hash [ws, "composer", composerId]
  some {
    id := generateStableId hash [tempThreadId, role.toStr, toString index],
    threadId := tempThreadId,
    role := role,
    content := content,
    timestamp := jnumF (jor (jget msg "timestamp")
      (jor (jget msg "createdAt") (jget msg "time"))) now,
    codeBlocks := extractCodeBlocks content,
    metadata := some [("originalIndex", .num (index : Int)), ("composerId", .str composerId),
      ("source", msg), ("messageType", jget msg "messageType"),
      ("contextFiles", jget msg "contextFiles"),
      ("codebaseContexts", jget msg "codebaseContexts")] }

/-- Extraction of a bare prompt/response composer entry
(`ComposerAdapter.extractSinglePrompt`). -/
def extractSinglePrompt (hash : String → String) (now : Int) (ws : String)
    (data : JsonVal) (composerId : String) : Option (Thread × List Message) :=
  let threadId := generateStableId hash
    [ws, "composer", composerId, tsString (jget data "timestamp") now]
  let userMsgs : List Message :=
    if truthy (jget data "prompt") then
      let c := jsToString (jget data "prompt")
      [{ id := generateStableId hash [threadId, "user", "0"],
         threadId := threadId, role := .user, content := c,
         timestamp := jnumF (jget data "timestamp") now,
         codeBlocks := extractCodeBlocks c }]
    else []
  let messages : List Message := userMsgs ++
    (if truthy (jget data "response") then
      let c := jsToString (jget data "response")
      [{ id := generateStableId hash [threadId, "assistant", "1"],
         threadId := threadId, role := .assistant, content := c,
         timestamp := jnumF (jget data "timestamp") now + 1000,
         codeBlocks := extractCodeBlocks c }]
    else [])
  match messages with
  | [] => none
  | m0 :: _ =>
    let mlast := messages.getLastD m0
    some ({
      id := threadId,
      title := some (generateThreadTitle data m0),
      workspaceId := if ws = "_global_" then none else some ws,
      createdAt := m0.timestamp,
      updatedAt := mlast.timestamp,
      messageCount := messages.length,
      lastMessage := some (strTake mlast.content 100),
      metadata := some [("source", .str "composer"), ("composerId", .str composerId)] },
      messages)

/-- Extraction of one composer entry
(`ComposerAdapter.extractComposerData`). -/
def extractComposerData (hash : String → String) (now : Int) (ws : String)
    (data : JsonVal) (composerId : String) : Option (Thread × List Message) :=
  if ¬ truthy data then none else
  let conversation := jor (jget data "conversation")
    (jor (jget data "messages") (jget data "history"))
  if ¬ truthy conversation ∧ truthy (jget data "prompt") then
    extractSinglePrompt hash now ws data composerId
  else
    let messages : List Message :=
      match conversation with
      | .arr xs => xs.toList.enum.filterMap
          (fun p => extractComposerMessage hash now ws p.2 composerId p.1)
      | .obj _ => (extractComposerMessage hash now ws conversation composerId 0).toList
      | _ => []
    match messages with
    | [] => none
    | m0 :: _ =>
      let threadId := generateStableId hash
        [ws, "composer", composerId, toString (intOr m0.timestamp now)]
      let messages2 := messages.map (fun m => { m with threadId := threadId })
      let mlast := messages2.getLastD { m0 with threadId := threadId }
      some ({
        id := threadId,
        title := some (generateThreadTitle data m0),
        workspaceId := if ws = "_global_" then none else some ws,
        workspaceName :=
          (let w := jget data "workspaceName"
           if truthy w then some (jsToString w) else none),
        createdAt := intOr m0.timestamp (jnumF (jget data "createdAt") now),
        updatedAt := intOr mlast.timestamp (jnumF (jget data "updatedAt") now),
        messageCount := messages2.length,
        lastMessage := some (strTake mlast.content 100),
        metadata := some [("source", .str "composer"), ("composerId", .str composerId),
          ("originalData", .obj (.cons "title" (jget data "title")
            (.cons "tags" (jget data "tags")
              (.cons "starred" (jget data "starred") .nil))))] },
        messages2)

/-- Per-item thread/message chunks of the composer adapter: one optional
chunk per `composerData:%` row. -/
def chunks (hash : String → String) (now : Int) (ws : String) (db : DB) :
    List (Thread × List Message) :=
  (db.filter (fun it => matchesComposerKey it.1)).filterMap (fun it =>
    if ¬ truthy it.2 then none
    else extractComposerData hash now ws it.2 (extractComposerIdFromKey it.1))

/-- Extraction entry point of the composer adapter
(`ComposerAdapter.extract`). -/
def extract (hash : String → String) (now : Int) (ws : String) (db : DB) :
    List Thread × List Message :=
  ((chunks hash now ws db).map Prod.fst, ((chunks hash now ws db).map Prod.snd).flatten)

end ComposerAdapter

/-- Resolved normalizer configuration (`NormalizerOptions`); after the object
spread every field may still be `undefined`, modelled by `none`. -/
structure NormalizerOptions where
  enableChatData : Option Bool
  enableComposer : Option Bool
  preferComposer : Option Bool
  maxThreadsPerDb : Option Nat
  maxMessagesPerThread : Option Nat
deriving DecidableEq

/-- Constructor argument `Partial<NormalizerOptions>`: the outer `Option`
records whether the property is present at all, the inner value may be an
explicit `undefined` (`none`). -/
structure PartialOptions where
  enableChatData : Option (Option Bool) := none
  enableComposer : Option (Option Bool) := none
  preferComposer : Option (Option Bool) := none
  maxThreadsPerDb : Option (Option Nat) := none
  maxMessagesPerThread : Option (Option Nat) := none

/-- Object spread `{ ...defaultOptions, ...options }`: a property present in
the constructor argument overrides the default even when its value is
`undefined`. -/
def spreadOptions (p : PartialOptions) : NormalizerOptions :=
  { enableChatData := p.enableChatData.getD (some true),
    enableComposer := p.enableComposer.getD (some true),
    preferComposer := p.preferComposer.getD (some true),
    maxThreadsPerDb := p.maxThreadsPerDb.getD (some 1000),
    maxMessagesPerThread := p.maxMessagesPerThread.getD (some 1000) }

/-- Truthiness of a possibly-undefined boolean option. -/
def obTruthy (b : Option Bool) : Bool := b.getD false

/-- Metadata attached to one normalization result. -/
structure ResultMetadata where
  databasePath : String
  workspaceId : String
  extractedAt : Int
  adaptersUsed : List String
  totalThreads : Nat
  totalMessages : Nat
deriving DecidableEq

/-- Per-database output bundle (`NormalizationResult`). -/
structure NormalizationResult where
  threads : List Thread
  messages : List Message
  metadata : ResultMetadata
deriving DecidableEq

/-- Adapter stage of `CursorDataNormalizer.normalizeDatabase`: run the
composer adapter when enabled, then the chatdata adapter when enabled and
either composer is not preferred or it produced nothing; merge or replace
per the source's branches. Also returns `adaptersUsed`. -/
def mergedOf (hash : String → String) (now : Int) (opts : NormalizerOptions)
    (ws : String) (db : DB) : (List Thread × List Message) × List String :=
  let comp :=
    if obTruthy opts.enableComposer then
      let cr := ComposerAdapter.extract hash now ws db
      if cr.1.length > 0 then (cr, ["composer"]) else ((([] : List Thread), ([] : List Message)), ([] : List String))
    else ((([] : List Thread), ([] : List Message)), ([] : List String))
  let allT := comp.1.1
  let allM := comp.1.2
  let used := comp.2
  if obTruthy opts.enableChatData && (!obTruthy opts.preferComposer || allT.length == 0) then
    let cd := ChatDataAdapter.extract hash now ws db
    if cd.1.length > 0 then
      let merged :=
        if obTruthy opts.preferComposer && allT.length > 0 then
          let existingThreadIds := allT.map (fun t => t.id)
          let newThreads := cd.1.filter (fun t => !existingThreadIds.contains t.id)
          let newMessages := cd.2.filter (fun m => newThreads.any (fun t => t.id == m.threadId))
          (allT ++ newThreads, allM ++ newMessages)
        else if allT.length == 0 then cd
        else (allT, allM)
      (merged, if used.contains "chatdata" then used else used ++ ["chatdata"])
    else (comp.1, used)
  else (comp.1, used)

/-- Thread retention limit (`normalizeDatabase`, first limit block): when the
configured value is truthy and exceeded, keep the most recent threads by
`updatedAt` (stable sort, descending) and drop the other threads' messages. -/
def applyThreadLimit (limit : Option Nat) (tm : List Thread × List Message) :
    List Thread × List Message :=
  match limit with
  | some l =>
    if l ≠ 0 ∧ tm.1.length > l then
      let kept := (tm.1.mergeSort (fun a b => decide (b.updatedAt ≤ a.updatedAt))).take l
      let keptThreadIds := kept.map (fun t => t.id)
      (kept, tm.2.filter (fun m => keptThreadIds.contains m.threadId))
    else tm
  | none => tm

/-- Distinct values in first-occurrence order, as produced by inserting into
a JavaScript `Map` while iterating. -/
def firstDedup : List String → List String
  | [] => []
  | x :: xs => x :: firstDedup (xs.filter (fun y => y ≠ x))
termination_by l => l.length
decreasing_by
  simp only [List.length_cons]
  exact Nat.lt_succ_of_le (List.length_filter_le _ _)

/-- Mutation of the first thread with the given id (`allThreads.find` followed
by in-place update). -/
def updateFirst (tid : String) (f : Thread → Thread) : List Thread → List Thread
  | [] => []
  | t :: ts => if t.id = tid then f t :: ts else t :: updateFirst tid f ts

/-- Recomputation of `messageCount` and `lastMessage` from a truncated
message group. -/
def updateThreadForGroup (lim : List Message) (t : Thread) : Thread :=
  match lim.getLast? with
  | some m => { t with messageCount := lim.length, lastMessage := some (strTake m.content 100) }
  | none => { t with messageCount := lim.length }

/-- Per-thread message limit (`normalizeDatabase`, second limit block): group
messages by thread in first-occurrence order, sort each group by timestamp
ascending, truncate, rebuild the message list and update each group's
thread. -/
def applyMessageLimit (limit : Option Nat) (tm : List Thread × List Message) :
    List Thread × List Message :=
  match limit with
  | some l =>
    if l ≠ 0 then
      let tids := firstDedup (tm.2.map (fun m => m.threadId))
      tids.foldl (fun acc tid =>
        let group := tm.2.filter (fun m => m.threadId = tid)
        let limited := (group.mergeSort (fun a b => decide (a.timestamp ≤ b.timestamp))).take l
        (updateFirst tid (updateThreadForGroup limited) acc.1, acc.2 ++ limited))
        (tm.1, ([] : List Message))
    else tm
  | none => tm

/-- Normalization of one database
(`CursorDataNormalizer.normalizeDatabase`); `ws` stands for the value of
`CursorPathDiscovery.getWorkspaceIdentifier(dbPath) || 'unknown'`. -/
def normalizeDatabase (hash : String → String) (now : Int) (popts : PartialOptions)
    (dbPath ws : String) (db : DB) : NormalizationResult :=
  let opts := spreadOptions popts
  let m := mergedOf hash now opts ws db
  let tm1 := applyThreadLimit opts.maxThreadsPerDb m.1
  let tm2 := applyMessageLimit opts.maxMessagesPerThread tm1
  { threads := tm2.1,
    messages := tm2.2,
    metadata := {
      databasePath := dbPath,
      workspaceId := ws,
      extractedAt := now,
      adaptersUsed := m.2,
      totalThreads := tm2.1.length,
      totalMessages := tm2.2.length } }

/-- Output shape of the diff engine. -/
structure DiffResult where
  newThreads : List Thread
  newMessages : List Message
  updatedThreads : List Thread
deriving DecidableEq

/-- Cheap equality check (`CursorDataNormalizer.isEqual`); `fast-deep-equal`
on plain data is structural equality. -/
def isEqual (a b : NormalizationResult) : Bool :=
  a.threads == b.threads && a.messages == b.messages

/-- Snapshot diff (`CursorDataNormalizer.diff`). -/
def diff (previous : Option NormalizationResult) (current : NormalizationResult) :
    DiffResult :=
  match previous with
  | none =>
    { newThreads := current.threads,
      newMessages := current.messages,
      updatedThreads := [] }
  | some prev =>
    let prevThreadIds := prev.threads.map (fun t => t.id)
    let prevMessageIds := prev.messages.map (fun m => m.id)
    { newThreads := current.threads.filter (fun t => !prevThreadIds.contains t.id),
      newMessages := current.messages.filter (fun m => !prevMessageIds.contains m.id),
      updatedThreads := current.threads.filter (fun c =>
        match prev.threads.find? (fun t => t.id == c.id) with
        | some p => decide (p ≠ c)
        | none => false) }

/-- Specification-side fenced region for the code-block round trip: a
language tag and the inner text between the fence markers. -/
structure SpecRegion where
  tag : List Char
  body : List Char

/-- Rendering of one fenced region: three backticks, the tag, a newline, the
body, three backticks. -/
def renderRegion (r : SpecRegion) : List Char :=
  tick :: tick :: tick :: (r.tag ++ '\n' :: (r.body ++ [tick, tick, tick]))

/-- Content made of fenced regions separated by gaps, with a trailing gap. -/
def renderDoc : List (List Char × SpecRegion) → List Char → List Char
  | [], final => final
  | (gap, r) :: rest, final => gap ++ renderRegion r ++ renderDoc rest final

/-- Well-formedness of a gap between fenced regions: no fence marker
characters, so the regions are unambiguous. -/
def gapOK (g : List Char) : Bool := g.all (fun c => c ≠ tick)

/-- Occurrence test for a triple backtick. -/
def hasTripleTick : List Char → Bool
  | a :: b :: c :: rest => (a = tick && b = tick && c = tick) || hasTripleTick (b :: c :: rest)
  | _ => false

/-- Well-formedness of a fenced region: a word-character tag and a body that
neither contains a closing marker nor runs into the closing fence. -/
def regionOK (r : SpecRegion) : Bool :=
  r.tag.all isWordChar && !hasTripleTick r.body && r.body.getLast? ≠ some tick

/-- Well-formedness of a whole document. -/
def docOK (segs : List (List Char × SpecRegion)) (final : List Char) : Bool :=
  segs.all (fun s => gapOK s.1 && regionOK s.2) && gapOK final

/-- Code block the specification predicts for a well-formed region. -/
def specBlock (r : SpecRegion) : CodeBlock :=
  { language := if r.tag.isEmpty then "text" else String.mk r.tag,
    content := jsTrim (String.mk r.body) }

/-- Record carries a truthy numeric `timestamp` field. -/
def hasGoodTS (m : JsonVal) : Bool :=
  match jget m "timestamp" with
  | .num n => n != 0
  | _ => false

/-- Numeric `timestamp` field of a record (`0` when absent). -/
def tsVal (m : JsonVal) : Int :=
  match jget m "timestamp" with
  | .num n => n
  | _ => 0

/-- Kept-record test of the chatdata message extraction. -/
def chatKeep (m : JsonVal) : Bool :=
  truthy m && truthy (jor (jget m "content") (jor (jget m "text") (jget m "message")))

/-- Kept-record test of the composer message extraction. -/
def composerKeep (m : JsonVal) : Bool :=
  truthy m && truthy (jor (jget m "content") (jor (jget m "text")
    (jor (jget m "message") (jor (jget m "prompt") (jget m "response")))))

/-- Message-array view of a chat session, mirroring `extractChatSession`. -/
def sessionMsgs (session : JsonVal) : JsonVal :=
  jor (jget session "messages")
    (jor (jget session "history") (jor (jget session "entries") (.arr .nil)))

/-- Session whose records all carry timestamps (including the first record,
whose timestamp seeds the thread id). -/
def sessionTS (session : JsonVal) : Bool :=
  !truthy session ||
  (match sessionMsgs session with
   | .arr ms =>
     match ms.toList with
     | [] => true
     | m0 :: _ => hasGoodTS m0 && ms.toList.all (fun m => !chatKeep m || hasGoodTS m)
   | _ => true)

/-- Chatdata payload whose reachable session records all carry timestamps. -/
def chatDataTS (data : JsonVal) : Bool :=
  match data with
  | .arr sessions => sessions.toList.all sessionTS
  | _ =>
    let chatArray := jor (jget data "conversations") (jget data "chats")
    if truthy chatArray then
      match chatArray with
      | .arr sessions => sessions.toList.all sessionTS
      | _ => true
    else if truthy (jor (jget data "messages") (jget data "history")) then sessionTS data
    else true

/-- Prompt record carrying a timestamp whenever it is extracted. -/
def promptTS (p : JsonVal) : Bool :=
  !(truthy p && truthy (jget p "prompt")) || hasGoodTS p

/-- Prompts payload whose records all carry timestamps. -/
def promptsTS (data : JsonVal) : Bool :=
  match data with
  | .arr ps => ps.toList.all promptTS
  | _ => true

/-- Conversation view of a composer entry, mirroring `extractComposerData`. -/
def composerConv (data : JsonVal) : JsonVal :=
  jor (jget data "conversation") (jor (jget data "messages") (jget data "history"))

/-- Composer entry whose reachable records all carry timestamps. -/
def composerDataTS (data : JsonVal) : Bool :=
  !truthy data ||
  (if ¬ truthy (composerConv data) ∧ truthy (jget data "prompt") then hasGoodTS data
   else match composerConv data with
     | .arr xs => xs.toList.all (fun m => !composerKeep m || hasGoodTS m)
     | .obj _ => !composerKeep (composerConv data) || hasGoodTS (composerConv data)
     | _ => true)

/-- Every record reachable by either adapter carries a truthy numeric
timestamp (the assumption of the idempotence property). -/
def dbTimestamped (db : DB) : Bool :=
  db.all (fun it =>
    (!(it.1 = ChatDataAdapter.chatdataKey) || (!truthy it.2 || chatDataTS it.2)) &&
    (!(it.1 = ChatDataAdapter.promptsKey) || (!truthy it.2 || promptsTS it.2)) &&
    (!ComposerAdapter.matchesComposerKey it.1 || (!truthy it.2 || composerDataTS it.2)))

/-- Non-strict ascending order of a list of integers. -/
def ascInts : List Int → Bool
  | a :: b :: rest => a ≤ b && ascInts (b :: rest)
  | _ => true

/-- Session whose kept records carry timestamps in ascending order. -/
def sessionAsc (session : JsonVal) : Bool :=
  !truthy session ||
  (match sessionMsgs session with
   | .arr ms =>
     let kept := ms.toList.filter chatKeep
     kept.all hasGoodTS && ascInts (kept.map tsVal)
   | _ => true)

/-- Chatdata payload whose reachable sessions are ascending. -/
def chatDataAsc (data : JsonVal) : Bool :=
  match data with
  | .arr sessions => sessions.toList.all sessionAsc
  | _ =>
    let chatArray := jor (jget data "conversations") (jget data "chats")
    if truthy chatArray then
      match chatArray with
      | .arr sessions => sessions.toList.all sessionAsc
      | _ => true
    else if truthy (jor (jget data "messages") (jget data "history")) then sessionAsc data
    else true

/-- Composer entry whose kept conversation records are ascending. -/
def composerDataAsc (data : JsonVal) : Bool :=
  !truthy data ||
  (if ¬ truthy (composerConv data) ∧ truthy (jget data "prompt") then true
   else match composerConv data with
     | .arr xs =>
       let kept := xs.toList.filter composerKeep
       kept.all hasGoodTS && ascInts (kept.map tsVal)
     | .obj _ => !composerKeep (composerConv data) || hasGoodTS (composerConv data)
     | _ => true)

/-- Every session or conversation reachable by the adapters keeps its
messages in ascending timestamp order with timestamps present. -/
def dbAscending (db : DB) : Bool :=
  db.all (fun it =>
    (!(it.1 = ChatDataAdapter.chatdataKey) || (!truthy it.2 || chatDataAsc it.2)) &&
    (!ComposerAdapter.matchesComposerKey it.1 || (!truthy it.2 || composerDataAsc it.2)))

/-- Thread together with its own nonempty message group, counted correctly:
the shape in which both adapters emit data. -/
def GoodChunk (c : Thread × List Message) : Prop :=
  c.2 ≠ [] ∧ (∀ m ∈ c.2, m.threadId = c.1.id) ∧ c.1.messageCount = c.2.length

/-- Threads of a chunk list. -/
def chunkThreads (cs : List (Thread × List Message)) : List Thread := cs.map Prod.fst

/-- Messages of a chunk list, flattened in order. -/
def chunkMessages (cs : List (Thread × List Message)) : List Message :=
  (cs.map Prod.snd).flatten

/-- Pairing invariant between a thread list and a message list: every message
references a thread, every thread counts exactly its referencing messages and
has at least one. -/
def PairedInv (ts : List Thread) (ms : List Message) : Prop :=
  (∀ m ∈ ms, ∃ t ∈ ts, m.threadId = t.id) ∧
  (∀ t ∈ ts, t.messageCount = (ms.filter (fun m => m.threadId = t.id)).length ∧
    0 < t.messageCount)

/-- Identity stand-in for the hash in closed, concrete scenarios. -/
def idHash : String → String := fun s => s

/-- Legacy prompt record of the C4 scenario. -/
def promptFixBug : JsonVal :=
  .obj (.cons "prompt" (.str "fix bug")
    (.cons "response" (.str "done") (.cons "timestamp" (.num 1000) .nil)))

/-- Database holding only the C4 prompt record. -/
def dbPrompts : DB := [("aiService.prompts", .arr (.cons promptFixBug .nil))]

/-- Conversation record with content and timestamp, used in concrete
composer scenarios. -/
def convMsg5 : JsonVal :=
  .obj (.cons "content" (.str "hi")
    (.cons "timestamp" (.num 5) (.cons "role" (.str "user") .nil)))

/-- Composer entry wrapping `convMsg5`. -/
def composerEntry : JsonVal := .obj (.cons "conversation" (.arr (.cons convMsg5 .nil)) .nil)

/-- Database with a single composer conversation. -/
def dbComposerC1 : DB := [("composerData:c1", composerEntry)]

/-- Database whose two composer keys both derive the composer id
`"unknown"`, so their thread ids coincide for every hash. -/
def dbDupUnknown : DB :=
  [("composerData:", composerEntry), ("composerData:unknown", composerEntry)]

/-- The message extracted from each of the two duplicate-id composer
entries (after its threadId is overwritten with the timestamped id). -/
def dupMsg : Message :=
  { id := "w|composer|unknown|user|0",
    threadId := "w|composer|unknown|5",
    role := .user,
    content := "hi",
    timestamp := 5,
    codeBlocks := [],
    metadata := some [("originalIndex", JsonVal.num 0), ("composerId", JsonVal.str "unknown"),
      ("source", convMsg5), ("messageType", JsonVal.undef),
      ("contextFiles", JsonVal.undef), ("codebaseContexts", JsonVal.undef)] }

/-- The thread extracted from each of the two duplicate-id composer
entries. -/
def dupThread : Thread :=
  { id := "w|composer|unknown|5",
    title := some "hi",
    workspaceId := some "w",
    workspaceName := none,
    createdAt := 5,
    updatedAt := 5,
    messageCount := 1,
    lastMessage := some "hi",
    metadata := some [("source", JsonVal.str "composer"), ("composerId", JsonVal.str "unknown"),
      ("originalData", JsonVal.obj (JsonObj.cons "title" JsonVal.undef
        (JsonObj.cons "tags" JsonVal.undef
          (JsonObj.cons "starred" JsonVal.undef JsonObj.nil))))] }

/-- Database where both adapters would produce data. -/
def dbBoth : DB := dbComposerC1 ++ dbPrompts

/-- Chat session whose two messages are in descending timestamp order. -/
def sessUnsorted : JsonVal :=
  .obj (.cons "messages" (.arr (.cons
    (.obj (.cons "content" (.str "a") (.cons "timestamp" (.num 100) .nil)))
    (.cons (.obj (.cons "content" (.str "b") (.cons "timestamp" (.num 50) .nil))) .nil))) .nil)

/-- Database holding the unsorted session. -/
def dbChatUnsorted : DB := [(ChatDataAdapter.chatdataKey, .arr (.cons sessUnsorted .nil))]

/-- Chat session with ascending timestamps. -/
def sessSorted : JsonVal :=
  .obj (.cons "messages" (.arr (.cons
    (.obj (.cons "content" (.str "a") (.cons "timestamp" (.num 50) .nil)))
    (.cons (.obj (.cons "content" (.str "b") (.cons "timestamp" (.num 100) .nil))) .nil))) .nil)

/-- Database holding the sorted session. -/
def dbChatSorted : DB := [(ChatDataAdapter.chatdataKey, .arr (.cons sessSorted .nil))]

/-- Metadata value for concrete diff scenarios. -/
def rmeta0 : ResultMetadata :=
  { databasePath := "p", workspaceId := "w", extractedAt := 0,
    adaptersUsed := [], totalThreads := 0, totalMessages := 0 }

/-- Thread `A` as first extracted. -/
def threadA : Thread := { id := "A", createdAt := 0, updatedAt := 1, messageCount := 1 }

/-- Thread `A` after a change (same id, different title). -/
def threadA2 : Thread := { threadA with title := some "t" }

/-- Thread `B`, new in the current snapshot. -/
def threadB : Thread := { id := "B", createdAt := 0, updatedAt := 2, messageCount := 1 }

/-- Previous snapshot for the concrete diff scenario. -/
def resPrev : NormalizationResult :=
  { threads := [threadA], messages := [], metadata := rmeta0 }

/-- Current snapshot for the concrete diff scenario. -/
def resCur : NormalizationResult :=
  { threads := [threadA2, threadB], messages := [], metadata := rmeta0 }

/-- Membership form of `List.contains` on strings. -/
theorem contains_eq_true_iff {l : List String} {a : String} :
    l.contains a = true ↔ a ∈ l := List.elem_iff

/-- C2 (diff classification and totality): with no previous snapshot every
current thread and message is new and nothing is updated; against a previous
snapshot a current thread (resp. message) is new iff its id does not occur
among the previous thread (resp. message) ids, a current thread is updated
iff the previous thread record found for its id differs from it as a value,
and every current thread is classified: it is new or its id occurs in the
previous snapshot. -/
theorem diff_classification
    (prevR : Option NormalizationResult) (current : NormalizationResult) :
    ((diff none current).newThreads = current.threads ∧
     (diff none current).newMessages = current.messages ∧
     (diff none current).updatedThreads = []) ∧
    (∀ p, prevR = some p →
      ((∀ t, t ∈ (diff prevR current).newThreads ↔
          (t ∈ current.threads ∧ t.id ∉ p.threads.map Thread.id)) ∧
       (∀ m, m ∈ (diff prevR current).newMessages ↔
          (m ∈ current.messages ∧ m.id ∉ p.messages.map Message.id)) ∧
       (∀ t, t ∈ (diff prevR current).updatedThreads ↔
          (t ∈ current.threads ∧
           ∃ q, p.threads.find? (fun x => x.id == t.id) = some q ∧ q ≠ t)) ∧
       (∀ t, t ∈ current.threads ↔
          (t ∈ (diff prevR current).newThreads ∨
           (t ∈ current.threads ∧ t.id ∈ p.threads.map Thread.id))))) := by
  refine ⟨⟨rfl, rfl, rfl⟩, ?_⟩
  rintro p rfl
  refine ⟨?_, ?_, ?_, ?_⟩
  · intro t
    simp [diff, List.mem_filter, contains_eq_true_iff]
  · intro m
    simp [diff, List.mem_filter, contains_eq_true_iff]
  · intro t
    simp only [diff, List.mem_filter]
    constructor
    · rintro ⟨ht, hc⟩
      refine ⟨ht, ?_⟩
      revert hc
      cases hfind : p.threads.find? (fun x => x.id == t.id) with
      | none => simp
      | some q => intro hq; exact ⟨q, rfl, by simpa using hq⟩
    · rintro ⟨ht, q, hfind, hne⟩
      refine ⟨ht, ?_⟩
      simp [hfind, hne]
  · intro t
    by_cases h : t.id ∈ p.threads.map Thread.id
    · constructor
      · intro ht
        exact Or.inr ⟨ht, h⟩
      · rintro (hnew | ⟨ht, _⟩)
        · exact (List.mem_filter.mp hnew).1
        · exact ht
    · constructor
      · intro ht
        refine Or.inl (List.mem_filter.mpr ⟨ht, ?_⟩)
        simpa [contains_eq_true_iff] using h
      · rintro (hnew | ⟨ht, _⟩)
        · exact (List.mem_filter.mp hnew).1
        · exact ht

/-- Witness for C2 at a concrete pair of snapshots: the changed thread `A`
is reported as updated. -/
theorem diff_classification_witness :
    (threadA2 ∈ (diff (some resPrev) resCur).updatedThreads ↔
      (threadA2 ∈ resCur.threads ∧
       ∃ q, resPrev.threads.find? (fun x => x.id == threadA2.id) = some q ∧ q ≠ threadA2)) ∧
    threadA2 ∈ (diff (some resPrev) resCur).updatedThreads := by
  have h := (diff_classification (some resPrev) resCur).2 resPrev rfl
  exact ⟨h.2.2.1 threadA2,
    (h.2.2.1 threadA2).mpr ⟨by decide, threadA, by decide, by decide⟩⟩

/-- C4 counterexample: on the database holding the single legacy entry
`{prompt: "fix bug", response: "done", timestamp: 1000}` the chatdata
adapter gives the assistant message timestamp 2000 (the source timestamp
plus 1000), not 1001 as claimed. -/
theorem legacy_prompt_scenario_counterexample :
    ((ChatDataAdapter.extract idHash 999 "w" dbPrompts).2.map
      (fun m => m.timestamp) = [1000, 2000]) ∧
    ¬ ((ChatDataAdapter.extract idHash 999 "w" dbPrompts).2.map
      (fun m => m.timestamp) = [1000, 1001]) := by
  constructor
  · decide
  · decide

/-- C4 amended: the scenario database yields exactly one thread and exactly
two messages, a user message "fix bug" at timestamp 1000 and an assistant
message "done" at timestamp 2000 (source timestamp + 1000), and the thread
has `messageCount` 2 - for every hash, wall-clock time and workspace id. -/
theorem legacy_prompt_scenario_amended (hash : String → String) (now : Int) (ws : String) :
    ((ChatDataAdapter.extract hash now ws dbPrompts).1.length = 1) ∧
    ((ChatDataAdapter.extract hash now ws dbPrompts).2.map
      (fun m => (m.role, m.content, m.timestamp)) =
      [(.user, "fix bug", 1000), (.assistant, "done", 2000)]) ∧
    ((ChatDataAdapter.extract hash now ws dbPrompts).1.map
      (fun t => t.messageCount) = [2]) := by
  refine ⟨rfl, ?_, rfl⟩
  rfl

/-- C5 counterexample: the two adapters' role normalizations are not the
claimed common mapping - `"cursor"` maps to `user` under the chatdata
adapter yet to `assistant` under the composer adapter, and `"bot"` the other
way round. -/
theorem role_normalization_counterexample :
    ChatDataAdapter.normalizeRole "cursor" = .user ∧
    ComposerAdapter.normalizeRole "cursor" = .assistant ∧
    ChatDataAdapter.normalizeRole "bot" = .assistant ∧
    ComposerAdapter.normalizeRole "bot" = .user ∧
    ChatDataAdapter.normalizeRole "bot" ≠ ComposerAdapter.normalizeRole "bot" := by
  refine ⟨by decide, by decide, by decide, by decide, by decide⟩

/-- C5 amended: both adapters classify by ordered case-insensitive substring
checks into exactly {user, assistant, system, tool} with `user` as default;
`user`/`human` map to user in both, the assistant group is
`assistant`/`ai`/`bot` for the chatdata adapter but `assistant`/`ai`/`cursor`
for the composer adapter, then `system`, then `tool`/`function`; the two
mappings agree on every string containing neither `bot` nor `cursor`. -/
theorem role_normalization_amended (s : String) :
    ((strIncludes (strLower s) "user" || strIncludes (strLower s) "human") = true →
      ChatDataAdapter.normalizeRole s = .user ∧
      ComposerAdapter.normalizeRole s = .user) ∧
    ((strIncludes (strLower s) "user" || strIncludes (strLower s) "human") = false →
      (((strIncludes (strLower s) "assistant" || strIncludes (strLower s) "ai") ||
          strIncludes (strLower s) "bot") = true →
        ChatDataAdapter.normalizeRole s = .assistant) ∧
      (((strIncludes (strLower s) "assistant" || strIncludes (strLower s) "ai") ||
          strIncludes (strLower s) "cursor") = true →
        ComposerAdapter.normalizeRole s = .assistant) ∧
      (((strIncludes (strLower s) "assistant" || strIncludes (strLower s) "ai") ||
          strIncludes (strLower s) "bot") = false →
        strIncludes (strLower s) "system" = true →
        ChatDataAdapter.normalizeRole s = .system) ∧
      (((strIncludes (strLower s) "assistant" || strIncludes (strLower s) "ai") ||
          strIncludes (strLower s) "cursor") = false →
        strIncludes (strLower s) "system" = true →
        ComposerAdapter.normalizeRole s = .system) ∧
      (((strIncludes (strLower s) "assistant" || strIncludes (strLower s) "ai") ||
          strIncludes (strLower s) "bot") = false →
        strIncludes (strLower s) "system" = false →
        (strIncludes (strLower s) "tool" || strIncludes (strLower s) "function") = true →
        ChatDataAdapter.normalizeRole s = .tool) ∧
      (((strIncludes (strLower s) "assistant" || strIncludes (strLower s) "ai") ||
          strIncludes (strLower s) "cursor") = false →
        strIncludes (strLower s) "system" = false →
        (strIncludes (strLower s) "tool" || strIncludes (strLower s) "function") = true →
        ComposerAdapter.normalizeRole s = .tool) ∧
      (((strIncludes (strLower s) "assistant" || strIncludes (strLower s) "ai") ||
          strIncludes (strLower s) "bot") = false →
        strIncludes (strLower s) "system" = false →
        (strIncludes (strLower s) "tool" || strIncludes (strLower s) "function") = false →
        ChatDataAdapter.normalizeRole s = .user) ∧
      (((strIncludes (strLower s) "assistant" || strIncludes (strLower s) "ai") ||
          strIncludes (strLower s) "cursor") = false →
        strIncludes (strLower s) "system" = false →
        (strIncludes (strLower s) "tool" || strIncludes (strLower s) "function") = false →
        ComposerAdapter.normalizeRole s = .user)) ∧
    (strIncludes (strLower s) "bot" = false → strIncludes (strLower s) "cursor" = false →
      ChatDataAdapter.normalizeRole s = ComposerAdapter.normalizeRole s) := by
  by_cases hs : s = ""
  · subst hs
    refine ⟨fun h => absurd h (by decide), fun hu => ?_, fun hb hc => by decide⟩
    exact ⟨fun h => absurd h (by decide), fun h => absurd h (by decide),
      fun h1 h2 => absurd h2 (by decide), fun h1 h2 => absurd h2 (by decide),
      fun h1 h2 h3 => absurd h3 (by decide), fun h1 h2 h3 => absurd h3 (by decide),
      fun h1 h2 h3 => by decide, fun h1 h2 h3 => by decide⟩
  · simp only [ChatDataAdapter.normalizeRole, ComposerAdapter.normalizeRole, if_neg hs]
    cases h1 : strIncludes (strLower s) "user" <;>
      cases h2 : strIncludes (strLower s) "human" <;>
        cases h3 : strIncludes (strLower s) "assistant" <;>
          cases h4 : strIncludes (strLower s) "ai" <;>
            cases h5 : strIncludes (strLower s) "bot" <;>
              cases h6 : strIncludes (strLower s) "cursor" <;>
                cases h7 : strIncludes (strLower s) "system" <;>
                  cases h8 : strIncludes (strLower s) "tool" <;>
                    cases h9 : strIncludes (strLower s) "function" <;>
                      simp [h1, h2, h3, h4, h5, h6, h7, h8, h9]

/-- Witness for C5 at the concrete role string "human": both adapters map it
to user. -/
theorem role_normalization_witness :
    (strIncludes (strLower "human") "user" || strIncludes (strLower "human") "human") = true ∧
    (ChatDataAdapter.normalizeRole "human" = .user ∧
     ComposerAdapter.normalizeRole "human" = .user) :=
  ⟨by decide, (role_normalization_amended "human").1 (by decide)⟩

/-- Shape of a message extracted by the chatdata adapter: it carries the
passed thread id and its id is derived from that thread id, its role and its
index. -/
theorem extractMessage_ids {hash : String → String} {now : Int} {msg : JsonVal}
    {tid : String} {i : Nat} {m : Message}
    (h : ChatDataAdapter.extractMessage hash now msg tid i = some m) :
    m.threadId = tid ∧ m.id = generateStableId hash [tid, m.role.toStr, toString i] := by
  simp only [ChatDataAdapter.extractMessage] at h
  by_cases h1 : truthy msg = true
  · by_cases h2 : truthy (jor (jget msg "content") (jor (jget msg "text") (jget msg "message"))) = true
    · simp only [h1, h2, not_true, Bool.not_eq_true, reduceIte,
        Option.some.injEq] at h
      subst h
      exact ⟨rfl, rfl⟩
    · simp [h2] at h
  · simp [h1] at h

/-- Shape of a chat session chunk: nonempty messages all referencing the
thread, a correct count, the thread id derived from workspace, adapter tag,
index and a timestamp string, message ids derived from the thread id, the
source marker first in the metadata, and the dates taken from the first and
last kept message. -/
theorem extractChatSession_shape {hash : String → String} {now : Int} {ws : String}
    {s : JsonVal} {i : Nat} {c : Thread × List Message}
    (h : ChatDataAdapter.extractChatSession hash now ws s i = some c) :
    c.2 ≠ [] ∧ (∀ m ∈ c.2, m.threadId = c.1.id) ∧ c.1.messageCount = c.2.length ∧
    (∃ ts, c.1.id = generateStableId hash [ws, "chatdata", toString i, ts]) ∧
    (∀ m ∈ c.2, ∃ j : Nat, m.id = generateStableId hash [c.1.id, m.role.toStr, toString j]) ∧
    (∃ rest, c.1.metadata = some (("source", JsonVal.str "chatdata") :: rest)) ∧
    (∀ hne : c.2 ≠ [],
      c.1.createdAt = intOr (c.2.head hne).timestamp now ∧
      c.1.updatedAt = intOr (c.2.getLast hne).timestamp now) := by
  simp only [ChatDataAdapter.extractChatSession] at h
  by_cases h1 : truthy s = true
  swap
  · simp [h1] at h
  simp only [h1, not_true, Bool.not_eq_true, reduceIte] at h
  cases hsm : jor (jget s "messages")
      (jor (jget s "history") (jor (jget s "entries") (JsonVal.arr JsonArr.nil))) with
  | null => rw [hsm] at h; simp at h
  | undef => rw [hsm] at h; simp at h
  | bool b => rw [hsm] at h; simp at h
  | num n => rw [hsm] at h; simp at h
  | str st => rw [hsm] at h; simp at h
  | obj fs => rw [hsm] at h; simp at h
  | arr ms =>
    rw [hsm] at h
    simp only [] at h
    cases hml : ms.toList with
    | nil => rw [hml] at h; simp at h
    | cons m0 mrest =>
      rw [hml] at h
      simp only [] at h
      cases hmsgs : List.filterMap
          (fun p => ChatDataAdapter.extractMessage hash now p.2
            (generateStableId hash [ws, "chatdata", toString i,
              tsString (jget m0 "timestamp") now]) p.1)
          (m0 :: mrest).enum with
      | nil => rw [hmsgs] at h; simp at h
      | cons k0 krest =>
        rw [hmsgs] at h
        simp only [Option.some.injEq] at h
        subst h
        refine ⟨by simp, ?_, rfl,
          ⟨tsString (jget m0 "timestamp") now, rfl⟩, ?_, ⟨_, rfl⟩, ?_⟩
        · intro m hm
          rw [← hmsgs] at hm
          obtain ⟨p, _, hp⟩ := List.mem_filterMap.mp hm
          exact (extractMessage_ids hp).1
        · intro m hm
          rw [← hmsgs] at hm
          obtain ⟨p, _, hp⟩ := List.mem_filterMap.mp hm
          exact ⟨p.1, (extractMessage_ids hp).2⟩
        · intro hne
          constructor
          · rfl
          · show (match (k0 :: krest).getLast? with
              | some ml => intOr ml.timestamp now
              | none => now) = _
            rw [List.getLast?_eq_getLast _ hne]

/-- Shape of a legacy prompt chunk: nonempty messages referencing the thread,
a correct count, the thread id derived with the `prompts` tag, message ids
derived from the thread id, the source marker, and dates that always satisfy
the ordering invariant. -/
theorem extractFromPrompt_shape {hash : String → String} {now : Int} {ws : String}
    {p : JsonVal} {i : Nat} {c : Thread × List Message}
    (h : ChatDataAdapter.extractFromPrompt hash now ws p i = some c) :
    c.2 ≠ [] ∧ (∀ m ∈ c.2, m.threadId = c.1.id) ∧ c.1.messageCount = c.2.length ∧
    (∃ ts, c.1.id = generateStableId hash [ws, "prompts", toString i, ts]) ∧
    (∀ m ∈ c.2, ∃ j : Nat, m.id = generateStableId hash [c.1.id, m.role.toStr, toString j]) ∧
    (∃ rest, c.1.metadata = some (("source", JsonVal.str "prompts") :: rest)) ∧
    c.1.createdAt ≤ c.1.updatedAt := by
  simp only [ChatDataAdapter.extractFromPrompt] at h
  by_cases h1 : truthy p = true
  swap
  · simp [h1] at h
  by_cases h2 : truthy (jget p "prompt") = true
  swap
  · simp [h1, h2] at h
  by_cases h3 : truthy (jget p "response") = true
  · simp only [h1, h2, h3, not_true, Bool.not_eq_true, Bool.true_eq_false, reduceIte,
      List.getLast?_cons_cons, List.getLast?_singleton, Option.some.injEq] at h
    subst h
    refine ⟨by simp, ?_, rfl, ⟨_, rfl⟩, ?_, ⟨_, rfl⟩, ?_⟩
    · intro m hm
      simp only [List.mem_cons, List.not_mem_nil, or_false] at hm
      rcases hm with rfl | rfl <;> rfl
    · intro m hm
      simp only [List.mem_cons, List.not_mem_nil, or_false] at hm
      rcases hm with rfl | rfl
      · exact ⟨0, rfl⟩
      · exact ⟨1, rfl⟩
    · show jnumF (jget p "timestamp") now ≤ _
      simp only [List.getLast?_cons_cons, List.getLast?_singleton]
      simp only [intOr]
      split <;> omega
  · simp only [h1, h2, h3, not_true, Bool.not_eq_true, Bool.true_eq_false,
      Bool.false_eq_true, reduceIte, List.getLast?_singleton, Option.some.injEq] at h
    subst h
    refine ⟨by simp, ?_, rfl, ⟨_, rfl⟩, ?_, ⟨_, rfl⟩, ?_⟩
    · intro m hm
      simp only [List.mem_cons, List.not_mem_nil, or_false] at hm
      rcases hm with rfl <;> rfl
    · intro m hm
      simp only [List.mem_cons, List.not_mem_nil, or_false] at hm
      rcases hm with rfl
      exact ⟨0, rfl⟩
    · show jnumF (jget p "timestamp") now ≤ _
      simp only [List.getLast?_singleton]
      simp only [intOr]
      split <;> omega

/-- Shape of a composer conversation message: its `threadId` is the temporary
timestamp-free hash and its id is derived from that temporary id. -/
theorem extractComposerMessage_ids {hash : String → String} {now : Int} {ws : String}
    {msg : JsonVal} {cid : String} {i : Nat} {m : Message}
    (h : ComposerAdapter.extractComposerMessage hash now ws msg cid i = some m) :
    m.threadId = generateStableId hash [ws, "composer", cid] ∧
    ∃ j : Nat, m.id = generateStableId hash
      [generateStableId hash [ws, "composer", cid], m.role.toStr, toString j] := by
  simp only [ComposerAdapter.extractComposerMessage] at h
  by_cases h1 : truthy msg = true
  swap
  · simp [h1] at h
  by_cases h2 : truthy (jor (jget msg "content") (jor (jget msg "text")
      (jor (jget msg "message") (jor (jget msg "prompt") (jget msg "response"))))) = true
  swap
  · simp [h1, h2] at h
  simp only [h1, h2, not_true, Bool.not_eq_true, Bool.true_eq_false, Bool.false_eq_true,
    reduceIte, Option.some.injEq] at h
  subst h
  exact ⟨rfl, ⟨i, rfl⟩⟩

/-- Shape of a composer single-prompt chunk. -/
theorem extractSinglePrompt_shape {hash : String → String} {now : Int} {ws : String}
    {data : JsonVal} {cid : String} {c : Thread × List Message}
    (h : ComposerAdapter.extractSinglePrompt hash now ws data cid = some c) :
    c.2 ≠ [] ∧ (∀ m ∈ c.2, m.threadId = c.1.id) ∧ c.1.messageCount = c.2.length ∧
    (∃ ts, c.1.id = generateStableId hash [ws, "composer", cid, ts]) ∧
    (∀ m ∈ c.2, ∃ j : Nat, m.id = generateStableId hash [c.1.id, m.role.toStr, toString j]) ∧
    (∃ rest, c.1.metadata = some (("source", JsonVal.str "composer") :: rest)) ∧
    c.1.createdAt ≤ c.1.updatedAt := by
  simp only [ComposerAdapter.extractSinglePrompt] at h
  by_cases h1 : truthy (jget data "prompt") = true <;>
    by_cases h2 : truthy (jget data "response") = true <;>
      simp only [h1, h2, not_true, Bool.not_eq_true, Bool.true_eq_false, Bool.false_eq_true,
        reduceIte, List.nil_append, List.cons_append, List.append_nil,
        Option.some.injEq] at h
  · subst h
    refine ⟨by simp, ?_, rfl, ⟨_, rfl⟩, ?_, ⟨_, rfl⟩, ?_⟩
    · intro m hm
      simp only [List.mem_cons, List.not_mem_nil, or_false] at hm
      rcases hm with rfl | rfl <;> rfl
    · intro m hm
      simp only [List.mem_cons, List.not_mem_nil, or_false] at hm
      rcases hm with rfl | rfl
      · exact ⟨0, rfl⟩
      · exact ⟨1, rfl⟩
    · show jnumF (jget data "timestamp") now ≤ _
      simp [List.getLastD]
  · subst h
    refine ⟨by simp, ?_, rfl, ⟨_, rfl⟩, ?_, ⟨_, rfl⟩, ?_⟩
    · intro m hm
      simp only [List.mem_cons, List.not_mem_nil, or_false] at hm
      rcases hm with rfl <;> rfl
    · intro m hm
      simp only [List.mem_cons, List.not_mem_nil, or_false] at hm
      rcases hm with rfl
      exact ⟨0, rfl⟩
    · show jnumF (jget data "timestamp") now ≤ _
      simp [List.getLastD]
  · subst h
    refine ⟨by simp, ?_, rfl, ⟨_, rfl⟩, ?_, ⟨_, rfl⟩, ?_⟩
    · intro m hm
      simp only [List.mem_cons, List.not_mem_nil, or_false] at hm
      rcases hm with rfl <;> rfl
    · intro m hm
      simp only [List.mem_cons, List.not_mem_nil, or_false] at hm
      rcases hm with rfl
      exact ⟨1, rfl⟩
    · show jnumF (jget data "timestamp") now + 1000 ≤ _
      simp [List.getLastD]
  · exact absurd h (by simp)

/-- Shape of a composer entry chunk: nonempty messages referencing the
thread, a correct count, the thread id derived from workspace, `composer`,
the composer id and a timestamp string, the source marker, and message ids
derived either from the carried thread id (single-prompt path) or from the
temporary timestamp-free thread id (conversation path). -/
theorem extractComposerData_shape {hash : String → String} {now : Int} {ws : String}
    {data : JsonVal} {cid : String} {c : Thread × List Message}
    (h : ComposerAdapter.extractComposerData hash now ws data cid = some c) :
    c.2 ≠ [] ∧ (∀ m ∈ c.2, m.threadId = c.1.id) ∧ c.1.messageCount = c.2.length ∧
    (∃ ts, c.1.id = generateStableId hash [ws, "composer", cid, ts]) ∧
    (∀ m ∈ c.2,
      (∃ j : Nat, m.id = generateStableId hash [c.1.id, m.role.toStr, toString j]) ∨
      (∃ j : Nat, m.id = generateStableId hash
        [generateStableId hash [ws, "composer", cid], m.role.toStr, toString j])) ∧
    (∃ rest, c.1.metadata = some (("source", JsonVal.str "composer") :: rest)) := by
  simp only [ComposerAdapter.extractComposerData] at h
  by_cases h1 : truthy data = true
  swap
  · simp [h1] at h
  simp only [h1, not_true, Bool.not_eq_true, Bool.true_eq_false, Bool.false_eq_true,
    reduceIte] at h
  by_cases hsp : (truthy (jor (jget data "conversation")
      (jor (jget data "messages") (jget data "history"))) = false ∧
      truthy (jget data "prompt") = true)
  · rw [if_pos hsp] at h
    obtain ⟨hne, hmem, hcnt, hid, hids, hmeta, _⟩ := extractSinglePrompt_shape h
    exact ⟨hne, hmem, hcnt, hid, fun m hm => Or.inl (hids m hm), hmeta⟩
  · rw [if_neg hsp] at h
    cases hconv : jor (jget data "conversation")
        (jor (jget data "messages") (jget data "history")) with
    | null => rw [hconv] at h; simp at h
    | undef => rw [hconv] at h; simp at h
    | bool b => rw [hconv] at h; simp at h
    | num n => rw [hconv] at h; simp at h
    | str st => rw [hconv] at h; simp at h
    | arr xs =>
      rw [hconv] at h
      simp only [] at h
      cases hmsgs : List.filterMap
          (fun p => ComposerAdapter.extractComposerMessage hash now ws p.2 cid p.1)
          xs.toList.enum with
      | nil => rw [hmsgs] at h; simp at h
      | cons m0 mrest =>
        rw [hmsgs] at h
        simp only [Option.some.injEq] at h
        subst h
        refine ⟨by simp, ?_, by simp, ⟨_, rfl⟩, ?_, ⟨_, rfl⟩⟩
        · intro m hm
          simp only [List.mem_map] at hm
          obtain ⟨m1, _, rfl⟩ := hm
          rfl
        · intro m hm
          simp only [List.mem_map] at hm
          obtain ⟨m1, hm1, rfl⟩ := hm
          rw [← hmsgs] at hm1
          obtain ⟨p, _, hp⟩ := List.mem_filterMap.mp hm1
          obtain ⟨j, hj⟩ := (extractComposerMessage_ids hp).2
          exact Or.inr ⟨j, hj⟩
    | obj fs =>
      rw [hconv] at h
      simp only [] at h
      cases hopt : ComposerAdapter.extractComposerMessage hash now ws (JsonVal.obj fs) cid 0 with
      | none => rw [hopt] at h; simp at h
      | some m0 =>
        rw [hopt] at h
        simp only [Option.toList_some, Option.some.injEq] at h
        subst h
        refine ⟨by simp, ?_, by simp, ⟨_, rfl⟩, ?_, ⟨_, rfl⟩⟩
        · intro m hm
          simp only [List.mem_map] at hm
          obtain ⟨m1, _, rfl⟩ := hm
          rfl
        · intro m hm
          simp only [List.mem_map, List.mem_singleton] at hm
          obtain ⟨m1, hm1, rfl⟩ := hm
          subst hm1
          obtain ⟨j, hj⟩ := (extractComposerMessage_ids hopt).2
          exact Or.inr ⟨j, hj⟩

/-- Every chunk of the chatdata adapter comes from a chat session or from a
legacy prompt. -/
theorem chatChunks_cases {hash : String → String} {now : Int} {ws : String} {db : DB}
    {c : Thread × List Message} (h : c ∈ ChatDataAdapter.chunks hash now ws db) :
    (∃ s i, ChatDataAdapter.extractChatSession hash now ws s i = some c) ∨
    (∃ p i, ChatDataAdapter.extractFromPrompt hash now ws p i = some c) := by
  unfold ChatDataAdapter.chunks at h
  obtain ⟨l, hl, hcl⟩ := List.mem_flatten.mp h
  obtain ⟨it, hit, rfl⟩ := List.mem_map.mp hl
  by_cases h1 : truthy it.2 = true
  swap
  · rw [if_pos (by simpa using h1)] at hcl
    exact absurd hcl (by simp)
  rw [if_neg (by simp [h1])] at hcl
  by_cases h2 : it.1 = ChatDataAdapter.chatdataKey
  · rw [if_pos h2] at hcl
    unfold ChatDataAdapter.extractFromChatData at hcl
    cases hd : it.2 with
    | arr sessions =>
      rw [hd] at hcl
      simp only [] at hcl
      obtain ⟨p, _, hp⟩ := List.mem_filterMap.mp hcl
      exact Or.inl ⟨p.2, p.1, hp⟩
    | obj fs =>
      rw [hd] at hcl
      simp only [] at hcl
      by_cases h3 : truthy (jor (jget (JsonVal.obj fs) "conversations")
          (jget (JsonVal.obj fs) "chats")) = true
      · rw [if_pos h3] at hcl
        cases hca : jor (jget (JsonVal.obj fs) "conversations")
            (jget (JsonVal.obj fs) "chats") with
        | arr sessions =>
          rw [hca] at hcl
          simp only [] at hcl
          obtain ⟨p, _, hp⟩ := List.mem_filterMap.mp hcl
          exact Or.inl ⟨p.2, p.1, hp⟩
        | null => rw [hca] at hcl; simp at hcl
        | undef => rw [hca] at hcl; simp at hcl
        | bool b => rw [hca] at hcl; simp at hcl
        | num n => rw [hca] at hcl; simp at hcl
        | str st => rw [hca] at hcl; simp at hcl
        | obj fs2 => rw [hca] at hcl; simp at hcl
      · rw [if_neg h3] at hcl
        by_cases h4 : truthy (jor (jget (JsonVal.obj fs) "messages")
            (jget (JsonVal.obj fs) "history")) = true
        · rw [if_pos h4] at hcl
          rw [Option.mem_toList] at hcl
          exact Or.inl ⟨JsonVal.obj fs, 0, hcl⟩
        · rw [if_neg h4] at hcl
          exact absurd hcl (by simp)
    | null => rw [hd] at h1; simp [truthy] at h1
    | undef => rw [hd] at h1; simp [truthy] at h1
    | bool b =>
      rw [hd] at hcl
      simp only [] at hcl
      by_cases h3 : truthy (jor (jget (JsonVal.bool b) "conversations")
          (jget (JsonVal.bool b) "chats")) = true
      · exact absurd h3 (by simp [jget, jor, truthy])
      · rw [if_neg h3] at hcl
        rw [if_neg (by simp [jget, jor, truthy])] at hcl
        exact absurd hcl (by simp)
    | num n =>
      rw [hd] at hcl
      simp only [] at hcl
      by_cases h3 : truthy (jor (jget (JsonVal.num n) "conversations")
          (jget (JsonVal.num n) "chats")) = true
      · exact absurd h3 (by simp [jget, jor, truthy])
      · rw [if_neg h3] at hcl
        rw [if_neg (by simp [jget, jor, truthy])] at hcl
        exact absurd hcl (by simp)
    | str st =>
      rw [hd] at hcl
      simp only [] at hcl
      by_cases h3 : truthy (jor (jget (JsonVal.str st) "conversations")
          (jget (JsonVal.str st) "chats")) = true
      · exact absurd h3 (by simp [jget, jor, truthy])
      · rw [if_neg h3] at hcl
        rw [if_neg (by simp [jget, jor, truthy])] at hcl
        exact absurd hcl (by simp)
  · rw [if_neg h2] at hcl
    unfold ChatDataAdapter.extractFromPrompts at hcl
    cases hd : it.2 with
    | arr ps =>
      rw [hd] at hcl
      simp only [] at hcl
      obtain ⟨p, _, hp⟩ := List.mem_filterMap.mp hcl
      exact Or.inr ⟨p.2, p.1, hp⟩
    | null => rw [hd] at hcl; simp at hcl
    | undef => rw [hd] at hcl; simp at hcl
    | bool b => rw [hd] at hcl; simp at hcl
    | num n => rw [hd] at hcl; simp at hcl
    | str st => rw [hd] at hcl; simp at hcl
    | obj fs => rw [hd] at hcl; simp at hcl

/-- Every chunk of the composer adapter comes from one composer entry. -/
theorem composerChunks_cases {hash : String → String} {now : Int} {ws : String} {db : DB}
    {c : Thread × List Message} (h : c ∈ ComposerAdapter.chunks hash now ws db) :
    ∃ data cid, ComposerAdapter.extractComposerData hash now ws data cid = some c := by
  unfold ComposerAdapter.chunks at h
  obtain ⟨it, _, heq⟩ := List.mem_filterMap.mp h
  by_cases h1 : truthy it.2 = true
  · rw [if_neg (by simp [h1])] at heq
    exact ⟨it.2, ComposerAdapter.extractComposerIdFromKey it.1, heq⟩
  · rw [if_pos (by simpa using h1)] at heq
    exact absurd heq (by simp)

/-- A thread of an adapter result is the thread of one of its chunks. -/
theorem thread_mem_of_extract {cs : List (Thread × List Message)} {t : Thread}
    (h : t ∈ cs.map Prod.fst) : ∃ c ∈ cs, c.1 = t := by
  obtain ⟨c, hc, rfl⟩ := List.mem_map.mp h
  exact ⟨c, hc, rfl⟩

/-- A message of an adapter result is a message of one of its chunks. -/
theorem msg_mem_of_extract {cs : List (Thread × List Message)} {m : Message}
    (h : m ∈ (cs.map Prod.snd).flatten) : ∃ c ∈ cs, m ∈ c.2 := by
  obtain ⟨l, hl, hml⟩ := List.mem_flatten.mp h
  obtain ⟨c, hc, rfl⟩ := List.mem_map.mp hl
  exact ⟨c, hc, hml⟩

/-- C7 counterexample: on a concrete composer conversation (with the identity
stand-in hash, which exposes the hashed inputs), the extracted message's id
is derived from a temporary thread id lacking the timestamp component, so it
differs from the hash of {its threadId field, role, index}. -/
theorem stable_identity_counterexample :
    ((ComposerAdapter.extract idHash 999 "w" dbComposerC1).2.map
      (fun m => m.id) = ["w|composer|c1|user|0"]) ∧
    ((ComposerAdapter.extract idHash 999 "w" dbComposerC1).2.map
      (fun m => generateStableId idHash [m.threadId, m.role.toStr, toString 0]) =
      ["w|composer|c1|5|user|0"]) ∧
    ("w|composer|c1|user|0" : String) ≠ "w|composer|c1|5|user|0" := by
  refine ⟨by decide, by decide, by decide⟩

/-- C7 amended: thread ids are derived as claimed (workspace, adapter tag,
source index or composer id, timestamp string); chatdata message ids are
derived from the thread id the message carries; composer message ids are
derived either from the carried thread id (single-prompt path) or from a
temporary thread id hashed without the timestamp component (conversation
path), which differs from the threadId field the message carries. -/
theorem stable_identity_amended (hash : String → String) (now : Int) (ws : String) (db : DB) :
    (∀ t ∈ (ChatDataAdapter.extract hash now ws db).1,
      (∃ i : Nat, ∃ ts, t.id = generateStableId hash [ws, "chatdata", toString i, ts]) ∨
      (∃ i : Nat, ∃ ts, t.id = generateStableId hash [ws, "prompts", toString i, ts])) ∧
    (∀ t ∈ (ComposerAdapter.extract hash now ws db).1,
      ∃ cid ts, t.id = generateStableId hash [ws, "composer", cid, ts]) ∧
    (∀ m ∈ (ChatDataAdapter.extract hash now ws db).2,
      ∃ j : Nat, m.id = generateStableId hash [m.threadId, m.role.toStr, toString j]) ∧
    (∀ m ∈ (ComposerAdapter.extract hash now ws db).2,
      (∃ j : Nat, m.id = generateStableId hash [m.threadId, m.role.toStr, toString j]) ∨
      (∃ cid : String, ∃ j : Nat, m.id = generateStableId hash
        [generateStableId hash [ws, "composer", cid], m.role.toStr, toString j])) := by
  refine ⟨?_, ?_, ?_, ?_⟩
  · intro t ht
    obtain ⟨c, hc, rfl⟩ := thread_mem_of_extract ht
    rcases chatChunks_cases hc with ⟨s, i, hs⟩ | ⟨p, i, hp⟩
    · obtain ⟨_, _, _, ⟨ts, hid⟩, _⟩ := extractChatSession_shape hs
      exact Or.inl ⟨i, ts, hid⟩
    · obtain ⟨_, _, _, ⟨ts, hid⟩, _⟩ := extractFromPrompt_shape hp
      exact Or.inr ⟨i, ts, hid⟩
  · intro t ht
    obtain ⟨c, hc, rfl⟩ := thread_mem_of_extract ht
    obtain ⟨data, cid, hd⟩ := composerChunks_cases hc
    obtain ⟨_, _, _, ⟨ts, hid⟩, _⟩ := extractComposerData_shape hd
    exact ⟨cid, ts, hid⟩
  · intro m hm
    obtain ⟨c, hc, hmc⟩ := msg_mem_of_extract hm
    rcases chatChunks_cases hc with ⟨s, i, hs⟩ | ⟨p, i, hp⟩
    · obtain ⟨_, hmem, _, _, hids, _⟩ := extractChatSession_shape hs
      obtain ⟨j, hj⟩ := hids m hmc
      exact ⟨j, by rw [hj, hmem m hmc]⟩
    · obtain ⟨_, hmem, _, _, hids, _⟩ := extractFromPrompt_shape hp
      obtain ⟨j, hj⟩ := hids m hmc
      exact ⟨j, by rw [hj, hmem m hmc]⟩
  · intro m hm
    obtain ⟨c, hc, hmc⟩ := msg_mem_of_extract hm
    obtain ⟨data, cid, hd⟩ := composerChunks_cases hc
    obtain ⟨_, hmem, _, _, hids, _⟩ := extractComposerData_shape hd
    rcases hids m hmc with ⟨j, hj⟩ | ⟨j, hj⟩
    · exact Or.inl ⟨j, by rw [hj, hmem m hmc]⟩
    · exact Or.inr ⟨cid, j, hj⟩

/-- Witness for C7 at the concrete composer database: the theorem applies and
yields the temporary-thread-id form for the extracted message. -/
theorem stable_identity_witness :
    ∃ m, m ∈ (ComposerAdapter.extract idHash 999 "w" dbComposerC1).2 ∧
      ((∃ j : Nat, m.id = generateStableId idHash [m.threadId, m.role.toStr, toString j]) ∨
       (∃ cid : String, ∃ j : Nat, m.id = generateStableId idHash
         [generateStableId idHash ["w", "composer", cid], m.role.toStr, toString j])) := by
  have h := (stable_identity_amended idHash 999 "w" dbComposerC1).2.2.2
  refine ⟨(ComposerAdapter.extract idHash 999 "w" dbComposerC1).2.head (by decide), ?_, ?_⟩
  · exact List.head_mem _
  · exact h _ (List.head_mem _)

/-- Character data of a four-part bar-joined hash input. -/
theorem interc4_data (a b c d : String) :
    (String.intercalate "|" [a, b, c, d]).data =
    a.data ++ '|' :: (b.data ++ '|' :: (c.data ++ '|' :: d.data)) := by
  show (a ++ "|" ++ b ++ "|" ++ c ++ "|" ++ d).data = _
  simp [String.data_append]

/-- For an injective hash, a chatdata-tagged or prompts-tagged thread id never
equals a composer-tagged thread id of the same workspace. -/
theorem tag_id_ne {hash : String → String} (hinj : Function.Injective hash)
    {ws a b cd ts : String} (tag : String)
    (htag : tag = "chatdata" ∨ tag = "prompts") :
    generateStableId hash [ws, tag, a, b] ≠ generateStableId hash [ws, "composer", cd, ts] := by
  intro he
  have h2 := hinj he
  have h3 : (String.intercalate "|" [ws, tag, a, b]).data =
      (String.intercalate "|" [ws, "composer", cd, ts]).data := by rw [h2]
  rw [interc4_data, interc4_data] at h3
  have h4 := List.cons_injective (List.append_cancel_left h3)
  rcases htag with rfl | rfl <;> simp [List.cons.injEq] at h4

/-- C3 counterexample: with both adapters enabled, composer data present and
`preferComposer` set, the chatdata adapter is never consulted - its thread
with an id not among the composer thread ids is still absent from the merged
output, contradicting the claimed merge/dedup behaviour. -/
theorem adapter_merge_counterexample :
    (obTruthy (spreadOptions {}).enableComposer = true ∧
     obTruthy (spreadOptions {}).enableChatData = true ∧
     obTruthy (spreadOptions {}).preferComposer = true) ∧
    ((ComposerAdapter.extract idHash 999 "w" dbBoth).1.map (fun t => t.id) =
      ["w|composer|c1|5"]) ∧
    ((ChatDataAdapter.extract idHash 999 "w" dbBoth).1.map (fun t => t.id) =
      ["w|prompts|0|1000"]) ∧
    (("w|prompts|0|1000" : String) ≠ "w|composer|c1|5") ∧
    ((mergedOf idHash 999 (spreadOptions {}) "w" dbBoth).1.1.map (fun t => t.id) =
      ["w|composer|c1|5"]) := by
  refine ⟨⟨by decide, by decide, by decide⟩, by decide, by decide, by decide, by decide⟩

/-- C3 amended: when the composer adapter is enabled, yields at least one
thread, and `preferComposer` is set, the chatdata adapter is not consulted
at all: the merged output is exactly the composer output, no
chatdata-extracted thread or message occurs in it (for an injective hash),
and for every id the merged output keeps exactly the composer threads
carrying it - in particular when both adapters would produce a thread with
the same derived id, only the composer one is kept. -/
theorem adapter_merge_amended (hash : String → String) (hinj : Function.Injective hash)
    (now : Int) (opts : NormalizerOptions) (ws : String) (db : DB)
    (hc : obTruthy opts.enableComposer = true)
    (hcd : obTruthy opts.enableChatData = true)
    (hp : obTruthy opts.preferComposer = true)
    (hne : (ComposerAdapter.extract hash now ws db).1 ≠ []) :
    (mergedOf hash now opts ws db).1 = ComposerAdapter.extract hash now ws db ∧
    (∀ t ∈ (ChatDataAdapter.extract hash now ws db).1,
      t ∉ (mergedOf hash now opts ws db).1.1) ∧
    (∀ m ∈ (ChatDataAdapter.extract hash now ws db).2,
      m ∉ (mergedOf hash now opts ws db).1.2) ∧
    (∀ s : String,
      ((mergedOf hash now opts ws db).1.1.filter (fun t => t.id = s)).length =
      ((ComposerAdapter.extract hash now ws db).1.filter (fun t => t.id = s)).length) := by
  have hlen : (ComposerAdapter.extract hash now ws db).1.length > 0 :=
    List.length_pos.mpr hne
  have hmerged : (mergedOf hash now opts ws db).1 = ComposerAdapter.extract hash now ws db := by
    unfold mergedOf
    rw [hc]
    simp only [reduceIte, if_pos hlen]
    rw [hp]
    have : ((ComposerAdapter.extract hash now ws db).1.length == 0) = false := by
      simp [Nat.pos_iff_ne_zero.mp hlen]
    rw [this]
    simp
  refine ⟨hmerged, ?_, ?_, ?_⟩
  · intro t ht hmem
    rw [hmerged] at hmem
    obtain ⟨c2, hc2, rfl⟩ := thread_mem_of_extract hmem
    obtain ⟨data, cid, hd⟩ := composerChunks_cases hc2
    obtain ⟨_, _, _, _, _, ⟨r2, hm2⟩⟩ := extractComposerData_shape hd
    obtain ⟨c1, hc1, heq⟩ := thread_mem_of_extract ht
    rcases chatChunks_cases hc1 with ⟨s, i, hs⟩ | ⟨p, i, hp'⟩
    · obtain ⟨_, _, _, _, _, ⟨r1, hm1⟩, _⟩ := extractChatSession_shape hs
      rw [heq] at hm1
      rw [hm1] at hm2
      simp at hm2
    · obtain ⟨_, _, _, _, _, ⟨r1, hm1⟩, _⟩ := extractFromPrompt_shape hp'
      rw [heq] at hm1
      rw [hm1] at hm2
      simp at hm2
  · intro m hm hmem
    rw [hmerged] at hmem
    obtain ⟨c2, hc2, hmemc2⟩ := msg_mem_of_extract hmem
    obtain ⟨data, cid, hd⟩ := composerChunks_cases hc2
    obtain ⟨_, hmem2, _, ⟨ts2, hid2⟩, _, _⟩ := extractComposerData_shape hd
    obtain ⟨c1, hc1, hmemc1⟩ := msg_mem_of_extract hm
    have htid2 : m.threadId = c2.1.id := hmem2 m hmemc2
    rcases chatChunks_cases hc1 with ⟨s, i, hs⟩ | ⟨p, i, hp'⟩
    · obtain ⟨_, hmem1, _, ⟨ts1, hid1⟩, _, _, _⟩ := extractChatSession_shape hs
      have htid1 : m.threadId = c1.1.id := hmem1 m hmemc1
      have : c1.1.id = c2.1.id := by rw [← htid1, htid2]
      rw [hid1, hid2] at this
      exact tag_id_ne hinj _ (Or.inl rfl) this
    · obtain ⟨_, hmem1, _, ⟨ts1, hid1⟩, _, _, _⟩ := extractFromPrompt_shape hp'
      have htid1 : m.threadId = c1.1.id := hmem1 m hmemc1
      have : c1.1.id = c2.1.id := by rw [← htid1, htid2]
      rw [hid1, hid2] at this
      exact tag_id_ne hinj _ (Or.inr rfl) this
  · intro s
    rw [hmerged]

/-- Witness for C3 at the concrete two-adapter database: the merge stage
returns exactly the composer output. -/
theorem adapter_merge_witness :
    Function.Injective idHash ∧
    ((mergedOf idHash 999 (spreadOptions {}) "w" dbBoth).1 =
      ComposerAdapter.extract idHash 999 "w" dbBoth) := by
  have hinj : Function.Injective idHash := fun a b h => h
  exact ⟨hinj, (adapter_merge_amended idHash hinj 999 (spreadOptions {}) "w" dbBoth
    (by decide) (by decide) (by decide) (by decide)).1⟩

/-- Skipping behaviour of the scan loop: a positive skip count drops
characters one at a time. -/
theorem scanBlocks_skip : ∀ (l : List Char) (n : Nat),
    scanBlocks n l = scanBlocks 0 (l.drop n) := by
  intro l
  induction l with
  | nil =>
    intro n
    cases n <;> rfl
  | cons c cs ih =>
    intro n
    cases n with
    | zero => rfl
    | succ k =>
      show scanBlocks k cs = _
      rw [ih k]
      rfl

/-- An opening fence never matches at a non-backtick character. -/
theorem tryOpen_not_tick {c : Char} (hc : c ≠ tick) (cs : List Char) :
    tryOpen (c :: cs) = none := by
  cases cs with
  | nil => rfl
  | cons b cs2 =>
    cases cs2 with
    | nil => rfl
    | cons d cs3 =>
      show (if c = tick ∧ b = tick ∧ d = tick then _ else _) = none
      exact if_neg (fun hx => hc hx.1)

/-- Scanning skips over a fence-free gap. -/
theorem scan_gap {g : List Char} (hg : ∀ c ∈ g, c ≠ tick) (X : List Char) :
    scanBlocks 0 (g ++ X) = scanBlocks 0 X := by
  induction g with
  | nil => rfl
  | cons c g2 ih =>
    have hc : c ≠ tick := hg c (by simp)
    have ih2 := ih (fun x hx => hg x (by simp [hx]))
    show scanBlocks 0 (c :: (g2 ++ X)) = _
    rw [show scanBlocks 0 (c :: (g2 ++ X)) =
      (match tryOpen (c :: (g2 ++ X)) with
       | some (tag, afterNl) =>
         match splitAtTicks afterNl with
         | some (body, rest) =>
           { language := if tag.isEmpty then "text" else String.mk tag,
             content := jsTrim (String.mk body), filename := none }
             :: scanBlocks ((g2 ++ X).length - rest.length) (g2 ++ X)
         | none => scanBlocks 0 (g2 ++ X)
       | none => scanBlocks 0 (g2 ++ X)) from rfl]
    rw [tryOpen_not_tick hc]
    exact ih2

/-- The word-run of a fence tag followed by a newline is the tag itself. -/
theorem takeWhile_tag {tag : List Char} (ht : tag.all isWordChar = true) (r : List Char) :
    (tag ++ '\n' :: r).takeWhile isWordChar = tag ∧
    (tag ++ '\n' :: r).dropWhile isWordChar = '\n' :: r := by
  induction tag with
  | nil =>
    constructor
    · show List.takeWhile isWordChar ('\n' :: r) = []
      simp [List.takeWhile_cons, isWordChar]
    · show List.dropWhile isWordChar ('\n' :: r) = '\n' :: r
      simp [List.dropWhile_cons, isWordChar]
  | cons a tg ih =>
    have ha : isWordChar a = true := by
      have := List.all_eq_true.mp ht a (by simp)
      simpa using this
    have iht : tg.all isWordChar = true := by
      rw [List.all_eq_true] at ht ⊢
      exact fun x hx => ht x (by simp [hx])
    obtain ⟨ih1, ih2⟩ := ih iht
    constructor
    · show List.takeWhile isWordChar (a :: (tg ++ '\n' :: r)) = a :: tg
      rw [List.takeWhile_cons_of_pos ha, ih1]
    · show List.dropWhile isWordChar (a :: (tg ++ '\n' :: r)) = '\n' :: r
      rw [List.dropWhile_cons_of_pos ha, ih2]

/-- A rendered fence opening is recognized by `tryOpen`. -/
theorem tryOpen_fence {tag : List Char} (ht : tag.all isWordChar = true) (r : List Char) :
    tryOpen (tick :: tick :: tick :: (tag ++ '\n' :: r)) = some (tag, r) := by
  obtain ⟨h1, h2⟩ := takeWhile_tag ht r
  show (if tick = tick ∧ tick = tick ∧ tick = tick then
      match List.dropWhile isWordChar (tag ++ '\n' :: r) with
      | d :: rest2 =>
        if d = '\n' then
          some (List.takeWhile isWordChar (tag ++ '\n' :: r), rest2)
        else none
      | [] => none
    else none) = some (tag, r)
  rw [if_pos ⟨rfl, rfl, rfl⟩, h2]
  show (if ('\n' : Char) = '\n' then
    some ((tag ++ '\n' :: r).takeWhile isWordChar, r) else none) = some (tag, r)
  rw [if_pos rfl, h1]

/-- The lazy closing-fence search at an immediate triple backtick. -/
theorem splitAtTicks_ticks (Y : List Char) :
    splitAtTicks (tick :: tick :: tick :: Y) = some ([], Y) := by
  show (if tick = tick ∧ tick = tick ∧ tick = tick then some ([], Y)
    else (splitAtTicks (tick :: tick :: Y)).map (fun p => (tick :: p.1, p.2)))
    = some ([], Y)
  rw [if_pos ⟨rfl, rfl, rfl⟩]

/-- The lazy closing-fence search over a well-formed body finds exactly the
rendered closing fence. -/
theorem splitAtTicks_body : ∀ (body : List Char) (Y : List Char),
    hasTripleTick body = false → body.getLast? ≠ some tick →
    splitAtTicks (body ++ tick :: tick :: tick :: Y) = some (body, Y) := by
  intro body
  induction body with
  | nil =>
    intro Y h1 h2
    exact splitAtTicks_ticks Y
  | cons a body' ih =>
    intro Y h1 h2
    cases body' with
    | nil =>
      have ha : a ≠ tick := by
        intro he
        exact h2 (by simp [he])
      show (if a = tick ∧ tick = tick ∧ tick = tick then some ([], tick :: Y)
        else (splitAtTicks (tick :: tick :: (tick :: Y))).map (fun p => (a :: p.1, p.2)))
        = some ([a], Y)
      rw [if_neg (fun hx => ha hx.1), splitAtTicks_ticks]
      rfl
    | cons b body'' =>
      cases body'' with
      | nil =>
        have hb : b ≠ tick := by
          intro he
          exact h2 (by simp [he])
        have ih2 := ih Y (by rfl) (by simpa using hb)
        simp only [List.cons_append, List.nil_append] at ih2
        show (if a = tick ∧ b = tick ∧ tick = tick then some ([], tick :: tick :: Y)
          else (splitAtTicks (b :: tick :: (tick :: tick :: Y))).map
            (fun p => (a :: p.1, p.2)))
          = some ([a, b], Y)
        rw [if_neg (fun hx => hb hx.2.1), ih2]
        rfl
      | cons d body3 =>
        have h1' : ((decide (a = tick) && decide (b = tick) && decide (d = tick)) ||
            hasTripleTick (b :: d :: body3)) = false := h1
        rw [Bool.or_eq_false_iff] at h1'
        have hcond : ¬(a = tick ∧ b = tick ∧ d = tick) := by
          intro ⟨hx1, hx2, hx3⟩
          simp [hx1, hx2, hx3] at h1'
        have hlast : (b :: d :: body3).getLast? ≠ some tick := by
          rw [← List.getLast?_cons_cons]
          exact h2
        have ih2 := ih Y h1'.2 hlast
        simp only [List.cons_append, List.nil_append] at ih2
        show (if a = tick ∧ b = tick ∧ d = tick then
            some ([], body3 ++ tick :: tick :: tick :: Y)
          else (splitAtTicks (b :: d :: (body3 ++ tick :: tick :: tick :: Y))).map
            (fun p => (a :: p.1, p.2)))
          = some (a :: b :: d :: body3, Y)
        rw [if_neg hcond, ih2]
        rfl

/-- Unfolding equation of the scan loop at skip 0 on a nonempty input. -/
theorem scanBlocks_zero_cons (c : Char) (cs : List Char) :
    scanBlocks 0 (c :: cs) =
      (match tryOpen (c :: cs) with
       | some (tag, afterNl) =>
         (match splitAtTicks afterNl with
          | some (body, rest) =>
            { language := if tag.isEmpty then "text" else String.mk tag,
              content := jsTrim (String.mk body), filename := none }
              :: scanBlocks (cs.length - rest.length) cs
          | none => scanBlocks 0 cs)
       | none => scanBlocks 0 cs) := rfl

/-- One well-formed fenced region at the head of the input produces exactly
its block, and the scan resumes after its closing fence. -/
theorem scan_region {r : SpecRegion} (hr : regionOK r = true) (D : List Char) :
    scanBlocks 0 (renderRegion r ++ D) = specBlock r :: scanBlocks 0 D := by
  have hr' := hr
  unfold regionOK at hr'
  rw [Bool.and_eq_true, Bool.and_eq_true] at hr'
  obtain ⟨⟨htag, hnb⟩, hlastb⟩ := hr'
  have hbody : hasTripleTick r.body = false := by simpa using hnb
  have hlast : r.body.getLast? ≠ some tick := by simpa using hlastb
  have hshape : renderRegion r ++ D =
      tick :: tick :: tick :: (r.tag ++ '\n' :: (r.body ++ tick :: tick :: tick :: D)) := by
    simp [renderRegion, List.cons_append, List.append_assoc]
  rw [hshape, scanBlocks_zero_cons,
    tryOpen_fence htag (r.body ++ tick :: tick :: tick :: D)]
  simp only []
  rw [splitAtTicks_body r.body D hbody hlast]
  simp only []
  have hP : tick :: tick :: (r.tag ++ '\n' :: (r.body ++ tick :: tick :: tick :: D)) =
      (tick :: tick :: (r.tag ++ '\n' :: (r.body ++ [tick, tick, tick]))) ++ D := by
    simp [List.cons_append, List.append_assoc]
  rw [hP]
  have hlen : ((tick :: tick :: (r.tag ++ '\n' :: (r.body ++ [tick, tick, tick]))) ++ D).length
      - D.length =
      (tick :: tick :: (r.tag ++ '\n' :: (r.body ++ [tick, tick, tick]))).length := by
    simp [List.length_append]
    omega
  rw [hlen, scanBlocks_skip, List.drop_left]
  rfl

/-- C6 (code-block round trip): a content string made of N well-formed
fenced regions (backtick-free gaps, word-character tags, bodies free of
closing markers) yields exactly N blocks in source order, each with the
fence's language tag (default "text") and the trimmed inner text; with no
region the result is empty. -/
theorem code_block_round_trip : ∀ (segs : List (List Char × SpecRegion)) (final : List Char),
    docOK segs final = true →
    extractCodeBlocks (String.mk (renderDoc segs final)) =
      segs.map (fun seg => specBlock seg.2) := by
  intro segs
  induction segs with
  | nil =>
    intro final h
    unfold docOK at h
    rw [Bool.and_eq_true] at h
    have hg : ∀ c ∈ final, c ≠ tick := by
      intro c hc
      have := List.all_eq_true.mp h.2 c hc
      simpa using this
    show scanBlocks 0 (renderDoc [] final) = []
    have h0 := scan_gap hg []
    simpa using h0
  | cons seg rest ih =>
    obtain ⟨gap, r⟩ := seg
    intro final h
    unfold docOK at h
    rw [Bool.and_eq_true] at h
    have hseg := List.all_eq_true.mp h.1 (gap, r) (by simp)
    rw [Bool.and_eq_true] at hseg
    have hgapOK : gapOK gap = true := hseg.1
    have hrOK : regionOK r = true := hseg.2
    have hrest : docOK rest final = true := by
      unfold docOK
      rw [Bool.and_eq_true]
      exact ⟨List.all_eq_true.mpr (fun x hx => List.all_eq_true.mp h.1 x (by simp [hx])),
        h.2⟩
    have hgap : ∀ c ∈ gap, c ≠ tick := by
      intro c hc
      have := List.all_eq_true.mp hgapOK c hc
      simpa using this
    show scanBlocks 0 (renderDoc ((gap, r) :: rest) final) = _
    have hrd : renderDoc ((gap, r) :: rest) final =
        gap ++ (renderRegion r ++ renderDoc rest final) := by
      simp [renderDoc, List.append_assoc]
    rw [hrd, scan_gap hgap, scan_region hrOK]
    have ih2 := ih final hrest
    show specBlock r :: scanBlocks 0 (renderDoc rest final) = _
    rw [show scanBlocks 0 (renderDoc rest final) =
      extractCodeBlocks (String.mk (renderDoc rest final)) from rfl]
    rw [ih2]
    rfl

/-- Witness for C6 at a concrete two-region document. -/
theorem code_block_round_trip_witness :
    docOK [("hello ".data, ⟨"js".data, "let x = 1;".data⟩),
      (" bye ".data, ⟨[], "y".data⟩)] " end".data = true ∧
    extractCodeBlocks (String.mk (renderDoc
      [("hello ".data, ⟨"js".data, "let x = 1;".data⟩),
       (" bye ".data, ⟨[], "y".data⟩)] " end".data)) =
      [{ language := "js", content := "let x = 1;" },
       { language := "text", content := "y" }] := by
  constructor
  · decide
  · rw [code_block_round_trip _ _ (by decide)]
    decide

/-- Updating one thread in place preserves the list length. -/
theorem updateFirst_length (tid : String) (f : Thread → Thread) :
    ∀ ts : List Thread, (updateFirst tid f ts).length = ts.length := by
  intro ts
  induction ts with
  | nil => rfl
  | cons t ts2 ih =>
    unfold updateFirst
    split
    · simp
    · simp [ih]

/-- Deduplication keeps exactly the original values. -/
theorem mem_firstDedup : ∀ {l : List String} {x : String}, x ∈ firstDedup l ↔ x ∈ l := by
  intro l
  induction l using firstDedup.induct with
  | case1 => simp [firstDedup]
  | case2 x xs ih =>
    intro y
    rw [firstDedup]
    simp only [List.mem_cons, ih, List.mem_filter]
    constructor
    · rintro (rfl | ⟨hy, -⟩)
      · exact Or.inl rfl
      · exact Or.inr hy
    · rintro (rfl | hy)
      · exact Or.inl rfl
      · by_cases hxy : y = x
        · exact Or.inl hxy
        · exact Or.inr ⟨hy, by simpa using hxy⟩

/-- Deduplication produces distinct values. -/
theorem firstDedup_nodup : ∀ (l : List String), (firstDedup l).Nodup := by
  intro l
  induction l using firstDedup.induct with
  | case1 => simp [firstDedup]
  | case2 x xs ih =>
    rw [firstDedup]
    refine List.nodup_cons.mpr ⟨?_, ih⟩
    intro hx
    have := mem_firstDedup.mp hx
    rw [List.mem_filter] at this
    simpa using this.2

/-- Members of a sorted, truncated message group reference the group's
thread and come from the original messages. -/
theorem mem_group_limited {msgs : List Message} {tid : String} {l : Nat} {m : Message}
    (h : m ∈ ((msgs.filter (fun m => m.threadId = tid)).mergeSort
      (fun a b => decide (a.timestamp ≤ b.timestamp))).take l) :
    m.threadId = tid ∧ m ∈ msgs := by
  have h1 := (List.take_sublist _ _).mem h
  have h2 := (List.mergeSort_perm _ _).mem_iff.mp h1
  rw [List.mem_filter] at h2
  exact ⟨by simpa using h2.2, h2.1⟩

/-- Message list built by the per-thread limit fold. -/
theorem messageLimit_foldl_snd (msgsAll : List Message) (l : Nat) :
    ∀ (tids : List String) (ts : List Thread) (acc : List Message),
    (tids.foldl (fun acc tid =>
      let group := msgsAll.filter (fun m => m.threadId = tid)
      let limited := (group.mergeSort (fun a b => decide (a.timestamp ≤ b.timestamp))).take l
      (updateFirst tid (updateThreadForGroup limited) acc.1, acc.2 ++ limited))
      (ts, acc)).2 =
    acc ++ (tids.map (fun tid =>
      ((msgsAll.filter (fun m => m.threadId = tid)).mergeSort
        (fun a b => decide (a.timestamp ≤ b.timestamp))).take l)).flatten := by
  intro tids
  induction tids with
  | nil => intro ts acc; simp
  | cons t ts2 ih =>
    intro ts acc
    rw [List.foldl_cons, ih]
    simp [List.append_assoc]

/-- Thread-list length is preserved by the per-thread limit fold. -/
theorem messageLimit_foldl_fst_length (msgsAll : List Message) (l : Nat) :
    ∀ (tids : List String) (ts : List Thread) (acc : List Message),
    ((tids.foldl (fun acc tid =>
      let group := msgsAll.filter (fun m => m.threadId = tid)
      let limited := (group.mergeSort (fun a b => decide (a.timestamp ≤ b.timestamp))).take l
      (updateFirst tid (updateThreadForGroup limited) acc.1, acc.2 ++ limited))
      (ts, acc)).1).length = ts.length := by
  intro tids
  induction tids with
  | nil => intro ts acc; rfl
  | cons t ts2 ih =>
    intro ts acc
    rw [List.foldl_cons, ih, updateFirst_length]

/-- The per-thread limit preserves the number of threads. -/
theorem applyMessageLimit_threads_length (L : Option Nat) (tm : List Thread × List Message) :
    (applyMessageLimit L tm).1.length = tm.1.length := by
  unfold applyMessageLimit
  cases L with
  | none => rfl
  | some l =>
    simp only []
    by_cases hl : l ≠ 0
    · rw [if_pos hl]
      exact messageLimit_foldl_fst_length tm.2 l _ tm.1 []
    · rw [if_neg hl]

/-- The thread limit keeps at most the configured number of threads. -/
theorem applyThreadLimit_le {l : Nat} (hl : 0 < l) (tm : List Thread × List Message) :
    (applyThreadLimit (some l) tm).1.length ≤ l := by
  unfold applyThreadLimit
  simp only []
  by_cases hc : l ≠ 0 ∧ tm.1.length > l
  · rw [if_pos hc]
    simp
  · rw [if_neg hc]
    push_neg at hc
    exact hc (by omega)

/-- Messages in distinct-id groups other than `tid` never reference `tid`. -/
theorem filter_groups_notin (msgsAll : List Message) (l : Nat) (tid : String) :
    ∀ (tids : List String), tid ∉ tids →
    (((tids.map (fun t2 =>
      ((msgsAll.filter (fun m => m.threadId = t2)).mergeSort
        (fun a b => decide (a.timestamp ≤ b.timestamp))).take l)).flatten).filter
      (fun m => m.threadId = tid)) = [] := by
  intro tids
  induction tids with
  | nil => intro _; rfl
  | cons t ts2 ih =>
    intro hmem
    rw [List.map_cons, List.flatten_cons, List.filter_append]
    rw [ih (fun hx => hmem (by simp [hx]))]
    rw [List.append_nil, List.filter_eq_nil_iff]
    intro m hm
    have := (mem_group_limited hm).1
    simp only [this]
    simp only [List.mem_cons] at hmem
    simpa using fun he => hmem (Or.inl he.symm)

/-- Per-id message count of the grouped, truncated message list. -/
theorem filter_groups_count (msgsAll : List Message) (l : Nat) (tid : String) :
    ∀ (tids : List String), tids.Nodup →
    (((tids.map (fun t2 =>
      ((msgsAll.filter (fun m => m.threadId = t2)).mergeSort
        (fun a b => decide (a.timestamp ≤ b.timestamp))).take l)).flatten).filter
      (fun m => m.threadId = tid)).length ≤ l := by
  intro tids
  induction tids with
  | nil => intro _; simp
  | cons t ts2 ih =>
    intro hnd
    rw [List.map_cons, List.flatten_cons, List.filter_append, List.length_append]
    rcases List.nodup_cons.mp hnd with ⟨htni, hnd2⟩
    by_cases he : t = tid
    · subst he
      rw [filter_groups_notin msgsAll l t ts2 htni]
      have h1 : (((msgsAll.filter (fun m => m.threadId = t)).mergeSort
          (fun a b => decide (a.timestamp ≤ b.timestamp))).take l).filter
          (fun m => m.threadId = t) =
          ((msgsAll.filter (fun m => m.threadId = t)).mergeSort
            (fun a b => decide (a.timestamp ≤ b.timestamp))).take l := by
        rw [List.filter_eq_self]
        intro m hm
        simp [(mem_group_limited hm).1]
      rw [h1]
      simp [List.length_take]
    · have h1 : (((msgsAll.filter (fun m => m.threadId = t)).mergeSort
          (fun a b => decide (a.timestamp ≤ b.timestamp))).take l).filter
          (fun m => m.threadId = tid) = [] := by
        rw [List.filter_eq_nil_iff]
        intro m hm
        simp [(mem_group_limited hm).1, he]
      rw [h1]
      simpa using ih hnd2

/-- Per-id message count after the per-thread message limit. -/
theorem applyMessageLimit_msg_count (l : Nat) (hl : l ≠ 0)
    (tm : List Thread × List Message) (tid : String) :
    ((applyMessageLimit (some l) tm).2.filter (fun m => m.threadId = tid)).length ≤ l := by
  unfold applyMessageLimit
  simp only []
  rw [if_pos hl]
  simp only [messageLimit_foldl_snd tm.2 l, List.nil_append]
  exact filter_groups_count tm.2 l tid _ (firstDedup_nodup _)

/-- C10: with no constructor options (or options not mentioning the limits)
the resolved configuration carries maxThreadsPerDb = 1000 and
maxMessagesPerThread = 1000, and both retention limits are enforced on every
database; an explicitly supplied undefined limit resolves to undefined and
disables the corresponding limit phase. -/
theorem default_retention_limits (hash : String → String) (now : Int)
    (popts : PartialOptions) (dbPath ws : String) (db : DB) :
    ((spreadOptions {}).enableChatData = some true ∧
      (spreadOptions {}).enableComposer = some true ∧
      (spreadOptions {}).preferComposer = some true ∧
      (spreadOptions {}).maxThreadsPerDb = some 1000 ∧
      (spreadOptions {}).maxMessagesPerThread = some 1000) ∧
    (popts.maxThreadsPerDb = none → (spreadOptions popts).maxThreadsPerDb = some 1000) ∧
    (popts.maxMessagesPerThread = none →
      (spreadOptions popts).maxMessagesPerThread = some 1000) ∧
    ((normalizeDatabase hash now {} dbPath ws db).threads.length ≤ 1000) ∧
    (∀ tid : String,
      ((normalizeDatabase hash now {} dbPath ws db).messages.filter
        (fun m => m.threadId = tid)).length ≤ 1000) ∧
    (popts.maxThreadsPerDb = some none →
      (spreadOptions popts).maxThreadsPerDb = none ∧
      ∀ tm, applyThreadLimit ((spreadOptions popts).maxThreadsPerDb) tm = tm) ∧
    (popts.maxMessagesPerThread = some none →
      (spreadOptions popts).maxMessagesPerThread = none ∧
      ∀ tm, applyMessageLimit ((spreadOptions popts).maxMessagesPerThread) tm = tm) := by
  refine ⟨⟨rfl, rfl, rfl, rfl, rfl⟩, ?_, ?_, ?_, ?_, ?_, ?_⟩
  · intro h; simp [spreadOptions, h]
  · intro h; simp [spreadOptions, h]
  · show (applyMessageLimit (some 1000) (applyThreadLimit (some 1000)
      (mergedOf hash now (spreadOptions {}) ws db).1)).1.length ≤ 1000
    rw [applyMessageLimit_threads_length]
    exact applyThreadLimit_le (by norm_num) _
  · intro tid
    show ((applyMessageLimit (some 1000) (applyThreadLimit (some 1000)
      (mergedOf hash now (spreadOptions {}) ws db).1)).2.filter
      (fun m => m.threadId = tid)).length ≤ 1000
    exact applyMessageLimit_msg_count 1000 (by norm_num) _ tid
  · intro h
    have hres : (spreadOptions popts).maxThreadsPerDb = none := by
      simp [spreadOptions, h]
    refine ⟨hres, ?_⟩
    intro tm
    rw [hres]
    rfl
  · intro h
    have hres : (spreadOptions popts).maxMessagesPerThread = none := by
      simp [spreadOptions, h]
    refine ⟨hres, ?_⟩
    intro tm
    rw [hres]
    rfl

/-- Concrete instance of the default-limit theorem: the chatdata-only example
database stays within both default limits, and an explicit undefined thread
limit resolves to undefined. -/
theorem default_retention_limits_witness :
    ((spreadOptions { maxThreadsPerDb := some none }).maxThreadsPerDb = none) ∧
    (normalizeDatabase idHash 0 {} "p" "w" dbComposerC1).threads.length ≤ 1000 ∧
    (∀ tid : String,
      ((normalizeDatabase idHash 0 {} "p" "w" dbComposerC1).messages.filter
        (fun m => m.threadId = tid)).length ≤ 1000) := by
  refine ⟨((default_retention_limits idHash 0 { maxThreadsPerDb := some none }
    "p" "w" dbComposerC1).2.2.2.2.2.1 rfl).1, ?_, ?_⟩
  · exact (default_retention_limits idHash 0 {} "p" "w" dbComposerC1).2.2.2.1
  · exact (default_retention_limits idHash 0 {} "p" "w" dbComposerC1).2.2.2.2.1

/-- A record with a truthy numeric timestamp contributes exactly that
(nonzero) timestamp, whatever the fallback clock and the rest of the
field chain. -/
theorem tsVal_of_hasGoodTS {m : JsonVal} (h : hasGoodTS m = true) (v : JsonVal) (now : Int) :
    jnumF (jor (jget m "timestamp") v) now = tsVal m ∧ tsVal m ≠ 0 := by
  unfold hasGoodTS at h
  cases ht : jget m "timestamp" with
  | num n =>
    rw [ht] at h
    simp only [] at h
    have hn : n ≠ 0 := by simpa using h
    unfold jor jnumF tsVal
    rw [ht]
    simp [truthy, hn]
  | null => rw [ht] at h; simp at h
  | undef => rw [ht] at h; simp at h
  | bool b => rw [ht] at h; simp at h
  | str s => rw [ht] at h; simp at h
  | arr a => rw [ht] at h; simp at h
  | obj f => rw [ht] at h; simp at h

/-- An ascending list is bounded below by its first element. -/
theorem ascInts_head_last : ∀ (a : Int) (l : List Int), ascInts (a :: l) = true →
    a ≤ l.getLastD a := by
  intro a l
  induction l generalizing a with
  | nil => intro _; simp
  | cons b l2 ih =>
    intro h
    unfold ascInts at h
    rw [Bool.and_eq_true] at h
    have hab : a ≤ b := by simpa using h.1
    have hb := ih b h.2
    simp only [List.getLastD_cons]
    exact le_trans hab hb

/-- Evaluation of the chatdata message extraction by the kept-record test. -/
theorem extractMessage_eval (hash : String → String) (now : Int) (m : JsonVal)
    (tid : String) (i : Nat) :
    (chatKeep m = false → ChatDataAdapter.extractMessage hash now m tid i = none) ∧
    (chatKeep m = true → ∃ k, ChatDataAdapter.extractMessage hash now m tid i = some k ∧
      k.timestamp = jnumF (jor (jget m "timestamp") (jget m "time")) now) := by
  unfold ChatDataAdapter.extractMessage chatKeep
  by_cases h1 : truthy m = true
  · by_cases h2 : truthy (jor (jget m "content")
        (jor (jget m "text") (jget m "message"))) = true
    · constructor
      · intro hk; rw [h1, h2] at hk; simp at hk
      · intro _
        simp only [h1, h2, not_true, Bool.not_eq_true, Bool.true_eq_false, reduceIte]
        exact ⟨_, rfl, rfl⟩
    · constructor
      · intro _
        simp only [h1, not_true, Bool.not_eq_true, Bool.true_eq_false, reduceIte]
        rw [if_pos (by simpa using h2)]
      · intro hk
        rw [h1] at hk
        simp only [Bool.true_and] at hk
        exact absurd hk (by simp [h2])
  · constructor
    · intro _
      rw [if_pos (by simpa using h1)]
    · intro hk
      rw [Bool.and_eq_true] at hk
      exact absurd hk.1 h1

/-- Evaluation of the composer message extraction by the kept-record test. -/
theorem extractComposerMessage_eval (hash : String → String) (now : Int) (ws : String)
    (m : JsonVal) (cid : String) (i : Nat) :
    (composerKeep m = false →
      ComposerAdapter.extractComposerMessage hash now ws m cid i = none) ∧
    (composerKeep m = true →
      ∃ k, ComposerAdapter.extractComposerMessage hash now ws m cid i = some k ∧
      k.timestamp = jnumF (jor (jget m "timestamp")
        (jor (jget m "createdAt") (jget m "time"))) now) := by
  unfold ComposerAdapter.extractComposerMessage composerKeep
  by_cases h1 : truthy m = true
  · by_cases h2 : truthy (jor (jget m "content") (jor (jget m "text")
        (jor (jget m "message") (jor (jget m "prompt") (jget m "response"))))) = true
    · constructor
      · intro hk; rw [h1, h2] at hk; simp at hk
      · intro _
        simp only [h1, h2, not_true, Bool.not_eq_true, Bool.true_eq_false, reduceIte]
        exact ⟨_, rfl, rfl⟩
    · constructor
      · intro _
        simp only [h1, not_true, Bool.not_eq_true, Bool.true_eq_false, reduceIte]
        rw [if_pos (by simpa using h2)]
      · intro hk
        rw [h1] at hk
        simp only [Bool.true_and] at hk
        exact absurd hk (by simp [h2])
  · constructor
    · intro _
      rw [if_pos (by simpa using h1)]
    · intro hk
      rw [Bool.and_eq_true] at hk
      exact absurd hk.1 h1

/-- Timestamps of the extracted chat messages are exactly the source
timestamps of the kept records. -/
theorem chat_filterMap_timestamps (hash : String → String) (now : Int) (tid : String) :
    ∀ l : List (Nat × JsonVal),
    (∀ m ∈ l.map Prod.snd, chatKeep m = true → hasGoodTS m = true) →
    (l.filterMap (fun p => ChatDataAdapter.extractMessage hash now p.2 tid p.1)).map
      (fun k => k.timestamp) = ((l.map Prod.snd).filter chatKeep).map tsVal := by
  intro l
  induction l with
  | nil => intro _; rfl
  | cons p l2 ih =>
    intro hgood
    by_cases hk : chatKeep p.2 = true
    · obtain ⟨k, hk2, hts⟩ := (extractMessage_eval hash now p.2 tid p.1).2 hk
      have hgts := hgood p.2 (by simp) hk
      simp only [List.map_cons, List.filterMap_cons, hk2, List.filter_cons, hk, reduceIte]
      rw [hts, (tsVal_of_hasGoodTS hgts (jget p.2 "time") now).1,
        ih (fun m hm hkm => hgood m (by simp [hm]) hkm)]
    · have hkf : chatKeep p.2 = false := by simpa using hk
      have hnone := (extractMessage_eval hash now p.2 tid p.1).1 hkf
      simp only [List.map_cons, List.filterMap_cons, hnone, List.filter_cons, hkf,
        Bool.false_eq_true, reduceIte]
      exact ih (fun m hm hkm => hgood m (by simp [hm]) hkm)

/-- Timestamps of the extracted composer messages are exactly the source
timestamps of the kept records. -/
theorem composer_filterMap_timestamps (hash : String → String) (now : Int) (ws cid : String) :
    ∀ l : List (Nat × JsonVal),
    (∀ m ∈ l.map Prod.snd, composerKeep m = true → hasGoodTS m = true) →
    (l.filterMap (fun p => ComposerAdapter.extractComposerMessage hash now ws p.2 cid p.1)).map
      (fun k => k.timestamp) = ((l.map Prod.snd).filter composerKeep).map tsVal := by
  intro l
  induction l with
  | nil => intro _; rfl
  | cons p l2 ih =>
    intro hgood
    by_cases hk : composerKeep p.2 = true
    · obtain ⟨k, hk2, hts⟩ := (extractComposerMessage_eval hash now ws p.2 cid p.1).2 hk
      have hgts := hgood p.2 (by simp) hk
      simp only [List.map_cons, List.filterMap_cons, hk2, List.filter_cons, hk, reduceIte]
      rw [hts,
        (tsVal_of_hasGoodTS hgts (jor (jget p.2 "createdAt") (jget p.2 "time")) now).1,
        ih (fun m hm hkm => hgood m (by simp [hm]) hkm)]
    · have hkf : composerKeep p.2 = false := by simpa using hk
      have hnone := (extractComposerMessage_eval hash now ws p.2 cid p.1).1 hkf
      simp only [List.map_cons, List.filterMap_cons, hnone, List.filter_cons, hkf,
        Bool.false_eq_true, reduceIte]
      exact ih (fun m hm hkm => hgood m (by simp [hm]) hkm)

/-- Head/last date comparison for a message list whose timestamps agree with
an ascending list of nonzero source timestamps; the fallback clocks are
irrelevant because the timestamps are nonzero. -/
theorem dates_of_asc_msgs {K : List Message} {kept : List JsonVal} (hne : K ≠ [])
    (hts : K.map (fun k => k.timestamp) = kept.map tsVal)
    (hgood : ∀ j ∈ kept, hasGoodTS j = true)
    (hasc : ascInts (kept.map tsVal) = true) (d1 d2 : Int) :
    intOr (K.head hne).timestamp d1 ≤ intOr (K.getLast hne).timestamp d2 := by
  have hnz : ∀ x ∈ K.map (fun k => k.timestamp), x ≠ 0 := by
    rw [hts]
    intro x hx
    obtain ⟨j, hj, rfl⟩ := List.mem_map.mp hx
    exact (tsVal_of_hasGoodTS (hgood j hj) JsonVal.undef 0).2
  cases K with
  | nil => exact absurd rfl hne
  | cons k0 kr =>
    have hasc2 : ascInts (k0.timestamp :: kr.map (fun k => k.timestamp)) = true := by
      rw [← List.map_cons]
      rw [hts]
      exact hasc
    have hstep := ascInts_head_last k0.timestamp (kr.map (fun k => k.timestamp)) hasc2
    have e2 : ((k0 :: kr).map (fun k => k.timestamp)).getLastD 0 =
        ((k0 :: kr).getLast hne).timestamp := by
      rw [List.getLastD_eq_getLast?, List.getLast?_map, List.getLast?_eq_getLast _ hne]
      rfl
    have e1 : (kr.map (fun k => k.timestamp)).getLastD k0.timestamp =
        ((k0 :: kr).map (fun k => k.timestamp)).getLastD 0 := by
      rw [List.map_cons, List.getLastD_cons]
    have hle : k0.timestamp ≤ ((k0 :: kr).getLast hne).timestamp := by
      rw [← e2, ← e1]
      exact hstep
    have hz0 : k0.timestamp ≠ 0 := hnz _ (by simp)
    have hzl : ((k0 :: kr).getLast hne).timestamp ≠ 0 :=
      hnz _ (List.mem_map.mpr ⟨_, List.getLast_mem hne, rfl⟩)
    show intOr k0.timestamp d1 ≤ _
    unfold intOr
    rw [if_neg hz0, if_neg hzl]
    exact hle

/-- Dates of a chat session whose kept records are timestamped in ascending
order respect the ordering invariant. -/
theorem extractChatSession_dates {hash : String → String} {now : Int} {ws : String}
    {s : JsonVal} {i : Nat} {c : Thread × List Message}
    (h : ChatDataAdapter.extractChatSession hash now ws s i = some c)
    (hasc : sessionAsc s = true) :
    c.1.createdAt ≤ c.1.updatedAt := by
  simp only [ChatDataAdapter.extractChatSession] at h
  by_cases h1 : truthy s = true
  swap
  · simp [h1] at h
  simp only [h1, not_true, Bool.not_eq_true, reduceIte] at h
  simp only [sessionAsc, sessionMsgs, h1, Bool.not_true, Bool.false_or] at hasc
  cases hsm : jor (jget s "messages")
      (jor (jget s "history") (jor (jget s "entries") (JsonVal.arr JsonArr.nil))) with
  | null => rw [hsm] at h; simp at h
  | undef => rw [hsm] at h; simp at h
  | bool b => rw [hsm] at h; simp at h
  | num n => rw [hsm] at h; simp at h
  | str st => rw [hsm] at h; simp at h
  | obj fs => rw [hsm] at h; simp at h
  | arr ms =>
    rw [hsm] at h
    rw [hsm] at hasc
    simp only [] at h
    simp only [Bool.and_eq_true] at hasc
    cases hml : ms.toList with
    | nil => rw [hml] at h; simp at h
    | cons m0 mrest =>
      rw [hml] at h
      rw [hml] at hasc
      simp only [] at h
      obtain ⟨hgoodAll, hascL⟩ := hasc
      cases hmsgs : List.filterMap
          (fun p => ChatDataAdapter.extractMessage hash now p.2
            (generateStableId hash [ws, "chatdata", toString i,
              tsString (jget m0 "timestamp") now]) p.1)
          (m0 :: mrest).enum with
      | nil => rw [hmsgs] at h; simp at h
      | cons k0 krest =>
        rw [hmsgs] at h
        simp only [Option.some.injEq] at h
        subst h
        have hgood : ∀ j ∈ (m0 :: mrest).filter chatKeep, hasGoodTS j = true := by
          intro j hj
          simpa using List.all_eq_true.mp hgoodAll j hj
        have hgood2 : ∀ m ∈ ((m0 :: mrest).enum.map Prod.snd), chatKeep m = true →
            hasGoodTS m = true := by
          intro m hm hk
          rw [List.enum_map_snd] at hm
          exact hgood m (List.mem_filter.mpr ⟨hm, hk⟩)
        have hts : (k0 :: krest).map (fun k => k.timestamp)
            = ((m0 :: mrest).filter chatKeep).map tsVal := by
          rw [← hmsgs]
          have hfm := chat_filterMap_timestamps hash now
            (generateStableId hash [ws, "chatdata", toString i,
              tsString (jget m0 "timestamp") now]) (m0 :: mrest).enum hgood2
          rw [List.enum_map_snd] at hfm
          exact hfm
        have hne : (k0 :: krest) ≠ [] := by simp
        show intOr k0.timestamp now ≤ (match (k0 :: krest).getLast? with
          | some ml => intOr ml.timestamp now
          | none => now)
        rw [List.getLast?_eq_getLast _ hne]
        exact dates_of_asc_msgs hne hts hgood hascL now now

/-- Dates of a composer entry whose kept conversation records are timestamped
in ascending order respect the ordering invariant. -/
theorem extractComposerData_dates {hash : String → String} {now : Int} {ws : String}
    {data : JsonVal} {cid : String} {c : Thread × List Message}
    (h : ComposerAdapter.extractComposerData hash now ws data cid = some c)
    (hasc : composerDataAsc data = true) :
    c.1.createdAt ≤ c.1.updatedAt := by
  simp only [ComposerAdapter.extractComposerData] at h
  by_cases h1 : truthy data = true
  swap
  · simp [h1] at h
  simp only [h1, not_true, Bool.not_eq_true, Bool.true_eq_false, Bool.false_eq_true,
    reduceIte] at h
  simp only [composerDataAsc, composerConv, h1, Bool.not_true, Bool.false_or,
    Bool.not_eq_true] at hasc
  by_cases hsp : (truthy (jor (jget data "conversation")
      (jor (jget data "messages") (jget data "history"))) = false ∧
      truthy (jget data "prompt") = true)
  · rw [if_pos hsp] at h
    exact (extractSinglePrompt_shape h).2.2.2.2.2.2
  · rw [if_neg hsp] at h
    rw [if_neg hsp] at hasc
    cases hconv : jor (jget data "conversation")
        (jor (jget data "messages") (jget data "history")) with
    | null => rw [hconv] at h; simp at h
    | undef => rw [hconv] at h; simp at h
    | bool b => rw [hconv] at h; simp at h
    | num n => rw [hconv] at h; simp at h
    | str st => rw [hconv] at h; simp at h
    | arr xs =>
      rw [hconv] at h
      rw [hconv] at hasc
      simp only [] at h
      simp only [Bool.and_eq_true] at hasc
      obtain ⟨hgoodAll, hascL⟩ := hasc
      cases hmsgs : List.filterMap
          (fun p => ComposerAdapter.extractComposerMessage hash now ws p.2 cid p.1)
          xs.toList.enum with
      | nil => rw [hmsgs] at h; simp at h
      | cons m0 mrest =>
        rw [hmsgs] at h
        simp only [Option.some.injEq] at h
        subst h
        generalize hT : generateStableId hash
          [ws, "composer", cid, toString (intOr m0.timestamp now)] = T
        have hgood : ∀ j ∈ xs.toList.filter composerKeep, hasGoodTS j = true := by
          intro j hj
          simpa using List.all_eq_true.mp hgoodAll j hj
        have hgood2 : ∀ m ∈ (xs.toList.enum.map Prod.snd), composerKeep m = true →
            hasGoodTS m = true := by
          intro m hm hk
          rw [List.enum_map_snd] at hm
          exact hgood m (List.mem_filter.mpr ⟨hm, hk⟩)
        have hts0 : (m0 :: mrest).map (fun k => k.timestamp)
            = (xs.toList.filter composerKeep).map tsVal := by
          rw [← hmsgs]
          have hfm := composer_filterMap_timestamps hash now ws cid xs.toList.enum hgood2
          rw [List.enum_map_snd] at hfm
          exact hfm
        have htsK : (((m0 :: mrest).map (fun m : Message => { m with threadId := T })).map
            (fun k => k.timestamp)) = (xs.toList.filter composerKeep).map tsVal := by
          rw [List.map_map]
          exact hts0
        have hKne : ((m0 :: mrest).map (fun m : Message => { m with threadId := T })) ≠ [] := by
          simp
        have hmlast : ((m0 :: mrest).map (fun m : Message => { m with threadId := T })).getLastD
            ({ m0 with threadId := T } : Message) =
            ((m0 :: mrest).map (fun m : Message => { m with threadId := T })).getLast hKne := by
          rw [List.getLastD_eq_getLast?, List.getLast?_eq_getLast _ hKne]
          rfl
        show intOr m0.timestamp (jnumF (jget data "createdAt") now) ≤
          intOr (((m0 :: mrest).map (fun m : Message => { m with threadId := T })).getLastD
            ({ m0 with threadId := T } : Message)).timestamp (jnumF (jget data "updatedAt") now)
        rw [hmlast]
        exact dates_of_asc_msgs hKne htsK hgood hascL
          (jnumF (jget data "createdAt") now) (jnumF (jget data "updatedAt") now)
    | obj fs =>
      rw [hconv] at h
      rw [hconv] at hasc
      simp only [] at h
      cases hopt : ComposerAdapter.extractComposerMessage hash now ws (JsonVal.obj fs) cid 0 with
      | none => rw [hopt] at h; simp at h
      | some m0 =>
        rw [hopt] at h
        simp only [Option.toList_some, Option.some.injEq] at h
        subst h
        have hkeep : composerKeep (JsonVal.obj fs) = true := by
          by_contra hkf
          rw [(extractComposerMessage_eval hash now ws (JsonVal.obj fs) cid 0).1
            (by simpa using hkf)] at hopt
          exact absurd hopt (by simp)
        have hgts : hasGoodTS (JsonVal.obj fs) = true := by
          rw [hkeep] at hasc
          simpa using hasc
        obtain ⟨k, hk2, hkts⟩ :=
          (extractComposerMessage_eval hash now ws (JsonVal.obj fs) cid 0).2 hkeep
        rw [hopt] at hk2
        have hm0ts : m0.timestamp = tsVal (JsonVal.obj fs) := by
          cases hk2
          rw [hkts]
          exact (tsVal_of_hasGoodTS hgts (jor (jget (JsonVal.obj fs) "createdAt")
            (jget (JsonVal.obj fs) "time")) now).1
        have hnz : m0.timestamp ≠ 0 := by
          rw [hm0ts]
          exact (tsVal_of_hasGoodTS hgts JsonVal.undef 0).2
        generalize generateStableId hash
          [ws, "composer", cid, toString (intOr m0.timestamp now)] = T
        show intOr m0.timestamp (jnumF (jget data "createdAt") now) ≤
          intOr m0.timestamp (jnumF (jget data "updatedAt") now)
        unfold intOr
        rw [if_neg hnz, if_neg hnz]

/-- Every legacy-prompt chunk comes from one prompt record. -/
theorem extractFromPrompts_mem {hash : String → String} {now : Int} {ws : String}
    {data : JsonVal} {c : Thread × List Message}
    (h : c ∈ ChatDataAdapter.extractFromPrompts hash now ws data) :
    ∃ p i, ChatDataAdapter.extractFromPrompt hash now ws p i = some c := by
  unfold ChatDataAdapter.extractFromPrompts at h
  cases data with
  | arr ps =>
    simp only [] at h
    obtain ⟨p, _, hp⟩ := List.mem_filterMap.mp h
    exact ⟨p.2, p.1, hp⟩
  | null => simp at h
  | undef => simp at h
  | bool b => simp at h
  | num n => simp at h
  | str st => simp at h
  | obj fs => simp at h

/-- Every chunk of an ascending chatdata payload comes from an ascending
session. -/
theorem extractFromChatData_asc {hash : String → String} {now : Int} {ws : String}
    {data : JsonVal} {c : Thread × List Message}
    (h : c ∈ ChatDataAdapter.extractFromChatData hash now ws data)
    (hasc : chatDataAsc data = true) :
    ∃ s i, sessionAsc s = true ∧
      ChatDataAdapter.extractChatSession hash now ws s i = some c := by
  unfold ChatDataAdapter.extractFromChatData at h
  unfold chatDataAsc at hasc
  cases data with
  | arr sessions =>
    simp only [] at h
    simp only [] at hasc
    obtain ⟨p, hpmem, hp⟩ := List.mem_filterMap.mp h
    have hmem2 : p.2 ∈ sessions.toList := by
      have hm := List.mem_map_of_mem Prod.snd hpmem
      rwa [List.enum_map_snd] at hm
    exact ⟨p.2, p.1, by simpa using List.all_eq_true.mp hasc p.2 hmem2, hp⟩
  | obj fs =>
    simp only [] at h
    simp only [] at hasc
    by_cases h3 : truthy (jor (jget (JsonVal.obj fs) "conversations")
        (jget (JsonVal.obj fs) "chats")) = true
    · rw [if_pos h3] at h
      rw [if_pos h3] at hasc
      cases hca : jor (jget (JsonVal.obj fs) "conversations")
          (jget (JsonVal.obj fs) "chats") with
      | arr sessions =>
        rw [hca] at h
        rw [hca] at hasc
        simp only [] at h
        simp only [] at hasc
        obtain ⟨p, hpmem, hp⟩ := List.mem_filterMap.mp h
        have hmem2 : p.2 ∈ sessions.toList := by
          have hm := List.mem_map_of_mem Prod.snd hpmem
          rwa [List.enum_map_snd] at hm
        exact ⟨p.2, p.1, by simpa using List.all_eq_true.mp hasc p.2 hmem2, hp⟩
      | null => rw [hca] at h; simp at h
      | undef => rw [hca] at h; simp at h
      | bool b => rw [hca] at h; simp at h
      | num n => rw [hca] at h; simp at h
      | str st => rw [hca] at h; simp at h
      | obj fs2 => rw [hca] at h; simp at h
    · rw [if_neg h3] at h
      rw [if_neg h3] at hasc
      by_cases h4 : truthy (jor (jget (JsonVal.obj fs) "messages")
          (jget (JsonVal.obj fs) "history")) = true
      · rw [if_pos h4] at h
        rw [if_pos h4] at hasc
        rw [Option.mem_toList] at h
        exact ⟨JsonVal.obj fs, 0, hasc, h⟩
      · rw [if_neg h4] at h
        exact absurd h (by simp)
  | null => simp [jget, jor, truthy] at h
  | undef => simp [jget, jor, truthy] at h
  | bool b => simp [jget, jor, truthy] at h
  | num n => simp [jget, jor, truthy] at h
  | str st => simp [jget, jor, truthy] at h

/-- Every chunk of the chatdata adapter on an ascending database comes from
an ascending session or from a legacy prompt. -/
theorem chatChunks_asc {hash : String → String} {now : Int} {ws : String} {db : DB}
    {c : Thread × List Message} (h : c ∈ ChatDataAdapter.chunks hash now ws db)
    (hasc : dbAscending db = true) :
    (∃ s i, sessionAsc s = true ∧
      ChatDataAdapter.extractChatSession hash now ws s i = some c) ∨
    (∃ p i, ChatDataAdapter.extractFromPrompt hash now ws p i = some c) := by
  unfold ChatDataAdapter.chunks at h
  unfold dbAscending at hasc
  obtain ⟨l, hl, hcl⟩ := List.mem_flatten.mp h
  obtain ⟨it, hit, rfl⟩ := List.mem_map.mp hl
  have hdb : it ∈ db := List.mem_of_mem_filter hit
  by_cases h1 : truthy it.2 = true
  swap
  · rw [if_pos (by simpa using h1)] at hcl
    exact absurd hcl (by simp)
  rw [if_neg (by simp [h1])] at hcl
  by_cases h2 : it.1 = ChatDataAdapter.chatdataKey
  · rw [if_pos h2] at hcl
    have hx := List.all_eq_true.mp hasc it hdb
    rw [Bool.and_eq_true] at hx
    have hca : chatDataAsc it.2 = true := by
      have hx1 := hx.1
      rw [h2] at hx1
      simpa [h1] using hx1
    exact Or.inl (extractFromChatData_asc hcl hca)
  · rw [if_neg h2] at hcl
    exact Or.inr (extractFromPrompts_mem hcl)

/-- Every chunk of the composer adapter on an ascending database comes from
an ascending composer entry. -/
theorem composerChunks_asc {hash : String → String} {now : Int} {ws : String} {db : DB}
    {c : Thread × List Message} (h : c ∈ ComposerAdapter.chunks hash now ws db)
    (hasc : dbAscending db = true) :
    ∃ data cid, composerDataAsc data = true ∧
      ComposerAdapter.extractComposerData hash now ws data cid = some c := by
  unfold ComposerAdapter.chunks at h
  unfold dbAscending at hasc
  obtain ⟨it, hit, heq⟩ := List.mem_filterMap.mp h
  have hdb : it ∈ db := List.mem_of_mem_filter hit
  have hkey : ComposerAdapter.matchesComposerKey it.1 = true := by
    simpa using (List.mem_filter.mp hit).2
  by_cases h1 : truthy it.2 = true
  · rw [if_neg (by simp [h1])] at heq
    have hx := List.all_eq_true.mp hasc it hdb
    rw [Bool.and_eq_true] at hx
    have hca : composerDataAsc it.2 = true := by
      have hx2 := hx.2
      rw [hkey] at hx2
      simpa [h1] using hx2
    exact ⟨it.2, ComposerAdapter.extractComposerIdFromKey it.1, hca, heq⟩
  · rw [if_pos (by simpa using h1)] at heq
    exact absurd heq (by simp)

/-- On an ascending database every chatdata thread satisfies the date
ordering. -/
theorem chat_extract_dates {hash : String → String} {now : Int} {ws : String} {db : DB}
    (hasc : dbAscending db = true) :
    ∀ t ∈ (ChatDataAdapter.extract hash now ws db).1, t.createdAt ≤ t.updatedAt := by
  intro t ht
  obtain ⟨c, hc, rfl⟩ := thread_mem_of_extract ht
  rcases chatChunks_asc hc hasc with ⟨s, i, hsa, hse⟩ | ⟨p, i, hpe⟩
  · exact extractChatSession_dates hse hsa
  · exact (extractFromPrompt_shape hpe).2.2.2.2.2.2

/-- On an ascending database every composer thread satisfies the date
ordering. -/
theorem composer_extract_dates {hash : String → String} {now : Int} {ws : String} {db : DB}
    (hasc : dbAscending db = true) :
    ∀ t ∈ (ComposerAdapter.extract hash now ws db).1, t.createdAt ≤ t.updatedAt := by
  intro t ht
  obtain ⟨c, hc, rfl⟩ := thread_mem_of_extract ht
  obtain ⟨data, cid, hda, hde⟩ := composerChunks_asc hc hasc
  exact extractComposerData_dates hde hda

/-- Every thread of the adapter stage comes from one of the two adapters. -/
theorem mergedOf_thread_mem {hash : String → String} {now : Int} {opts : NormalizerOptions}
    {ws : String} {db : DB} {t : Thread}
    (h : t ∈ (mergedOf hash now opts ws db).1.1) :
    t ∈ (ComposerAdapter.extract hash now ws db).1 ∨
    t ∈ (ChatDataAdapter.extract hash now ws db).1 := by
  simp only [mergedOf] at h
  by_cases hC : obTruthy opts.enableComposer = true
  · rw [if_pos hC] at h
    by_cases hL : (ComposerAdapter.extract hash now ws db).1.length > 0
    · rw [if_pos hL] at h
      simp only [] at h
      by_cases hG : (obTruthy opts.enableChatData &&
          (!obTruthy opts.preferComposer ||
            (ComposerAdapter.extract hash now ws db).1.length == 0)) = true
      · rw [if_pos hG] at h
        by_cases hCD : (ChatDataAdapter.extract hash now ws db).1.length > 0
        · rw [if_pos hCD] at h
          simp only [] at h
          by_cases hM : (obTruthy opts.preferComposer &&
              (ComposerAdapter.extract hash now ws db).1.length > 0) = true
          · rw [if_pos hM] at h
            simp only [] at h
            rcases List.mem_append.mp h with h2 | h2
            · exact Or.inl h2
            · exact Or.inr (List.mem_of_mem_filter h2)
          · rw [if_neg hM] at h
            by_cases hZ : ((ComposerAdapter.extract hash now ws db).1.length == 0) = true
            · rw [if_pos hZ] at h
              exact Or.inr h
            · rw [if_neg hZ] at h
              exact Or.inl h
        · rw [if_neg hCD] at h
          exact Or.inl h
      · rw [if_neg hG] at h
        exact Or.inl h
    · rw [if_neg hL] at h
      simp only [] at h
      by_cases hG : (obTruthy opts.enableChatData &&
          (!obTruthy opts.preferComposer || (([] : List Thread)).length == 0)) = true
      · rw [if_pos hG] at h
        by_cases hCD : (ChatDataAdapter.extract hash now ws db).1.length > 0
        · rw [if_pos hCD] at h
          simp only [] at h
          by_cases hM : (obTruthy opts.preferComposer &&
              (([] : List Thread)).length > 0) = true
          · rw [if_pos hM] at h
            simp only [] at h
            rcases List.mem_append.mp h with h2 | h2
            · exact absurd h2 (by simp)
            · exact Or.inr (List.mem_of_mem_filter h2)
          · rw [if_neg hM] at h
            by_cases hZ : ((([] : List Thread)).length == 0) = true
            · rw [if_pos hZ] at h
              exact Or.inr h
            · exact absurd (by decide : ((([] : List Thread)).length == 0) = true) hZ
        · rw [if_neg hCD] at h
          exact absurd h (by simp)
      · rw [if_neg hG] at h
        exact absurd h (by simp)
  · rw [if_neg hC] at h
    simp only [] at h
    by_cases hG : (obTruthy opts.enableChatData &&
        (!obTruthy opts.preferComposer || (([] : List Thread)).length == 0)) = true
    · rw [if_pos hG] at h
      by_cases hCD : (ChatDataAdapter.extract hash now ws db).1.length > 0
      · rw [if_pos hCD] at h
        simp only [] at h
        by_cases hM : (obTruthy opts.preferComposer &&
            (([] : List Thread)).length > 0) = true
        · rw [if_pos hM] at h
          simp only [] at h
          rcases List.mem_append.mp h with h2 | h2
          · exact absurd h2 (by simp)
          · exact Or.inr (List.mem_of_mem_filter h2)
        · rw [if_neg hM] at h
          by_cases hZ : ((([] : List Thread)).length == 0) = true
          · rw [if_pos hZ] at h
            exact Or.inr h
          · exact absurd (by decide : ((([] : List Thread)).length == 0) = true) hZ
      · rw [if_neg hCD] at h
        exact absurd h (by simp)
    · rw [if_neg hG] at h
      exact absurd h (by simp)

/-- The thread limit only selects threads, never edits them. -/
theorem applyThreadLimit_mem {L : Option Nat} {tm : List Thread × List Message} {t : Thread}
    (h : t ∈ (applyThreadLimit L tm).1) : t ∈ tm.1 := by
  unfold applyThreadLimit at h
  cases L with
  | none => exact h
  | some l =>
    simp only [] at h
    by_cases hc : l ≠ 0 ∧ tm.1.length > l
    · rw [if_pos hc] at h
      simp only [] at h
      have h2 := (List.take_sublist _ _).mem h
      exact (List.mergeSort_perm _ _).mem_iff.mp h2
    · rw [if_neg hc] at h
      exact h

/-- The per-thread update of the message limit keeps the date fields. -/
theorem updateThreadForGroup_dates (lim : List Message) (t : Thread) :
    (updateThreadForGroup lim t).createdAt = t.createdAt ∧
    (updateThreadForGroup lim t).updatedAt = t.updatedAt := by
  unfold updateThreadForGroup
  cases lim.getLast? with
  | none => exact ⟨rfl, rfl⟩
  | some m => exact ⟨rfl, rfl⟩

/-- Members of an in-place thread update are original threads or updated
originals. -/
theorem mem_updateFirst {tid : String} {f : Thread → Thread} :
    ∀ {ts : List Thread} {t : Thread}, t ∈ updateFirst tid f ts →
    t ∈ ts ∨ ∃ t0 ∈ ts, t = f t0 := by
  intro ts
  induction ts with
  | nil => intro t h; exact absurd h (by simp [updateFirst])
  | cons t1 ts2 ih =>
    intro t h
    unfold updateFirst at h
    by_cases he : t1.id = tid
    · rw [if_pos he] at h
      rcases List.mem_cons.mp h with rfl | h2
      · exact Or.inr ⟨t1, by simp, rfl⟩
      · exact Or.inl (by simp [h2])
    · rw [if_neg he] at h
      rcases List.mem_cons.mp h with rfl | h2
      · exact Or.inl (by simp)
      · rcases ih h2 with h3 | ⟨t0, ht0, rfl⟩
        · exact Or.inl (by simp [h3])
        · exact Or.inr ⟨t0, by simp [ht0], rfl⟩

/-- Threads surviving the message-limit fold keep the dates of an original
thread. -/
theorem messageLimit_foldl_dates (msgsAll : List Message) (l : Nat) :
    ∀ (tids : List String) (ts : List Thread) (acc : List Message) {t : Thread},
    t ∈ (tids.foldl (fun acc tid =>
      let group := msgsAll.filter (fun m => m.threadId = tid)
      let limited := (group.mergeSort (fun a b => decide (a.timestamp ≤ b.timestamp))).take l
      (updateFirst tid (updateThreadForGroup limited) acc.1, acc.2 ++ limited))
      (ts, acc)).1 →
    ∃ t0 ∈ ts, t.createdAt = t0.createdAt ∧ t.updatedAt = t0.updatedAt := by
  intro tids
  induction tids with
  | nil => intro ts acc t h; exact ⟨t, h, rfl, rfl⟩
  | cons tid tids2 ih =>
    intro ts acc t h
    rw [List.foldl_cons] at h
    obtain ⟨t0, ht0, hc, hu⟩ := ih _ _ h
    rcases mem_updateFirst ht0 with h2 | ⟨t1, ht1, rfl⟩
    · exact ⟨t0, h2, hc, hu⟩
    · obtain ⟨ec, eu⟩ := updateThreadForGroup_dates _ t1
      exact ⟨t1, ht1, hc.trans ec, hu.trans eu⟩

/-- The message limit keeps every thread's dates. -/
theorem applyMessageLimit_dates {L : Option Nat} {tm : List Thread × List Message}
    {t : Thread} (h : t ∈ (applyMessageLimit L tm).1) :
    ∃ t0 ∈ tm.1, t.createdAt = t0.createdAt ∧ t.updatedAt = t0.updatedAt := by
  unfold applyMessageLimit at h
  cases L with
  | none => exact ⟨t, h, rfl, rfl⟩
  | some l =>
    simp only [] at h
    by_cases hl : l ≠ 0
    · rw [if_pos hl] at h
      exact messageLimit_foldl_dates tm.2 l _ tm.1 [] h
    · rw [if_neg hl] at h
      exact ⟨t, h, rfl, rfl⟩

/-- C9 counterexample: a chat session whose two messages carry descending
timestamps (100 then 50) yields a thread with createdAt = 100 and
updatedAt = 50, violating updatedAt ≥ createdAt. -/
theorem thread_timestamp_counterexample :
    ((ChatDataAdapter.extract idHash 7 "w" dbChatUnsorted).1.map
      (fun t => (t.createdAt, t.updatedAt)) = [((100 : Int), (50 : Int))]) ∧
    ¬ (∀ t ∈ (ChatDataAdapter.extract idHash 7 "w" dbChatUnsorted).1,
        t.createdAt ≤ t.updatedAt) := by
  constructor
  · rfl
  · decide

/-- C9 amended: when every session or conversation reachable by the adapters
keeps its records in ascending order of truthy timestamps, every thread
produced by either adapter — and hence every thread of any normalization
result over such a database — satisfies createdAt ≤ updatedAt. Legacy prompt
and single-prompt threads satisfy it unconditionally; unsorted chat sessions
can violate it. -/
theorem thread_timestamp_amended (hash : String → String) (now : Int)
    (popts : PartialOptions) (dbPath ws : String) (db : DB)
    (hasc : dbAscending db = true) :
    (∀ t ∈ (ChatDataAdapter.extract hash now ws db).1, t.createdAt ≤ t.updatedAt) ∧
    (∀ t ∈ (ComposerAdapter.extract hash now ws db).1, t.createdAt ≤ t.updatedAt) ∧
    (∀ t ∈ (normalizeDatabase hash now popts dbPath ws db).threads,
      t.createdAt ≤ t.updatedAt) := by
  refine ⟨chat_extract_dates hasc, composer_extract_dates hasc, ?_⟩
  intro t ht
  have ht2 : t ∈ (applyMessageLimit (spreadOptions popts).maxMessagesPerThread
      (applyThreadLimit (spreadOptions popts).maxThreadsPerDb
        (mergedOf hash now (spreadOptions popts) ws db).1)).1 := ht
  obtain ⟨t0, ht0, hc, hu⟩ := applyMessageLimit_dates ht2
  have ht1 := applyThreadLimit_mem ht0
  rw [hc, hu]
  rcases mergedOf_thread_mem ht1 with h2 | h2
  · exact composer_extract_dates hasc t0 h2
  · exact chat_extract_dates hasc t0 h2

/-- Concrete instance of the amended date invariant on an ascending chat
session database. -/
theorem thread_timestamp_witness :
    dbAscending dbChatSorted = true ∧
    (∀ t ∈ (ChatDataAdapter.extract idHash 3 "w" dbChatSorted).1,
      t.createdAt ≤ t.updatedAt) ∧
    (∀ t ∈ (normalizeDatabase idHash 3 {} "p" "w" dbChatSorted).threads,
      t.createdAt ≤ t.updatedAt) := by
  refine ⟨by decide, ?_, ?_⟩
  · exact (thread_timestamp_amended idHash 3 {} "p" "w" dbChatSorted (by decide)).1
  · exact (thread_timestamp_amended idHash 3 {} "p" "w" dbChatSorted (by decide)).2.2

/-- A truthy numeric timestamp ignores the numeric fallback. -/
theorem jnumF_of_hasGoodTS {m : JsonVal} (h : hasGoodTS m = true) (d : Int) :
    jnumF (jget m "timestamp") d = tsVal m := by
  unfold hasGoodTS at h
  cases ht : jget m "timestamp" with
  | num n =>
    rw [ht] at h
    simp only [] at h
    have hn : n ≠ 0 := by simpa using h
    unfold jnumF tsVal
    rw [ht]
    simp [hn]
  | null => rw [ht] at h; simp at h
  | undef => rw [ht] at h; simp at h
  | bool b => rw [ht] at h; simp at h
  | str s => rw [ht] at h; simp at h
  | arr a => rw [ht] at h; simp at h
  | obj f => rw [ht] at h; simp at h

/-- A truthy numeric timestamp ignores the clock in its string form. -/
theorem tsString_of_hasGoodTS {m : JsonVal} (h : hasGoodTS m = true) (d : Int) :
    tsString (jget m "timestamp") d = jsToString (jget m "timestamp") := by
  unfold hasGoodTS at h
  cases ht : jget m "timestamp" with
  | num n =>
    rw [ht] at h
    simp only [] at h
    have hn : n ≠ 0 := by simpa using h
    unfold tsString
    simp [truthy, hn]
  | null => rw [ht] at h; simp at h
  | undef => rw [ht] at h; simp at h
  | bool b => rw [ht] at h; simp at h
  | str s => rw [ht] at h; simp at h
  | arr a => rw [ht] at h; simp at h
  | obj f => rw [ht] at h; simp at h

/-- Message timestamps matching good source timestamps are nonzero. -/
theorem msgs_ts_nonzero {K : List Message} {kept : List JsonVal}
    (hts : K.map (fun k => k.timestamp) = kept.map tsVal)
    (hgood : ∀ j ∈ kept, hasGoodTS j = true) :
    ∀ k ∈ K, k.timestamp ≠ 0 := by
  intro k hk
  have hmem : k.timestamp ∈ kept.map tsVal := by
    rw [← hts]
    exact List.mem_map_of_mem _ hk
  obtain ⟨j, hj, he⟩ := List.mem_map.mp hmem
  rw [← he]
  exact (tsVal_of_hasGoodTS (hgood j hj) JsonVal.undef 0).2

/-- Chat message extraction is clock-independent on timestamped records. -/
theorem extractMessage_now (hash : String → String) (now1 now2 : Int) (m : JsonVal)
    (tid : String) (i : Nat) (hg : chatKeep m = true → hasGoodTS m = true) :
    ChatDataAdapter.extractMessage hash now1 m tid i =
    ChatDataAdapter.extractMessage hash now2 m tid i := by
  unfold ChatDataAdapter.extractMessage
  by_cases h1 : truthy m = true
  swap
  · simp [h1]
  by_cases h2 : truthy (jor (jget m "content")
      (jor (jget m "text") (jget m "message"))) = true
  swap
  · simp [h1, h2]
  have hgts : hasGoodTS m = true := hg (by unfold chatKeep; rw [h1, h2]; rfl)
  simp only [h1, h2, not_true, Bool.not_eq_true, Bool.true_eq_false, reduceIte,
    Option.some.injEq]
  rw [(tsVal_of_hasGoodTS hgts (jget m "time") now1).1,
    (tsVal_of_hasGoodTS hgts (jget m "time") now2).1]

/-- Composer message extraction is clock-independent on timestamped
records. -/
theorem extractComposerMessage_now (hash : String → String) (now1 now2 : Int)
    (ws : String) (m : JsonVal) (cid : String) (i : Nat)
    (hg : composerKeep m = true → hasGoodTS m = true) :
    ComposerAdapter.extractComposerMessage hash now1 ws m cid i =
    ComposerAdapter.extractComposerMessage hash now2 ws m cid i := by
  unfold ComposerAdapter.extractComposerMessage
  by_cases h1 : truthy m = true
  swap
  · simp [h1]
  by_cases h2 : truthy (jor (jget m "content") (jor (jget m "text")
      (jor (jget m "message") (jor (jget m "prompt") (jget m "response"))))) = true
  swap
  · simp [h1, h2]
  have hgts : hasGoodTS m = true := hg (by unfold composerKeep; rw [h1, h2]; rfl)
  simp only [h1, h2, not_true, Bool.not_eq_true, Bool.true_eq_false, reduceIte,
    Option.some.injEq]
  rw [(tsVal_of_hasGoodTS hgts (jor (jget m "createdAt") (jget m "time")) now1).1,
    (tsVal_of_hasGoodTS hgts (jor (jget m "createdAt") (jget m "time")) now2).1]

/-- A nonzero number ignores the `||` fallback. -/
theorem intOr_ne {a : Int} (h : a ≠ 0) (b : Int) : intOr a b = a := by
  unfold intOr
  rw [if_neg h]

/-- Chat session extraction is clock-independent on timestamped sessions. -/
theorem extractChatSession_now (hash : String → String) (now1 now2 : Int) (ws : String)
    (s : JsonVal) (i : Nat) (hts : sessionTS s = true) :
    ChatDataAdapter.extractChatSession hash now1 ws s i =
    ChatDataAdapter.extractChatSession hash now2 ws s i := by
  unfold ChatDataAdapter.extractChatSession
  by_cases h1 : truthy s = true
  swap
  · simp [h1]
  simp only [h1, not_true, Bool.not_eq_true, reduceIte]
  simp only [sessionTS, sessionMsgs, h1, Bool.not_true, Bool.false_or] at hts
  cases hsm : jor (jget s "messages")
      (jor (jget s "history") (jor (jget s "entries") (JsonVal.arr JsonArr.nil))) with
  | null => rfl
  | undef => rfl
  | bool b => rfl
  | num n => rfl
  | str st => rfl
  | obj fs => rfl
  | arr ms =>
    simp only []
    rw [hsm] at hts
    simp only [] at hts
    cases hml : ms.toList with
    | nil => rfl
    | cons m0 mrest =>
      simp only []
      rw [hml] at hts
      simp only [] at hts
      rw [Bool.and_eq_true] at hts
      obtain ⟨hm0, hall⟩ := hts
      rw [tsString_of_hasGoodTS hm0 now1, tsString_of_hasGoodTS hm0 now2]
      have hg2 : ∀ m ∈ m0 :: mrest, chatKeep m = true → hasGoodTS m = true := by
        intro m hm hk
        have := List.all_eq_true.mp hall m hm
        simpa [hk] using this
      have hFM : List.filterMap
          (fun p => ChatDataAdapter.extractMessage hash now1 p.2
            (generateStableId hash [ws, "chatdata", toString i,
              jsToString (jget m0 "timestamp")]) p.1) (m0 :: mrest).enum =
          List.filterMap
          (fun p => ChatDataAdapter.extractMessage hash now2 p.2
            (generateStableId hash [ws, "chatdata", toString i,
              jsToString (jget m0 "timestamp")]) p.1) (m0 :: mrest).enum := by
        refine List.filterMap_congr ?_
        intro p hp
        have hp2 : p.2 ∈ m0 :: mrest := by
          have hm := List.mem_map_of_mem Prod.snd hp
          rwa [List.enum_map_snd] at hm
        exact extractMessage_now hash now1 now2 p.2 _ p.1 (hg2 p.2 hp2)
      rw [hFM]
      cases hmsgs : List.filterMap
          (fun p => ChatDataAdapter.extractMessage hash now2 p.2
            (generateStableId hash [ws, "chatdata", toString i,
              jsToString (jget m0 "timestamp")]) p.1) (m0 :: mrest).enum with
      | nil => rfl
      | cons k0 krest =>
        have hg2b : ∀ m ∈ ((m0 :: mrest).enum.map Prod.snd), chatKeep m = true →
            hasGoodTS m = true := by
          intro m hm hk
          rw [List.enum_map_snd] at hm
          exact hg2 m hm hk
        have hts2 : (k0 :: krest).map (fun k => k.timestamp)
            = ((m0 :: mrest).filter chatKeep).map tsVal := by
          rw [← hmsgs]
          have hfm := chat_filterMap_timestamps hash now2
            (generateStableId hash [ws, "chatdata", toString i,
              jsToString (jget m0 "timestamp")]) (m0 :: mrest).enum hg2b
          rw [List.enum_map_snd] at hfm
          exact hfm
        have hgoodkept : ∀ j ∈ (m0 :: mrest).filter chatKeep, hasGoodTS j = true := by
          intro j hj
          exact hg2 j (List.mem_of_mem_filter hj) (List.of_mem_filter hj)
        have hnz := msgs_ts_nonzero hts2 hgoodkept
        have hne : (k0 :: krest) ≠ [] := by simp
        rw [List.getLast?_eq_getLast _ hne]
        simp only []
        rw [intOr_ne (hnz k0 (by simp)) now1, intOr_ne (hnz k0 (by simp)) now2,
          intOr_ne (hnz _ (List.getLast_mem hne)) now1,
          intOr_ne (hnz _ (List.getLast_mem hne)) now2]

/-- Legacy prompt extraction is clock-independent on timestamped prompts. -/
theorem extractFromPrompt_now (hash : String → String) (now1 now2 : Int) (ws : String)
    (p : JsonVal) (i : Nat) (hts : promptTS p = true) :
    ChatDataAdapter.extractFromPrompt hash now1 ws p i =
    ChatDataAdapter.extractFromPrompt hash now2 ws p i := by
  unfold ChatDataAdapter.extractFromPrompt
  by_cases h1 : truthy p = true
  swap
  · simp [h1]
  by_cases h2 : truthy (jget p "prompt") = true
  swap
  · simp [h1, h2]
  have hgts : hasGoodTS p = true := by
    unfold promptTS at hts
    simpa [h1, h2] using hts
  simp only [h1, h2, not_true, Bool.not_eq_true, Bool.true_eq_false, reduceIte]
  rw [tsString_of_hasGoodTS hgts now1, tsString_of_hasGoodTS hgts now2,
    jnumF_of_hasGoodTS hgts now1, jnumF_of_hasGoodTS hgts now2]

/-- Composer single-prompt extraction is clock-independent on timestamped
entries. -/
theorem extractSinglePrompt_now (hash : String → String) (now1 now2 : Int)
    (ws : String) (data : JsonVal) (cid : String) (hgts : hasGoodTS data = true) :
    ComposerAdapter.extractSinglePrompt hash now1 ws data cid =
    ComposerAdapter.extractSinglePrompt hash now2 ws data cid := by
  unfold ComposerAdapter.extractSinglePrompt
  rw [tsString_of_hasGoodTS hgts now1, tsString_of_hasGoodTS hgts now2,
    jnumF_of_hasGoodTS hgts now1, jnumF_of_hasGoodTS hgts now2]

/-- Composer entry extraction is clock-independent on timestamped entries. -/
theorem extractComposerData_now (hash : String → String) (now1 now2 : Int)
    (ws : String) (data : JsonVal) (cid : String) (hts : composerDataTS data = true) :
    ComposerAdapter.extractComposerData hash now1 ws data cid =
    ComposerAdapter.extractComposerData hash now2 ws data cid := by
  unfold ComposerAdapter.extractComposerData
  by_cases h1 : truthy data = true
  swap
  · simp [h1]
  simp only [h1, not_true, Bool.not_eq_true, Bool.true_eq_false, Bool.false_eq_true,
    reduceIte]
  simp only [composerDataTS, composerConv, h1, Bool.not_true, Bool.false_or,
    Bool.not_eq_true] at hts
  by_cases hsp : (truthy (jor (jget data "conversation")
      (jor (jget data "messages") (jget data "history"))) = false ∧
      truthy (jget data "prompt") = true)
  · rw [if_pos hsp, if_pos hsp]
    rw [if_pos hsp] at hts
    exact extractSinglePrompt_now hash now1 now2 ws data cid hts
  · rw [if_neg hsp, if_neg hsp]
    rw [if_neg hsp] at hts
    cases hconv : jor (jget data "conversation")
        (jor (jget data "messages") (jget data "history")) with
    | null => rfl
    | undef => rfl
    | bool b => rfl
    | num n => rfl
    | str st => rfl
    | arr xs =>
      simp only []
      rw [hconv] at hts
      simp only [] at hts
      have hg2 : ∀ m ∈ xs.toList, composerKeep m = true → hasGoodTS m = true := by
        intro m hm hk
        have := List.all_eq_true.mp hts m hm
        simpa [hk] using this
      have hFM : List.filterMap
          (fun p => ComposerAdapter.extractComposerMessage hash now1 ws p.2 cid p.1)
          xs.toList.enum =
          List.filterMap
          (fun p => ComposerAdapter.extractComposerMessage hash now2 ws p.2 cid p.1)
          xs.toList.enum := by
        refine List.filterMap_congr ?_
        intro p hp
        have hp2 : p.2 ∈ xs.toList := by
          have hm := List.mem_map_of_mem Prod.snd hp
          rwa [List.enum_map_snd] at hm
        exact extractComposerMessage_now hash now1 now2 ws p.2 cid p.1 (hg2 p.2 hp2)
      rw [hFM]
      cases hmsgs : List.filterMap
          (fun p => ComposerAdapter.extractComposerMessage hash now2 ws p.2 cid p.1)
          xs.toList.enum with
      | nil => rfl
      | cons m0 mrest =>
        simp only []
        have hg2b : ∀ m ∈ (xs.toList.enum.map Prod.snd), composerKeep m = true →
            hasGoodTS m = true := by
          intro m hm hk
          rw [List.enum_map_snd] at hm
          exact hg2 m hm hk
        have hts2 : (m0 :: mrest).map (fun k => k.timestamp)
            = (xs.toList.filter composerKeep).map tsVal := by
          rw [← hmsgs]
          have hfm := composer_filterMap_timestamps hash now2 ws cid xs.toList.enum hg2b
          rw [List.enum_map_snd] at hfm
          exact hfm
        have hgoodkept : ∀ j ∈ xs.toList.filter composerKeep, hasGoodTS j = true := by
          intro j hj
          exact hg2 j (List.mem_of_mem_filter hj) (List.of_mem_filter hj)
        have hnz := msgs_ts_nonzero hts2 hgoodkept
        simp only [intOr_ne (hnz m0 (by simp))]
        generalize generateStableId hash [ws, "composer", cid, toString m0.timestamp] = T
        have hKne2 : (m0 :: mrest) ≠ [] := by simp
        have hnz2 : (((m0 :: mrest).map (fun m : Message =>
            { m with threadId := T })).getLastD
            ({ m0 with threadId := T } : Message)).timestamp ≠ 0 := by
          rw [List.getLastD_eq_getLast?, List.getLast?_map,
            List.getLast?_eq_getLast _ hKne2]
          exact hnz ((m0 :: mrest).getLast hKne2) (List.getLast_mem hKne2)
        simp only [intOr_ne hnz2]
    | obj fs =>
      simp only []
      rw [hconv] at hts
      simp only [] at hts
      have hEC := fun hg => extractComposerMessage_now hash now1 now2 ws
        (JsonVal.obj fs) cid 0 hg
      by_cases hk : composerKeep (JsonVal.obj fs) = true
      · have hgts : hasGoodTS (JsonVal.obj fs) = true := by
          rw [hk] at hts
          simpa using hts
        rw [hEC (fun _ => hgts)]
        cases hopt : ComposerAdapter.extractComposerMessage hash now2 ws
            (JsonVal.obj fs) cid 0 with
        | none => rfl
        | some m0 =>
          simp only [Option.toList_some]
          obtain ⟨k, hk2, hkts⟩ :=
            (extractComposerMessage_eval hash now2 ws (JsonVal.obj fs) cid 0).2 hk
          rw [hopt] at hk2
          have hm0nz : m0.timestamp ≠ 0 := by
            cases hk2
            rw [hkts, (tsVal_of_hasGoodTS hgts (jor (jget (JsonVal.obj fs) "createdAt")
              (jget (JsonVal.obj fs) "time")) now2).1]
            exact (tsVal_of_hasGoodTS hgts JsonVal.undef 0).2
          simp only [intOr_ne hm0nz]
          generalize generateStableId hash [ws, "composer", cid, toString m0.timestamp] = T
          have hnz2 : ((([m0]).map (fun m : Message =>
              { m with threadId := T })).getLastD
              ({ m0 with threadId := T } : Message)).timestamp ≠ 0 := hm0nz
          simp only [intOr_ne hnz2]
      · rw [(extractComposerMessage_eval hash now1 ws (JsonVal.obj fs) cid 0).1
          (by simpa using hk),
          (extractComposerMessage_eval hash now2 ws (JsonVal.obj fs) cid 0).1
          (by simpa using hk)]
        rfl

/-- Chatdata payload extraction is clock-independent on timestamped
payloads. -/
theorem extractFromChatData_now (hash : String → String) (now1 now2 : Int)
    (ws : String) (data : JsonVal) (hts : chatDataTS data = true) :
    ChatDataAdapter.extractFromChatData hash now1 ws data =
    ChatDataAdapter.extractFromChatData hash now2 ws data := by
  unfold ChatDataAdapter.extractFromChatData
  unfold chatDataTS at hts
  cases data with
  | arr sessions =>
    simp only []
    simp only [] at hts
    refine List.filterMap_congr ?_
    intro p hp
    have hp2 : p.2 ∈ sessions.toList := by
      have hm := List.mem_map_of_mem Prod.snd hp
      rwa [List.enum_map_snd] at hm
    exact extractChatSession_now hash now1 now2 ws p.2 p.1
      (List.all_eq_true.mp hts p.2 hp2)
  | obj fs =>
    simp only []
    simp only [] at hts
    by_cases h3 : truthy (jor (jget (JsonVal.obj fs) "conversations")
        (jget (JsonVal.obj fs) "chats")) = true
    · rw [if_pos h3, if_pos h3]
      rw [if_pos h3] at hts
      cases hca : jor (jget (JsonVal.obj fs) "conversations")
          (jget (JsonVal.obj fs) "chats") with
      | arr sessions =>
        simp only []
        rw [hca] at hts
        simp only [] at hts
        refine List.filterMap_congr ?_
        intro p hp
        have hp2 : p.2 ∈ sessions.toList := by
          have hm := List.mem_map_of_mem Prod.snd hp
          rwa [List.enum_map_snd] at hm
        exact extractChatSession_now hash now1 now2 ws p.2 p.1
          (List.all_eq_true.mp hts p.2 hp2)
      | null => rfl
      | undef => rfl
      | bool b => rfl
      | num n => rfl
      | str st => rfl
      | obj fs2 => rfl
    · rw [if_neg h3, if_neg h3]
      rw [if_neg h3] at hts
      by_cases h4 : truthy (jor (jget (JsonVal.obj fs) "messages")
          (jget (JsonVal.obj fs) "history")) = true
      · rw [if_pos h4, if_pos h4]
        rw [if_pos h4] at hts
        rw [extractChatSession_now hash now1 now2 ws (JsonVal.obj fs) 0 hts]
      · rw [if_neg h4, if_neg h4]
  | null => simp [jget, jor, truthy]
  | undef => simp [jget, jor, truthy]
  | bool b => simp [jget, jor, truthy]
  | num n => simp [jget, jor, truthy]
  | str st => simp [jget, jor, truthy]

/-- Legacy prompt payload extraction is clock-independent on timestamped
payloads. -/
theorem extractFromPrompts_now (hash : String → String) (now1 now2 : Int)
    (ws : String) (data : JsonVal) (hts : promptsTS data = true) :
    ChatDataAdapter.extractFromPrompts hash now1 ws data =
    ChatDataAdapter.extractFromPrompts hash now2 ws data := by
  unfold ChatDataAdapter.extractFromPrompts
  unfold promptsTS at hts
  cases data with
  | arr ps =>
    simp only []
    simp only [] at hts
    refine List.filterMap_congr ?_
    intro p hp
    have hp2 : p.2 ∈ ps.toList := by
      have hm := List.mem_map_of_mem Prod.snd hp
      rwa [List.enum_map_snd] at hm
    exact extractFromPrompt_now hash now1 now2 ws p.2 p.1
      (List.all_eq_true.mp hts p.2 hp2)
  | null => rfl
  | undef => rfl
  | bool b => rfl
  | num n => rfl
  | str st => rfl
  | obj fs => rfl

/-- The chatdata adapter is clock-independent on timestamped databases. -/
theorem chat_extract_now (hash : String → String) (now1 now2 : Int)
    (ws : String) (db : DB) (hts : dbTimestamped db = true) :
    ChatDataAdapter.extract hash now1 ws db = ChatDataAdapter.extract hash now2 ws db := by
  unfold dbTimestamped at hts
  have hchunks : ChatDataAdapter.chunks hash now1 ws db =
      ChatDataAdapter.chunks hash now2 ws db := by
    unfold ChatDataAdapter.chunks
    refine congrArg List.flatten (List.map_congr_left ?_)
    intro it hit
    have hdb : it ∈ db := List.mem_of_mem_filter hit
    have hx := List.all_eq_true.mp hts it hdb
    rw [Bool.and_eq_true, Bool.and_eq_true] at hx
    by_cases h1 : truthy it.2 = true
    swap
    · rw [if_pos h1, if_pos h1]
    have hng : ¬ (¬ truthy it.2 = true) := by simp [h1]
    rw [if_neg hng, if_neg hng]
    by_cases h2 : it.1 = ChatDataAdapter.chatdataKey
    · rw [if_pos h2, if_pos h2]
      have hcd : chatDataTS it.2 = true := by
        have hx1 := hx.1.1
        rw [h2] at hx1
        simpa [h1] using hx1
      exact extractFromChatData_now hash now1 now2 ws it.2 hcd
    · rw [if_neg h2, if_neg h2]
      have hkey : (it.1 = ChatDataAdapter.chatdataKey || it.1 = ChatDataAdapter.promptsKey)
          = true := by simpa using (List.mem_filter.mp hit).2
      have h2b : it.1 = ChatDataAdapter.promptsKey := by
        rw [Bool.or_eq_true] at hkey
        rcases hkey with hk1 | hk2
        · exact absurd (by simpa using hk1) h2
        · simpa using hk2
      have hpr : promptsTS it.2 = true := by
        have hx2 := hx.1.2
        rw [h2b] at hx2
        simpa [h1] using hx2
      exact extractFromPrompts_now hash now1 now2 ws it.2 hpr
  unfold ChatDataAdapter.extract
  rw [hchunks]

/-- The composer adapter is clock-independent on timestamped databases. -/
theorem composer_extract_now (hash : String → String) (now1 now2 : Int)
    (ws : String) (db : DB) (hts : dbTimestamped db = true) :
    ComposerAdapter.extract hash now1 ws db = ComposerAdapter.extract hash now2 ws db := by
  unfold dbTimestamped at hts
  have hchunks : ComposerAdapter.chunks hash now1 ws db =
      ComposerAdapter.chunks hash now2 ws db := by
    unfold ComposerAdapter.chunks
    refine List.filterMap_congr ?_
    intro it hit
    have hdb : it ∈ db := List.mem_of_mem_filter hit
    have hx := List.all_eq_true.mp hts it hdb
    rw [Bool.and_eq_true, Bool.and_eq_true] at hx
    have hkey : ComposerAdapter.matchesComposerKey it.1 = true := by
      simpa using (List.mem_filter.mp hit).2
    by_cases h1 : truthy it.2 = true
    swap
    · rw [if_pos h1, if_pos h1]
    have hng : ¬ (¬ truthy it.2 = true) := by simp [h1]
    rw [if_neg hng, if_neg hng]
    have hct : composerDataTS it.2 = true := by
      have hx3 := hx.2
      rw [hkey] at hx3
      simpa [h1] using hx3
    exact extractComposerData_now hash now1 now2 ws it.2
      (ComposerAdapter.extractComposerIdFromKey it.1) hct
  unfold ComposerAdapter.extract
  rw [hchunks]

/-- C8: on a database in which every reachable source record carries a truthy
timestamp, normalization is a deterministic function of the database content:
two runs at different wall-clock times produce the same thread list, the same
message list, and hence identical thread-id and message-id sets. -/
theorem extraction_idempotent (hash : String → String) (now1 now2 : Int)
    (popts : PartialOptions) (dbPath ws : String) (db : DB)
    (hts : dbTimestamped db = true) :
    ((normalizeDatabase hash now1 popts dbPath ws db).threads =
      (normalizeDatabase hash now2 popts dbPath ws db).threads) ∧
    ((normalizeDatabase hash now1 popts dbPath ws db).messages =
      (normalizeDatabase hash now2 popts dbPath ws db).messages) ∧
    ((normalizeDatabase hash now1 popts dbPath ws db).threads.map (fun t => t.id) =
      (normalizeDatabase hash now2 popts dbPath ws db).threads.map (fun t => t.id)) ∧
    ((normalizeDatabase hash now1 popts dbPath ws db).messages.map (fun m => m.id) =
      (normalizeDatabase hash now2 popts dbPath ws db).messages.map (fun m => m.id)) := by
  have hmerged : mergedOf hash now1 (spreadOptions popts) ws db =
      mergedOf hash now2 (spreadOptions popts) ws db := by
    unfold mergedOf
    rw [chat_extract_now hash now1 now2 ws db hts,
      composer_extract_now hash now1 now2 ws db hts]
  have hthreads : (normalizeDatabase hash now1 popts dbPath ws db).threads =
      (normalizeDatabase hash now2 popts dbPath ws db).threads := by
    show (applyMessageLimit (spreadOptions popts).maxMessagesPerThread
      (applyThreadLimit (spreadOptions popts).maxThreadsPerDb
        (mergedOf hash now1 (spreadOptions popts) ws db).1)).1 =
      (normalizeDatabase hash now2 popts dbPath ws db).threads
    rw [hmerged]
    rfl
  have hmsgs : (normalizeDatabase hash now1 popts dbPath ws db).messages =
      (normalizeDatabase hash now2 popts dbPath ws db).messages := by
    show (applyMessageLimit (spreadOptions popts).maxMessagesPerThread
      (applyThreadLimit (spreadOptions popts).maxThreadsPerDb
        (mergedOf hash now1 (spreadOptions popts) ws db).1)).2 =
      (normalizeDatabase hash now2 popts dbPath ws db).messages
    rw [hmerged]
    rfl
  exact ⟨hthreads, hmsgs, by rw [hthreads], by rw [hmsgs]⟩

/-- Concrete instance of the idempotence property: a database holding a
composer conversation and a legacy prompt, both timestamped, yields the same
id lists at wall-clock times 5 and 99. -/
theorem extraction_idempotent_witness :
    dbTimestamped dbBoth = true ∧
    ((normalizeDatabase idHash 5 {} "p" "w" dbBoth).threads.map (fun t => t.id) =
     (normalizeDatabase idHash 99 {} "p" "w" dbBoth).threads.map (fun t => t.id)) ∧
    ((normalizeDatabase idHash 5 {} "p" "w" dbBoth).messages.map (fun m => m.id) =
     (normalizeDatabase idHash 99 {} "p" "w" dbBoth).messages.map (fun m => m.id)) := by
  refine ⟨by decide, ?_, ?_⟩
  · exact (extraction_idempotent idHash 5 99 {} "p" "w" dbBoth (by decide)).2.2.1
  · exact (extraction_idempotent idHash 5 99 {} "p" "w" dbBoth (by decide)).2.2.2

/-- A permutation of a two-equal-element list is that list. -/
theorem perm_pair_self {α : Type} {m : α} {l : List α} (h : l.Perm [m, m]) :
    l = [m, m] := by
  have hlen := h.length_eq
  cases l with
  | nil => simp at hlen
  | cons a l2 =>
    cases l2 with
    | nil => simp at hlen
    | cons b l3 =>
      cases l3 with
      | cons c l4 => simp at hlen
      | nil =>
        have ha : a ∈ ([m, m] : List α) := h.mem_iff.mp (by simp)
        have hb : b ∈ ([m, m] : List α) := h.mem_iff.mp (by simp)
        simp only [List.mem_cons, List.not_mem_nil, or_false, or_self] at ha hb
        rw [ha, hb]

/-- Sorting a two-equal-element message list returns it unchanged. -/
theorem mergeSort_pair_self (m : Message) (le : Message → Message → Bool) :
    ([m, m].mergeSort le) = [m, m] :=
  perm_pair_self (List.mergeSort_perm [m, m] le)

/-- Stage check: the duplicate-id database merges to two identical threads
and two identical messages. -/
theorem dup_merged_eq : (mergedOf idHash 0 (spreadOptions {}) "w" dbDupUnknown).1
    = ([dupThread, dupThread], [dupMsg, dupMsg]) := by decide

/-- C1 counterexample: a per-database thread limit explicitly set to 0 is
ignored (JavaScript falsiness of the guard), so one thread survives a limit
of zero; and two composer rows deriving the same id yield duplicate-id
threads of which only the first gets its messageCount recomputed — the
second keeps the stale count 1 while 2 kept messages reference its id. -/
theorem retention_invariant_counterexample :
    ((normalizeDatabase idHash 0 { maxThreadsPerDb := some (some 0) } "p" "w"
        dbComposerC1).threads.length = 1) ∧
    ((normalizeDatabase idHash 0 {} "p" "w" dbDupUnknown).threads.map
        (fun t => (t.id, t.messageCount)) =
      [("w|composer|unknown|5", 2), ("w|composer|unknown|5", 1)]) ∧
    ((normalizeDatabase idHash 0 {} "p" "w" dbDupUnknown).messages.map
        (fun m => m.threadId) = ["w|composer|unknown|5", "w|composer|unknown|5"]) ∧
    (∃ t ∈ (normalizeDatabase idHash 0 {} "p" "w" dbDupUnknown).threads,
      t.messageCount ≠
        ((normalizeDatabase idHash 0 {} "p" "w" dbDupUnknown).messages.filter
          (fun m => m.threadId = t.id)).length) := by
  have hTL : applyThreadLimit (some 1000) ([dupThread, dupThread], [dupMsg, dupMsg])
      = ([dupThread, dupThread], [dupMsg, dupMsg]) := rfl
  have hd : firstDedup (([dupMsg, dupMsg] : List Message).map (fun m => m.threadId))
      = ["w|composer|unknown|5"] := by
    simp [firstDedup, dupMsg]
  have hgroup : ([dupMsg, dupMsg] : List Message).filter
      (fun m => m.threadId = "w|composer|unknown|5") = [dupMsg, dupMsg] := by decide
  have hAML : applyMessageLimit (some 1000) ([dupThread, dupThread], [dupMsg, dupMsg])
      = (updateFirst "w|composer|unknown|5"
          (updateThreadForGroup [dupMsg, dupMsg]) [dupThread, dupThread],
         [dupMsg, dupMsg]) := by
    unfold applyMessageLimit
    simp only []
    rw [if_pos (by norm_num)]
    rw [hd]
    simp only [List.foldl_cons, List.foldl_nil]
    rw [hgroup, mergeSort_pair_self]
    rfl
  have hTH : (normalizeDatabase idHash 0 {} "p" "w" dbDupUnknown).threads
      = updateFirst "w|composer|unknown|5" (updateThreadForGroup [dupMsg, dupMsg])
        [dupThread, dupThread] := by
    show (applyMessageLimit (some 1000) (applyThreadLimit (some 1000)
      (mergedOf idHash 0 (spreadOptions {}) "w" dbDupUnknown).1)).1 = _
    rw [dup_merged_eq, hTL, hAML]
  have hMS : (normalizeDatabase idHash 0 {} "p" "w" dbDupUnknown).messages
      = [dupMsg, dupMsg] := by
    show (applyMessageLimit (some 1000) (applyThreadLimit (some 1000)
      (mergedOf idHash 0 (spreadOptions {}) "w" dbDupUnknown).1)).2 = _
    rw [dup_merged_eq, hTL, hAML]
  refine ⟨?_, ?_, ?_, ?_⟩
  · show (applyMessageLimit (some 1000) (applyThreadLimit (some 0)
      (mergedOf idHash 0 (spreadOptions { maxThreadsPerDb := some (some 0) })
        "w" dbComposerC1).1)).1.length = 1
    rw [applyMessageLimit_threads_length]
    decide
  · rw [hTH]
    decide
  · rw [hMS]
    decide
  · refine ⟨dupThread, ?_, ?_⟩
    · rw [hTH]
      decide
    · rw [hMS]
      decide

/-- Every chatdata chunk is well-formed: nonempty messages referencing its
thread, with a matching count. -/
theorem chat_chunks_good {hash : String → String} {now : Int} {ws : String} {db : DB} :
    ∀ c ∈ ChatDataAdapter.chunks hash now ws db, GoodChunk c := by
  intro c hc
  rcases chatChunks_cases hc with ⟨s, i, hse⟩ | ⟨p, i, hpe⟩
  · obtain ⟨h1, h2, h3, -⟩ := extractChatSession_shape hse
    exact ⟨h1, h2, h3⟩
  · obtain ⟨h1, h2, h3, -⟩ := extractFromPrompt_shape hpe
    exact ⟨h1, h2, h3⟩

/-- Every composer chunk is well-formed. -/
theorem composer_chunks_good {hash : String → String} {now : Int} {ws : String} {db : DB} :
    ∀ c ∈ ComposerAdapter.chunks hash now ws db, GoodChunk c := by
  intro c hc
  obtain ⟨data, cid, hde⟩ := composerChunks_cases hc
  obtain ⟨h1, h2, h3, -⟩ := extractComposerData_shape hde
  exact ⟨h1, h2, h3⟩

/-- A list of well-formed chunks with distinct thread ids satisfies the
pairing invariant between its threads and its flattened messages. -/
theorem paired_of_chunks : ∀ (C : List (Thread × List Message)),
    (∀ c ∈ C, GoodChunk c) → ((chunkThreads C).map (fun t => t.id)).Nodup →
    PairedInv (chunkThreads C) (chunkMessages C) := by
  intro C
  induction C with
  | nil =>
    intro _ _
    exact ⟨fun m hm => absurd hm (by simp [chunkMessages]), fun t ht =>
      absurd ht (by simp [chunkThreads])⟩
  | cons c C2 ih =>
    intro hgood hnd
    simp only [chunkThreads, List.map_cons, List.nodup_cons] at hnd
    obtain ⟨hno, hnd2⟩ := hnd
    have hgc := hgood c (by simp)
    obtain ⟨hpair2⟩ := And.intro (ih (fun c2 hc2 => hgood c2 (by simp [hc2])) hnd2) True.intro
    constructor
    · intro m hm
      simp only [chunkMessages, List.map_cons, List.flatten_cons, List.mem_append] at hm
      rcases hm with hm | hm
      · exact ⟨c.1, by simp [chunkThreads], hgc.2.1 m hm⟩
      · obtain ⟨t, ht, he⟩ := hpair2.1 m hm
        exact ⟨t, by simp [chunkThreads] at ht ⊢; exact Or.inr ht, he⟩
    · intro t ht
      simp only [chunkThreads, List.map_cons, List.mem_cons] at ht
      rcases ht with rfl | ht
      · have hfc : c.2.filter (fun m => m.threadId = c.1.id) = c.2 := by
          rw [List.filter_eq_self]
          intro m hm
          simp [hgc.2.1 m hm]
        have hfr : (chunkMessages C2).filter (fun m => m.threadId = c.1.id) = [] := by
          rw [List.filter_eq_nil_iff]
          intro m hm
          obtain ⟨t2, ht2, he⟩ := hpair2.1 m hm
          have hidmem : t2.id ∈ (chunkThreads C2).map (fun t2 => t2.id) :=
            List.mem_map_of_mem _ ht2
          simp only [he]
          intro hfalse
          rw [(by simpa using hfalse : t2.id = c.1.id)] at hidmem
          exact hno hidmem
        simp only [chunkMessages] at hfr
        constructor
        · show c.1.messageCount = ((chunkMessages (c :: C2)).filter
            (fun m => m.threadId = c.1.id)).length
          simp only [chunkMessages, List.map_cons, List.flatten_cons, List.filter_append]
          rw [hfc, hfr]
          simp [hgc.2.2]
        · rw [hgc.2.2]
          cases hc2 : c.2 with
          | nil => exact absurd hc2 hgc.1
          | cons a l => simp
      · have hfc : c.2.filter (fun m => m.threadId = t.id) = [] := by
          rw [List.filter_eq_nil_iff]
          intro m hm
          have he := hgc.2.1 m hm
          simp only [he]
          intro hfalse
          have : t.id ∈ (chunkThreads C2).map (fun t2 => t2.id) :=
            List.mem_map_of_mem _ ht
          rw [← (by simpa using hfalse : c.1.id = t.id)] at this
          exact hno this
        obtain ⟨hcnt, hpos⟩ := hpair2.2 t ht
        constructor
        · show t.messageCount = ((chunkMessages (c :: C2)).filter
            (fun m => m.threadId = t.id)).length
          simp only [chunkMessages, List.map_cons, List.flatten_cons, List.filter_append]
          rw [hfc]
          simpa [chunkMessages] using hcnt
        · exact hpos

/-- Pairing invariant of the empty adapter stage. -/
theorem pairedInv_nil : PairedInv [] [] :=
  ⟨fun m hm => absurd hm (by simp), fun t ht => absurd ht (by simp)⟩

/-- The adapter stage output satisfies the pairing invariant whenever its
thread ids are distinct; the merge branch of the source is unreachable
because it contradicts its own guard. -/
theorem mergedOf_paired (hash : String → String) (now : Int) (opts : NormalizerOptions)
    (ws : String) (db : DB)
    (hnd : ((mergedOf hash now opts ws db).1.1.map (fun t => t.id)).Nodup) :
    PairedInv (mergedOf hash now opts ws db).1.1 (mergedOf hash now opts ws db).1.2 := by
  simp only [mergedOf] at hnd ⊢
  by_cases hC : obTruthy opts.enableComposer = true
  · rw [if_pos hC] at hnd ⊢
    by_cases hL : (ComposerAdapter.extract hash now ws db).1.length > 0
    · rw [if_pos hL] at hnd ⊢
      simp only [] at hnd ⊢
      by_cases hG : (obTruthy opts.enableChatData &&
          (!obTruthy opts.preferComposer ||
            (ComposerAdapter.extract hash now ws db).1.length == 0)) = true
      · rw [if_pos hG] at hnd ⊢
        by_cases hCD : (ChatDataAdapter.extract hash now ws db).1.length > 0
        · rw [if_pos hCD] at hnd ⊢
          simp only [] at hnd ⊢
          by_cases hM : (obTruthy opts.preferComposer &&
              (ComposerAdapter.extract hash now ws db).1.length > 0) = true
          · exfalso
            rw [Bool.and_eq_true] at hG hM
            have hpc := hM.1
            have hgt := hM.2
            have hG2 := hG.2
            rw [hpc] at hG2
            simp only [Bool.not_true, Bool.false_or] at hG2
            have : (ComposerAdapter.extract hash now ws db).1.length = 0 := by
              simpa using hG2
            simp [this] at hgt
          · rw [if_neg hM] at hnd ⊢
            by_cases hZ : ((ComposerAdapter.extract hash now ws db).1.length == 0) = true
            · exfalso
              have : (ComposerAdapter.extract hash now ws db).1.length = 0 := by
                simpa using hZ
              simp [this] at hL
            · rw [if_neg hZ] at hnd ⊢
              exact paired_of_chunks _ composer_chunks_good hnd
        · rw [if_neg hCD] at hnd ⊢
          exact paired_of_chunks _ composer_chunks_good hnd
      · rw [if_neg hG] at hnd ⊢
        exact paired_of_chunks _ composer_chunks_good hnd
    · rw [if_neg hL] at hnd ⊢
      simp only [] at hnd ⊢
      by_cases hG : (obTruthy opts.enableChatData &&
          (!obTruthy opts.preferComposer || (([] : List Thread)).length == 0)) = true
      · rw [if_pos hG] at hnd ⊢
        by_cases hCD : (ChatDataAdapter.extract hash now ws db).1.length > 0
        · rw [if_pos hCD] at hnd ⊢
          simp only [] at hnd ⊢
          by_cases hM : (obTruthy opts.preferComposer &&
              (([] : List Thread)).length > 0) = true
          · exfalso
            rw [Bool.and_eq_true] at hM
            simp at hM
          · rw [if_neg hM] at hnd ⊢
            rw [if_pos (by decide : ((([] : List Thread)).length == 0) = true)] at hnd ⊢
            exact paired_of_chunks _ chat_chunks_good hnd
        · rw [if_neg hCD] at hnd ⊢
          exact pairedInv_nil
      · rw [if_neg hG] at hnd ⊢
        exact pairedInv_nil
  · rw [if_neg hC] at hnd ⊢
    simp only [] at hnd ⊢
    by_cases hG : (obTruthy opts.enableChatData &&
        (!obTruthy opts.preferComposer || (([] : List Thread)).length == 0)) = true
    · rw [if_pos hG] at hnd ⊢
      by_cases hCD : (ChatDataAdapter.extract hash now ws db).1.length > 0
      · rw [if_pos hCD] at hnd ⊢
        simp only [] at hnd ⊢
        by_cases hM : (obTruthy opts.preferComposer &&
            (([] : List Thread)).length > 0) = true
        · exfalso
          rw [Bool.and_eq_true] at hM
          simp at hM
        · rw [if_neg hM] at hnd ⊢
          rw [if_pos (by decide : ((([] : List Thread)).length == 0) = true)] at hnd ⊢
          exact paired_of_chunks _ chat_chunks_good hnd
      · rw [if_neg hCD] at hnd ⊢
        exact pairedInv_nil
    · rw [if_neg hG] at hnd ⊢
      exact pairedInv_nil

/-- The thread limit preserves the pairing invariant. -/
theorem applyThreadLimit_paired {L : Option Nat} {tm : List Thread × List Message}
    (hp : PairedInv tm.1 tm.2) :
    PairedInv (applyThreadLimit L tm).1 (applyThreadLimit L tm).2 := by
  unfold applyThreadLimit
  cases L with
  | none => exact hp
  | some l =>
    simp only []
    by_cases hc : l ≠ 0 ∧ tm.1.length > l
    · rw [if_pos hc]
      simp only []
      constructor
      · intro m hm
        rw [List.mem_filter] at hm
        obtain ⟨hmem, hcont⟩ := hm
        have hin : m.threadId ∈ ((tm.1.mergeSort
            (fun a b => decide (b.updatedAt ≤ a.updatedAt))).take l).map
            (fun t => t.id) := contains_eq_true_iff.mp (by simpa using hcont)
        obtain ⟨t, ht, he⟩ := List.mem_map.mp hin
        exact ⟨t, ht, he.symm⟩
      · intro t ht
        have htm : t ∈ tm.1 := (List.mergeSort_perm _ _).mem_iff.mp
          ((List.take_sublist _ _).mem ht)
        obtain ⟨hcnt, hpos⟩ := hp.2 t htm
        have hff : (tm.2.filter (fun m => ((tm.1.mergeSort
            (fun a b => decide (b.updatedAt ≤ a.updatedAt))).take l).map
            (fun t2 => t2.id) |>.contains m.threadId)).filter
            (fun m => m.threadId = t.id) = tm.2.filter (fun m => m.threadId = t.id) := by
          rw [List.filter_filter]
          refine List.filter_congr ?_
          intro m hm
          by_cases he : m.threadId = t.id
          · rw [he]
            have hmem2 : t.id ∈ ((tm.1.mergeSort
                (fun a b => decide (b.updatedAt ≤ a.updatedAt))).take l).map
                (fun t2 => t2.id) := List.mem_map_of_mem _ ht
            simp [contains_eq_true_iff]
            simpa using hmem2
          · simp [he]
        refine ⟨?_, hpos⟩
        rw [hff] at *
        exact hcnt
    · rw [if_neg hc]
      exact hp

/-- The thread limit preserves distinctness of thread ids. -/
theorem applyThreadLimit_nodup {L : Option Nat} {tm : List Thread × List Message}
    (hnd : (tm.1.map (fun t => t.id)).Nodup) :
    ((applyThreadLimit L tm).1.map (fun t => t.id)).Nodup := by
  unfold applyThreadLimit
  cases L with
  | none => exact hnd
  | some l =>
    simp only []
    by_cases hc : l ≠ 0 ∧ tm.1.length > l
    · rw [if_pos hc]
      simp only []
      have hperm := ((List.mergeSort_perm tm.1
        (fun a b => decide (b.updatedAt ≤ a.updatedAt))).map (fun t => t.id))
      have hnd2 : ((tm.1.mergeSort (fun a b => decide (b.updatedAt ≤ a.updatedAt))).map
          (fun t => t.id)).Nodup := hperm.nodup_iff.mpr hnd
      exact hnd2.sublist ((List.take_sublist _ _).map _)
    · rw [if_neg hc]
      exact hnd

/-- When the thread limit fires, the kept threads are in descending
updatedAt order. -/
theorem applyThreadLimit_sorted {l : Nat} {tm : List Thread × List Message}
    (hc : l ≠ 0 ∧ tm.1.length > l) :
    (applyThreadLimit (some l) tm).1.Pairwise
      (fun a b => b.updatedAt ≤ a.updatedAt) := by
  unfold applyThreadLimit
  simp only []
  rw [if_pos hc]
  simp only []
  have hs := @List.sorted_mergeSort Thread
    (fun a b : Thread => decide (b.updatedAt ≤ a.updatedAt))
    (fun a b c hab hbc => by
      simp only [decide_eq_true_eq] at hab hbc ⊢
      exact le_trans hbc hab)
    (fun a b => by
      simp only [Bool.or_eq_true, decide_eq_true_eq]
      exact le_total b.updatedAt a.updatedAt)
    tm.1
  refine (hs.sublist (List.take_sublist _ _)).imp ?_
  intro a b h
  simpa using h

/-- The per-thread update of the message limit keeps the thread id. -/
theorem updateThreadForGroup_id (lim : List Message) (t : Thread) :
    (updateThreadForGroup lim t).id = t.id := by
  unfold updateThreadForGroup
  cases lim.getLast? with
  | none => rfl
  | some m => rfl

/-- An in-place update commutes with any projection the update preserves. -/
theorem updateFirst_map {β : Type} {g : Thread → β} {tid : String} {f : Thread → Thread}
    (hf : ∀ t, g (f t) = g t) :
    ∀ ts : List Thread, (updateFirst tid f ts).map g = ts.map g := by
  intro ts
  induction ts with
  | nil => rfl
  | cons t1 ts2 ih =>
    unfold updateFirst
    by_cases he : t1.id = tid
    · rw [if_pos he]
      simp [hf]
    · rw [if_neg he]
      simp [ih]

/-- The message-limit fold commutes with any projection that the per-thread
update preserves. -/
theorem messageLimit_foldl_map {β : Type} (g : Thread → β)
    (hg : ∀ lim t, g (updateThreadForGroup lim t) = g t)
    (msgsAll : List Message) (l : Nat) :
    ∀ (tids : List String) (ts : List Thread) (acc : List Message),
    ((tids.foldl (fun acc tid =>
      let group := msgsAll.filter (fun m => m.threadId = tid)
      let limited := (group.mergeSort (fun a b => decide (a.timestamp ≤ b.timestamp))).take l
      (updateFirst tid (updateThreadForGroup limited) acc.1, acc.2 ++ limited))
      (ts, acc)).1).map g = ts.map g := by
  intro tids
  induction tids with
  | nil => intro ts acc; rfl
  | cons tid tids2 ih =>
    intro ts acc
    rw [List.foldl_cons, ih, updateFirst_map (fun t => hg _ t)]

/-- The message limit commutes with any projection the per-thread update
preserves. -/
theorem applyMessageLimit_map {β : Type} (g : Thread → β)
    (hg : ∀ lim t, g (updateThreadForGroup lim t) = g t)
    (L : Option Nat) (tm : List Thread × List Message) :
    ((applyMessageLimit L tm).1).map g = tm.1.map g := by
  unfold applyMessageLimit
  cases L with
  | none => rfl
  | some l =>
    simp only []
    by_cases hl : l ≠ 0
    · rw [if_pos hl]
      exact messageLimit_foldl_map g hg tm.2 l _ tm.1 []
    · rw [if_neg hl]

/-- In a duplicate-free thread list, a member of the in-place update carrying
the updated id is the update of the unique original carrier. -/
theorem updateFirst_mem_id {tid : String} {f : Thread → Thread}
    (hf : ∀ t, (f t).id = t.id) :
    ∀ {ts : List Thread}, (ts.map (fun t => t.id)).Nodup →
    ∀ {t2 : Thread}, t2 ∈ updateFirst tid f ts → t2.id = tid →
    ∃ t0 ∈ ts, t0.id = tid ∧ t2 = f t0 := by
  intro ts
  induction ts with
  | nil => intro _ t2 hmem _; exact absurd hmem (by simp [updateFirst])
  | cons t1 ts2 ih =>
    intro hnd t2 hmem hid
    rw [List.map_cons, List.nodup_cons] at hnd
    obtain ⟨hno, hnd2⟩ := hnd
    unfold updateFirst at hmem
    by_cases he : t1.id = tid
    · rw [if_pos he] at hmem
      rcases List.mem_cons.mp hmem with rfl | hmem2
      · exact ⟨t1, by simp, he, rfl⟩
      · exfalso
        have : t2.id ∈ ts2.map (fun t => t.id) := List.mem_map_of_mem _ hmem2
        rw [hid, ← he] at this
        exact hno this
    · rw [if_neg he] at hmem
      rcases List.mem_cons.mp hmem with rfl | hmem2
      · exact absurd hid he
      · obtain ⟨t0, ht0, hid0, heq⟩ := ih hnd2 hmem2 hid
        exact ⟨t0, by simp [ht0], hid0, heq⟩

/-- Members of an in-place thread update: untouched originals or the update
of an original carrying the updated id. -/
theorem mem_updateFirst' {tid : String} {f : Thread → Thread} :
    ∀ {ts : List Thread} {t : Thread}, t ∈ updateFirst tid f ts →
    t ∈ ts ∨ ∃ t0 ∈ ts, t0.id = tid ∧ t = f t0 := by
  intro ts
  induction ts with
  | nil => intro t h; exact absurd h (by simp [updateFirst])
  | cons t1 ts2 ih =>
    intro t h
    unfold updateFirst at h
    by_cases he : t1.id = tid
    · rw [if_pos he] at h
      rcases List.mem_cons.mp h with rfl | h2
      · exact Or.inr ⟨t1, by simp, he, rfl⟩
      · exact Or.inl (by simp [h2])
    · rw [if_neg he] at h
      rcases List.mem_cons.mp h with rfl | h2
      · exact Or.inl (by simp)
      · rcases ih h2 with h3 | ⟨t0, ht0, hid0, rfl⟩
        · exact Or.inl (by simp [h3])
        · exact Or.inr ⟨t0, by simp [ht0], hid0, rfl⟩

/-- The group of a listed id inside the grouped, truncated message list. -/
theorem filter_flatten_groups_eq (msgsAll : List Message) (l : Nat) (tid : String) :
    ∀ (tids : List String), tids.Nodup → tid ∈ tids →
    (((tids.map (fun t2 =>
      ((msgsAll.filter (fun m => m.threadId = t2)).mergeSort
        (fun a b => decide (a.timestamp ≤ b.timestamp))).take l)).flatten).filter
      (fun m => m.threadId = tid)) =
    ((msgsAll.filter (fun m => m.threadId = tid)).mergeSort
      (fun a b => decide (a.timestamp ≤ b.timestamp))).take l := by
  intro tids
  induction tids with
  | nil => intro _ hmem; exact absurd hmem (by simp)
  | cons t ts2 ih =>
    intro hnd hmem
    rcases List.nodup_cons.mp hnd with ⟨htni, hnd2⟩
    rw [List.map_cons, List.flatten_cons, List.filter_append]
    by_cases he : t = tid
    · subst he
      rw [filter_groups_notin msgsAll l t ts2 htni, List.append_nil]
      rw [List.filter_eq_self]
      intro m hm
      simp [(mem_group_limited hm).1]
    · have h1 : (((msgsAll.filter (fun m => m.threadId = t)).mergeSort
          (fun a b => decide (a.timestamp ≤ b.timestamp))).take l).filter
          (fun m => m.threadId = tid) = [] := by
        rw [List.filter_eq_nil_iff]
        intro m hm
        simp [(mem_group_limited hm).1, he]
      rw [h1, List.nil_append]
      refine ih hnd2 ?_
      rcases List.mem_cons.mp hmem with h | h
      · exact absurd h.symm he
      · exact h

/-- Message counts set by the message-limit fold. -/
theorem messageLimit_foldl_count (msgsAll : List Message) (l : Nat) :
    ∀ (tids : List String) (ts : List Thread) (acc : List Message),
    (ts.map (fun t => t.id)).Nodup → tids.Nodup →
    ∀ t2 ∈ (tids.foldl (fun acc tid =>
      let group := msgsAll.filter (fun m => m.threadId = tid)
      let limited := (group.mergeSort (fun a b => decide (a.timestamp ≤ b.timestamp))).take l
      (updateFirst tid (updateThreadForGroup limited) acc.1, acc.2 ++ limited))
      (ts, acc)).1,
      (t2.id ∈ tids →
        t2.messageCount = (((msgsAll.filter (fun m => m.threadId = t2.id)).mergeSort
          (fun a b => decide (a.timestamp ≤ b.timestamp))).take l).length) ∧
      (t2.id ∉ tids → t2 ∈ ts) := by
  intro tids
  induction tids with
  | nil =>
    intro ts acc _ _ t2 h
    exact ⟨fun hmem => absurd hmem (by simp), fun _ => h⟩
  | cons tid tids2 ih =>
    intro ts acc hndts hnd t2 h
    rcases List.nodup_cons.mp hnd with ⟨htni, hnd2⟩
    rw [List.foldl_cons] at h
    have hndts2 : ((updateFirst tid (updateThreadForGroup
        (((msgsAll.filter (fun m => m.threadId = tid)).mergeSort
          (fun a b => decide (a.timestamp ≤ b.timestamp))).take l)) ts).map
        (fun t => t.id)).Nodup := by
      rw [updateFirst_map (fun t => updateThreadForGroup_id _ t)]
      exact hndts
    obtain ⟨hA, hB⟩ := ih _ _ hndts2 hnd2 t2 h
    constructor
    · intro hmem
      by_cases hin2 : t2.id ∈ tids2
      · exact hA hin2
      · have hid : t2.id = tid := by
          rcases List.mem_cons.mp hmem with h2 | h2
          · exact h2
          · exact absurd h2 hin2
        have hmem2 := hB hin2
        obtain ⟨t0, ht0, hid0, heq⟩ := updateFirst_mem_id
          (fun t => updateThreadForGroup_id _ t) hndts hmem2 hid
        rw [heq]
        unfold updateThreadForGroup
        cases hgl : (((msgsAll.filter (fun m => m.threadId = tid)).mergeSort
            (fun a b => decide (a.timestamp ≤ b.timestamp))).take l).getLast? with
        | none =>
          simp only []
          rw [heq] at hid
          rw [updateThreadForGroup_id] at hid
          rw [hid0]
        | some mz =>
          simp only []
          rw [heq] at hid
          rw [updateThreadForGroup_id] at hid
          rw [hid0]
    · intro hnot
      have hnot2 : t2.id ∉ tids2 := fun hx => hnot (by simp [hx])
      have hmem2 := hB hnot2
      rcases mem_updateFirst' hmem2 with h3 | ⟨t0, ht0, hid0, heq⟩
      · exact h3
      · exfalso
        rw [heq, updateThreadForGroup_id, hid0] at hnot
        exact hnot (by simp)

/-- Messages kept by the (enabled) message limit, as grouped truncations. -/
theorem applyMessageLimit_snd {l : Nat} (hl : l ≠ 0) (tm : List Thread × List Message) :
    (applyMessageLimit (some l) tm).2 =
    ((firstDedup (tm.2.map (fun m => m.threadId))).map (fun tid =>
      ((tm.2.filter (fun m => m.threadId = tid)).mergeSort
        (fun a b => decide (a.timestamp ≤ b.timestamp))).take l)).flatten := by
  unfold applyMessageLimit
  simp only []
  rw [if_pos hl]
  simp only [messageLimit_foldl_snd tm.2 l, List.nil_append]

/-- Threads surviving the (enabled) message limit, as the fold result. -/
theorem applyMessageLimit_fst {l : Nat} (hl : l ≠ 0) (tm : List Thread × List Message) :
    (applyMessageLimit (some l) tm).1 =
    ((firstDedup (tm.2.map (fun m => m.threadId))).foldl (fun acc tid =>
      let group := tm.2.filter (fun m => m.threadId = tid)
      let limited := (group.mergeSort (fun a b => decide (a.timestamp ≤ b.timestamp))).take l
      (updateFirst tid (updateThreadForGroup limited) acc.1, acc.2 ++ limited))
      (tm.1, [])).1 := by
  unfold applyMessageLimit
  simp only []
  rw [if_pos hl]

/-- Under the pairing invariant and distinct ids, the message limit leaves
every thread's messageCount equal to its kept-message count. -/
theorem applyMessageLimit_count {l : Nat} (hl : l ≠ 0) {tm : List Thread × List Message}
    (hnd : (tm.1.map (fun t => t.id)).Nodup) (hp : PairedInv tm.1 tm.2) :
    ∀ t2 ∈ (applyMessageLimit (some l) tm).1,
      t2.messageCount = ((applyMessageLimit (some l) tm).2.filter
        (fun m => m.threadId = t2.id)).length := by
  intro t2 h
  have htids : (firstDedup (tm.2.map (fun m => m.threadId))).Nodup := firstDedup_nodup _
  rw [applyMessageLimit_fst hl tm] at h
  obtain ⟨hA, hB⟩ := messageLimit_foldl_count tm.2 l _ tm.1 [] hnd htids t2 h
  rw [applyMessageLimit_snd hl tm]
  by_cases hin : t2.id ∈ firstDedup (tm.2.map (fun m => m.threadId))
  · rw [filter_flatten_groups_eq tm.2 l t2.id _ htids hin]
    exact hA hin
  · have hmem := hB hin
    obtain ⟨hcnt, hpos⟩ := hp.2 t2 hmem
    have hempty : tm.2.filter (fun m => m.threadId = t2.id) = [] := by
      rw [List.filter_eq_nil_iff]
      intro m hm hfalse
      have hx : m.threadId ∈ tm.2.map (fun m => m.threadId) := List.mem_map_of_mem _ hm
      rw [(by simpa using hfalse : m.threadId = t2.id)] at hx
      exact hin (mem_firstDedup.mpr hx)
    rw [filter_groups_notin tm.2 l t2.id _ hin, hcnt, hempty]

/-- The (enabled) message limit keeps referential integrity. -/
theorem applyMessageLimit_fk {l : Nat} (hl : l ≠ 0) {tm : List Thread × List Message}
    (hp : PairedInv tm.1 tm.2) :
    ∀ m ∈ (applyMessageLimit (some l) tm).2,
      ∃ t ∈ (applyMessageLimit (some l) tm).1, m.threadId = t.id := by
  intro m hm
  rw [applyMessageLimit_snd hl tm] at hm
  obtain ⟨g, hg, hmg⟩ := List.mem_flatten.mp hm
  obtain ⟨tid, htid, rfl⟩ := List.mem_map.mp hg
  obtain ⟨hmt, hmm⟩ := mem_group_limited hmg
  obtain ⟨t, ht, he⟩ := hp.1 m hmm
  have hmap : ((applyMessageLimit (some l) tm).1).map (fun t => t.id) =
      tm.1.map (fun t => t.id) :=
    applyMessageLimit_map _ (fun lim t => updateThreadForGroup_id lim t) _ tm
  have hidm : t.id ∈ ((applyMessageLimit (some l) tm).1).map (fun t => t.id) := by
    rw [hmap]
    exact List.mem_map_of_mem _ ht
  obtain ⟨t3, ht3, he3⟩ := List.mem_map.mp hidm
  exact ⟨t3, ht3, by rw [he, he3]⟩

/-- Each per-id message group of the (enabled) message limit's output is in
ascending timestamp order. -/
theorem applyMessageLimit_group_sorted {l : Nat} (hl : l ≠ 0)
    (tm : List Thread × List Message) (tid : String) :
    ((applyMessageLimit (some l) tm).2.filter (fun m => m.threadId = tid)).Pairwise
      (fun a b => a.timestamp ≤ b.timestamp) := by
  rw [applyMessageLimit_snd hl tm]
  by_cases hin : tid ∈ firstDedup (tm.2.map (fun m => m.threadId))
  · rw [filter_flatten_groups_eq tm.2 l tid _ (firstDedup_nodup _) hin]
    have hs := @List.sorted_mergeSort Message
      (fun a b : Message => decide (a.timestamp ≤ b.timestamp))
      (fun a b c hab hbc => by
        simp only [decide_eq_true_eq] at hab hbc ⊢
        exact le_trans hab hbc)
      (fun a b => by
        simp only [Bool.or_eq_true, decide_eq_true_eq]
        exact le_total a.timestamp b.timestamp)
      (tm.2.filter (fun m => m.threadId = tid))
    refine (hs.sublist (List.take_sublist _ _)).imp ?_
    intro a b hx
    simpa using hx
  · rw [filter_groups_notin tm.2 l tid _ hin]
    exact List.Pairwise.nil

/-- C1 amended: with nonzero limits configured (zero is falsy and disables a
limit) and distinct adapter-stage thread ids (duplicate ids break the
messageCount recomputation), the result keeps at most L threads; every kept
message references a kept thread; every kept thread's messageCount equals the
number of kept messages referencing it; when the thread limit fires the kept
threads are in descending updatedAt order; and every per-id message group is
in ascending timestamp order. -/
theorem retention_invariant_amended (hash : String → String) (now : Int)
    (popts : PartialOptions) (dbPath ws : String) (db : DB) (L M : Nat)
    (hL : (spreadOptions popts).maxThreadsPerDb = some L) (hLpos : 0 < L)
    (hM : (spreadOptions popts).maxMessagesPerThread = some M) (hMpos : 0 < M)
    (hnd : ((mergedOf hash now (spreadOptions popts) ws db).1.1.map
      (fun t => t.id)).Nodup) :
    ((normalizeDatabase hash now popts dbPath ws db).threads.length ≤ L) ∧
    (∀ m ∈ (normalizeDatabase hash now popts dbPath ws db).messages,
      ∃ t ∈ (normalizeDatabase hash now popts dbPath ws db).threads,
        m.threadId = t.id) ∧
    (∀ t ∈ (normalizeDatabase hash now popts dbPath ws db).threads,
      t.messageCount =
        ((normalizeDatabase hash now popts dbPath ws db).messages.filter
          (fun m => m.threadId = t.id)).length) ∧
    ((mergedOf hash now (spreadOptions popts) ws db).1.1.length > L →
      (normalizeDatabase hash now popts dbPath ws db).threads.Pairwise
        (fun a b => b.updatedAt ≤ a.updatedAt)) ∧
    (∀ tid : String,
      ((normalizeDatabase hash now popts dbPath ws db).messages.filter
        (fun m => m.threadId = tid)).Pairwise
        (fun a b => a.timestamp ≤ b.timestamp)) := by
  have hMne : M ≠ 0 := by omega
  have hthreads : (normalizeDatabase hash now popts dbPath ws db).threads =
      (applyMessageLimit (some M) (applyThreadLimit (some L)
        (mergedOf hash now (spreadOptions popts) ws db).1)).1 := by
    show (applyMessageLimit (spreadOptions popts).maxMessagesPerThread
      (applyThreadLimit (spreadOptions popts).maxThreadsPerDb
        (mergedOf hash now (spreadOptions popts) ws db).1)).1 = _
    rw [hL, hM]
  have hmsgs : (normalizeDatabase hash now popts dbPath ws db).messages =
      (applyMessageLimit (some M) (applyThreadLimit (some L)
        (mergedOf hash now (spreadOptions popts) ws db).1)).2 := by
    show (applyMessageLimit (spreadOptions popts).maxMessagesPerThread
      (applyThreadLimit (spreadOptions popts).maxThreadsPerDb
        (mergedOf hash now (spreadOptions popts) ws db).1)).2 = _
    rw [hL, hM]
  have hp0 : PairedInv (mergedOf hash now (spreadOptions popts) ws db).1.1
      (mergedOf hash now (spreadOptions popts) ws db).1.2 :=
    mergedOf_paired hash now (spreadOptions popts) ws db hnd
  have hp1 : PairedInv
      (applyThreadLimit (some L) (mergedOf hash now (spreadOptions popts) ws db).1).1
      (applyThreadLimit (some L) (mergedOf hash now (spreadOptions popts) ws db).1).2 :=
    applyThreadLimit_paired hp0
  have hnd1 : ((applyThreadLimit (some L)
      (mergedOf hash now (spreadOptions popts) ws db).1).1.map
      (fun t => t.id)).Nodup := applyThreadLimit_nodup hnd
  refine ⟨?_, ?_, ?_, ?_, ?_⟩
  · rw [hthreads, applyMessageLimit_threads_length]
    exact applyThreadLimit_le hLpos _
  · intro m hm
    rw [hmsgs] at hm
    rw [hthreads]
    exact applyMessageLimit_fk hMne hp1 m hm
  · intro t ht
    rw [hthreads] at ht
    rw [hmsgs]
    exact applyMessageLimit_count hMne hnd1 hp1 t ht
  · intro hgt
    rw [hthreads]
    have hsorted := @applyThreadLimit_sorted L
      ((mergedOf hash now (spreadOptions popts) ws db).1) ⟨by omega, hgt⟩
    have hmap : ((applyMessageLimit (some M) (applyThreadLimit (some L)
        (mergedOf hash now (spreadOptions popts) ws db).1)).1).map
        (fun t => t.updatedAt) =
        ((applyThreadLimit (some L)
          (mergedOf hash now (spreadOptions popts) ws db).1).1).map
        (fun t => t.updatedAt) :=
      applyMessageLimit_map _ (fun lim t => (updateThreadForGroup_dates lim t).2) _ _
    have h1 : ((applyThreadLimit (some L)
        (mergedOf hash now (spreadOptions popts) ws db).1).1.map
        (fun t => t.updatedAt)).Pairwise (fun x y => y ≤ x) :=
      List.pairwise_map.mpr hsorted
    rw [← hmap] at h1
    exact List.pairwise_map.mp h1
  · intro tid
    rw [hmsgs]
    exact applyMessageLimit_group_sorted hMne _ tid

/-- Concrete instance of the amended retention invariant on a single-thread
composer database with the default limits. -/
theorem retention_invariant_witness :
    ((normalizeDatabase idHash 0 {} "p" "w" dbComposerC1).threads.length ≤ 1000) ∧
    (∀ t ∈ (normalizeDatabase idHash 0 {} "p" "w" dbComposerC1).threads,
      t.messageCount =
        ((normalizeDatabase idHash 0 {} "p" "w" dbComposerC1).messages.filter
          (fun m => m.threadId = t.id)).length) ∧
    (∀ m ∈ (normalizeDatabase idHash 0 {} "p" "w" dbComposerC1).messages,
      ∃ t ∈ (normalizeDatabase idHash 0 {} "p" "w" dbComposerC1).threads,
        m.threadId = t.id) := by
  have h := retention_invariant_amended idHash 0 {} "p" "w" dbComposerC1 1000 1000
    rfl (by norm_num) rfl (by norm_num) (by decide)
  exact ⟨h.1, h.2.2.1, h.2.1⟩
